import Mathlib

/-!
A shallow embedding of the syntax-highlighting core of the
`edit-syntax-highlighting` repository (crates/edit/src/syntax.rs and its
submodules), together with theorems settling the specification claims.

Conventions of the embedding:
* Raw document bytes are a `List Nat` (each entry a byte value 0..255);
  `byteAt text pos` is `text[pos]`, Rust's panicking index is only used
  behind the same `pos < len` guards as the source.
* Every Rust `while` loop becomes a structurally recursive function with an
  explicit fuel argument; call sites pass `text.length` (each loop advances
  its position by at least one byte per iteration while below `text.length`,
  so this fuel is sufficient, except for the HTML attribute loop whose
  non-progress is itself proved below).
* `usize` arithmetic is `Nat` (no overflow is reachable: positions are
  bounded by the list length).
* Rust `Range<usize>` spans become `Span` with fields `start`/`stop`
  (`end` is a Lean keyword).
* The token kinds `Macro` and `RustMacro` from token.rs are named
  `MacroKind` and `RustMacroKind` here.
-/

namespace Edit

/-- Byte classifier from lexer.rs `is_whitespace`. -/
def is_whitespace (b : Nat) : Bool :=
  b = 32 || b = 9 || b = 10 || b = 13

/-- Byte classifier from lexer.rs `is_ascii_alpha`. -/
def is_ascii_alpha (b : Nat) : Bool :=
  (65 ≤ b && b ≤ 90) || (97 ≤ b && b ≤ 122)

/-- Byte classifier from lexer.rs `is_ascii_digit`. -/
def is_ascii_digit (b : Nat) : Bool :=
  48 ≤ b && b ≤ 57

/-- Byte classifier from lexer.rs `is_ascii_alphanumeric`. -/
def is_ascii_alphanumeric (b : Nat) : Bool :=
  is_ascii_alpha b || is_ascii_digit b

/-- Byte classifier from lexer.rs `is_ident_start`. -/
def is_ident_start (b : Nat) : Bool :=
  is_ascii_alpha b || b = 95

/-- Byte classifier from lexer.rs `is_ident_continue`. -/
def is_ident_continue (b : Nat) : Bool :=
  is_ascii_alphanumeric b || b = 95

/-- The token kinds of token.rs `TokenKind` (the `Macro`/`RustMacro`
variants are renamed `MacroKind`/`RustMacroKind`). -/
inductive TokenKind where
  | Whitespace
  | Comment
  | Error
  | String
  | Number
  | Boolean
  | Null
  | Char
  | Keyword
  | KeywordControl
  | KeywordFunction
  | KeywordImport
  | KeywordStorage
  | KeywordType
  | KeywordOperator
  | Identifier
  | TypeName
  | FunctionName
  | VariableName
  | PropertyName
  | ParameterName
  | Operator
  | Punctuation
  | Delimiter
  | Separator
  | Attribute
  | MacroKind
  | Label
  | Escape
  | JsonKey
  | JsonBrace
  | JsonBracket
  | JsonColon
  | JsonComma
  | RustLifetime
  | RustMacroKind
  | RustAttribute
  | MarkdownHeading
  | MarkdownBold
  | MarkdownItalic
  | MarkdownCode
  | MarkdownLink
deriving DecidableEq

/-- A half-open byte range, token.rs `TokenSpan` (= `Range<usize>`);
`stop` is the exclusive upper bound (Rust's `end`). -/
structure Span where
  start : Nat
  stop : Nat
deriving DecidableEq

/-- token.rs `Token`. -/
structure Token where
  kind : TokenKind
  span : Span
deriving DecidableEq

/-- lexer.rs `Language`. -/
inductive Language where
  | PlainText
  | Json
  | Rust
  | Python
  | JavaScript
  | TypeScript
  | Markdown
  | Toml
  | Yaml
  | C
  | Cpp
  | CSharp
  | Go
  | Html
  | Css
  | Java
  | Xml
  | Shell
  | Sql
  | AsciiDoc
deriving DecidableEq

/-- `text[pos]` on the byte list (call sites keep the source's
`pos < len` guards, so the default is never the value actually read). -/
def byteAt (text : List Nat) (pos : Nat) : Nat :=
  text.getD pos 0

/-- ASCII bytes of a keyword string (all keyword tables are ASCII). -/
def bytes (s : String) : List Nat :=
  s.data.map (fun c => c.toNat)

/-- The sub-slice `text[a..b]` used for keyword classification. -/
def sliceB (text : List Nat) (a b : Nat) : List Nat :=
  (text.drop a).take (b - a)

/-! ### Fueled scanning loops

Each mirrors one shape of `while` loop appearing in the lexers. -/

/-- `while pos < len && p(text[pos]) { pos += 1 }`. -/
def scanWhile (text : List Nat) (p : Nat → Bool) : Nat → Nat → Nat
  | 0, pos => pos
  | fuel + 1, pos =>
    if pos < text.length ∧ p (byteAt text pos) = true then
      scanWhile text p fuel (pos + 1)
    else pos

/-- Backslash-escaped quoted scan: `while pos < len { if escaped
{ escaped = false } else if text[pos] == 92 { escaped = true } else if
text[pos] == q { pos += 1; break } pos += 1 }`. -/
def scanEsc (text : List Nat) (q : Nat) : Nat → Nat → Bool → Nat
  | 0, pos, _ => pos
  | fuel + 1, pos, escaped =>
    if pos < text.length then
      if escaped then scanEsc text q fuel (pos + 1) false
      else if byteAt text pos = 92 then scanEsc text q fuel (pos + 1) true
      else if byteAt text pos = q then pos + 1
      else scanEsc text q fuel (pos + 1) false
    else pos

/-- Like `scanEsc` but additionally breaking (without consuming) at a
newline, as in the Python/TOML single-line string loops. -/
def scanEscNl (text : List Nat) (q : Nat) : Nat → Nat → Bool → Nat
  | 0, pos, _ => pos
  | fuel + 1, pos, escaped =>
    if pos < text.length then
      if escaped then scanEscNl text q fuel (pos + 1) false
      else if byteAt text pos = 92 then scanEscNl text q fuel (pos + 1) true
      else if byteAt text pos = q then pos + 1
      else if byteAt text pos = 10 then pos
      else scanEscNl text q fuel (pos + 1) false
    else pos

/-- Two-byte terminator scan (block comments):
`while pos + 1 < len { if text[pos] == a && text[pos+1] == b
{ pos += 2; break } pos += 1 }`. -/
def scanPair (text : List Nat) (a b : Nat) : Nat → Nat → Nat
  | 0, pos => pos
  | fuel + 1, pos =>
    if pos + 1 < text.length then
      if byteAt text pos = a ∧ byteAt text (pos + 1) = b then pos + 2
      else scanPair text a b fuel (pos + 1)
    else pos

/-- Three-byte terminator scan (triple-quoted strings, fenced code):
`while pos + 2 < len { if qqq { pos += 3; break } pos += 1 }`. -/
def scanTriple (text : List Nat) (q : Nat) : Nat → Nat → Nat
  | 0, pos => pos
  | fuel + 1, pos =>
    if pos + 2 < text.length then
      if byteAt text pos = q ∧ byteAt text (pos + 1) = q ∧ byteAt text (pos + 2) = q then
        pos + 3
      else scanTriple text q fuel (pos + 1)
    else pos

/-- Doubled-quote escaped scan (SQL strings, C# verbatim strings):
on `q` consume it, then a doubled `q` continues the scan, anything else
ends it. -/
def scanDoubled (text : List Nat) (q : Nat) : Nat → Nat → Nat
  | 0, pos => pos
  | fuel + 1, pos =>
    if pos < text.length then
      if byteAt text pos = q then
        if pos + 1 < text.length ∧ byteAt text (pos + 1) = q then
          scanDoubled text q fuel (pos + 2)
        else pos + 1
      else scanDoubled text q fuel (pos + 1)
    else pos

/-- C/C++ preprocessor logical-line scan: stops at a newline not preceded
by a backslash. -/
def scanLogicalLine (text : List Nat) : Nat → Nat → Nat
  | 0, pos => pos
  | fuel + 1, pos =>
    if pos < text.length then
      if byteAt text pos = 10 ∧ 0 < pos ∧ byteAt text (pos - 1) ≠ 92 then pos
      else scanLogicalLine text fuel (pos + 1)
    else pos

/-- Rust nesting block-comment scan (rust.rs), with explicit depth. -/
def scanNested (text : List Nat) : Nat → Nat → Nat → Nat
  | 0, pos, _ => pos
  | fuel + 1, pos, depth =>
    if pos + 1 < text.length ∧ 0 < depth then
      if byteAt text pos = 47 ∧ byteAt text (pos + 1) = 42 then
        scanNested text fuel (pos + 2) (depth + 1)
      else if byteAt text pos = 42 ∧ byteAt text (pos + 1) = 47 then
        scanNested text fuel (pos + 2) (depth - 1)
      else scanNested text fuel (pos + 1) depth
    else pos

/-- Shell `$(...)` scan (shell.rs), with explicit parenthesis depth. -/
def scanParen (text : List Nat) : Nat → Nat → Nat → Nat
  | 0, pos, _ => pos
  | fuel + 1, pos, depth =>
    if pos < text.length ∧ 0 < depth then
      scanParen text fuel (pos + 1)
        (if byteAt text pos = 40 then depth + 1
         else if byteAt text pos = 41 then depth - 1
         else depth)
    else pos

/-- Rust attribute `#[...]` scan (rust.rs), with explicit bracket depth. -/
def scanRustAttr (text : List Nat) : Nat → Nat → Nat → Nat
  | 0, pos, _ => pos
  | fuel + 1, pos, depth =>
    if pos < text.length then
      if byteAt text pos = 91 then scanRustAttr text fuel (pos + 1) (depth + 1)
      else if byteAt text pos = 93 then
        if depth = 0 then pos + 1
        else scanRustAttr text fuel (pos + 1) (depth - 1)
      else scanRustAttr text fuel (pos + 1) depth
    else pos

/-! ### Bounds lemmas for the scanning loops -/

theorem scanWhile_ge (text : List Nat) (p : Nat → Bool) :
    ∀ fuel pos, pos ≤ scanWhile text p fuel pos := by
  intro fuel
  induction fuel with
  | zero => intro pos; simp [scanWhile]
  | succ n ih =>
    intro pos
    simp only [scanWhile]
    split
    · exact Nat.le_trans (Nat.le_succ pos) (ih (pos + 1))
    · exact Nat.le_refl pos

theorem scanWhile_le (text : List Nat) (p : Nat → Bool) :
    ∀ fuel pos, pos ≤ text.length → scanWhile text p fuel pos ≤ text.length := by
  intro fuel
  induction fuel with
  | zero => intro pos h; simpa [scanWhile] using h
  | succ n ih =>
    intro pos h
    simp only [scanWhile]
    split
    · next hc => exact ih (pos + 1) hc.1
    · exact h

theorem scanEsc_ge (text : List Nat) (q : Nat) :
    ∀ fuel pos escaped, pos ≤ scanEsc text q fuel pos escaped := by
  intro fuel
  induction fuel with
  | zero => intro pos e; simp [scanEsc]
  | succ n ih =>
    intro pos e
    simp only [scanEsc]
    split
    · split
      · exact Nat.le_trans (Nat.le_succ pos) (ih (pos + 1) false)
      · split
        · exact Nat.le_trans (Nat.le_succ pos) (ih (pos + 1) true)
        · split
          · exact Nat.le_succ pos
          · exact Nat.le_trans (Nat.le_succ pos) (ih (pos + 1) false)
    · exact Nat.le_refl pos

theorem scanEsc_le (text : List Nat) (q : Nat) :
    ∀ fuel pos escaped, pos ≤ text.length →
      scanEsc text q fuel pos escaped ≤ text.length := by
  intro fuel
  induction fuel with
  | zero => intro pos e h; simpa [scanEsc] using h
  | succ n ih =>
    intro pos e h
    simp only [scanEsc]
    split
    · next hlt =>
      split
      · exact ih (pos + 1) false hlt
      · split
        · exact ih (pos + 1) true hlt
        · split
          · exact hlt
          · exact ih (pos + 1) false hlt
    · exact h

theorem scanWhile_advance (text : List Nat) (p : Nat → Bool) (fuel pos : Nat)
    (hf : 0 < fuel) (hp : pos < text.length) (hb : p (byteAt text pos) = true) :
    pos + 1 ≤ scanWhile text p fuel pos := by
  cases fuel with
  | zero => omega
  | succ n =>
    simp only [scanWhile]
    rw [if_pos ⟨hp, hb⟩]
    exact scanWhile_ge text p n (pos + 1)

theorem scanEscNl_ge (text : List Nat) (q : Nat) :
    ∀ fuel pos escaped, pos ≤ scanEscNl text q fuel pos escaped := by
  intro fuel
  induction fuel with
  | zero => intro pos e; simp [scanEscNl]
  | succ n ih =>
    intro pos e
    simp only [scanEscNl]
    split
    · split
      · exact Nat.le_trans (Nat.le_succ pos) (ih (pos + 1) false)
      · split
        · exact Nat.le_trans (Nat.le_succ pos) (ih (pos + 1) true)
        · split
          · exact Nat.le_succ pos
          · split
            · exact Nat.le_refl pos
            · exact Nat.le_trans (Nat.le_succ pos) (ih (pos + 1) false)
    · exact Nat.le_refl pos

theorem scanEscNl_le (text : List Nat) (q : Nat) :
    ∀ fuel pos escaped, pos ≤ text.length →
      scanEscNl text q fuel pos escaped ≤ text.length := by
  intro fuel
  induction fuel with
  | zero => intro pos e h; simpa [scanEscNl] using h
  | succ n ih =>
    intro pos e h
    simp only [scanEscNl]
    split
    · next hlt =>
      split
      · exact ih (pos + 1) false hlt
      · split
        · exact ih (pos + 1) true hlt
        · split
          · exact hlt
          · split
            · exact h
            · exact ih (pos + 1) false hlt
    · exact h

theorem scanPair_ge (text : List Nat) (a b : Nat) :
    ∀ fuel pos, pos ≤ scanPair text a b fuel pos := by
  intro fuel
  induction fuel with
  | zero => intro pos; simp [scanPair]
  | succ n ih =>
    intro pos
    simp only [scanPair]
    split
    · split
      · omega
      · exact Nat.le_trans (Nat.le_succ pos) (ih (pos + 1))
    · exact Nat.le_refl pos

theorem scanPair_le (text : List Nat) (a b : Nat) :
    ∀ fuel pos, pos ≤ text.length → scanPair text a b fuel pos ≤ text.length := by
  intro fuel
  induction fuel with
  | zero => intro pos h; simpa [scanPair] using h
  | succ n ih =>
    intro pos h
    simp only [scanPair]
    split
    · next hlt =>
      split
      · omega
      · exact ih (pos + 1) (by omega)
    · exact h

theorem scanTriple_ge (text : List Nat) (q : Nat) :
    ∀ fuel pos, pos ≤ scanTriple text q fuel pos := by
  intro fuel
  induction fuel with
  | zero => intro pos; simp [scanTriple]
  | succ n ih =>
    intro pos
    simp only [scanTriple]
    split
    · split
      · omega
      · exact Nat.le_trans (Nat.le_succ pos) (ih (pos + 1))
    · exact Nat.le_refl pos

theorem scanTriple_le (text : List Nat) (q : Nat) :
    ∀ fuel pos, pos ≤ text.length → scanTriple text q fuel pos ≤ text.length := by
  intro fuel
  induction fuel with
  | zero => intro pos h; simpa [scanTriple] using h
  | succ n ih =>
    intro pos h
    simp only [scanTriple]
    split
    · next hlt =>
      split
      · omega
      · exact ih (pos + 1) (by omega)
    · exact h

theorem scanDoubled_ge (text : List Nat) (q : Nat) :
    ∀ fuel pos, pos ≤ scanDoubled text q fuel pos := by
  intro fuel
  induction fuel with
  | zero => intro pos; simp [scanDoubled]
  | succ n ih =>
    intro pos
    simp only [scanDoubled]
    split
    · split
      · split
        · exact Nat.le_trans (by omega) (ih (pos + 2))
        · exact Nat.le_succ pos
      · exact Nat.le_trans (Nat.le_succ pos) (ih (pos + 1))
    · exact Nat.le_refl pos

theorem scanDoubled_le (text : List Nat) (q : Nat) :
    ∀ fuel pos, pos ≤ text.length → scanDoubled text q fuel pos ≤ text.length := by
  intro fuel
  induction fuel with
  | zero => intro pos h; simpa [scanDoubled] using h
  | succ n ih =>
    intro pos h
    simp only [scanDoubled]
    split
    · next hlt =>
      split
      · split
        · next hq => exact ih (pos + 2) (by omega)
        · omega
      · exact ih (pos + 1) hlt
    · exact h

theorem scanLogicalLine_ge (text : List Nat) :
    ∀ fuel pos, pos ≤ scanLogicalLine text fuel pos := by
  intro fuel
  induction fuel with
  | zero => intro pos; simp [scanLogicalLine]
  | succ n ih =>
    intro pos
    simp only [scanLogicalLine]
    split
    · split
      · exact Nat.le_refl pos
      · exact Nat.le_trans (Nat.le_succ pos) (ih (pos + 1))
    · exact Nat.le_refl pos

theorem scanLogicalLine_le (text : List Nat) :
    ∀ fuel pos, pos ≤ text.length → scanLogicalLine text fuel pos ≤ text.length := by
  intro fuel
  induction fuel with
  | zero => intro pos h; simpa [scanLogicalLine] using h
  | succ n ih =>
    intro pos h
    simp only [scanLogicalLine]
    split
    · next hlt =>
      split
      · exact h
      · exact ih (pos + 1) hlt
    · exact h

theorem scanNested_ge (text : List Nat) :
    ∀ fuel pos depth, pos ≤ scanNested text fuel pos depth := by
  intro fuel
  induction fuel with
  | zero => intro pos d; simp [scanNested]
  | succ n ih =>
    intro pos d
    simp only [scanNested]
    split
    · split
      · exact Nat.le_trans (by omega) (ih (pos + 2) (d + 1))
      · split
        · exact Nat.le_trans (by omega) (ih (pos + 2) (d - 1))
        · exact Nat.le_trans (Nat.le_succ pos) (ih (pos + 1) d)
    · exact Nat.le_refl pos

theorem scanNested_le (text : List Nat) :
    ∀ fuel pos depth, pos ≤ text.length → scanNested text fuel pos depth ≤ text.length := by
  intro fuel
  induction fuel with
  | zero => intro pos d h; simpa [scanNested] using h
  | succ n ih =>
    intro pos d h
    simp only [scanNested]
    split
    · next hlt =>
      split
      · exact ih (pos + 2) (d + 1) (by omega)
      · split
        · exact ih (pos + 2) (d - 1) (by omega)
        · exact ih (pos + 1) d (by omega)
    · exact h

theorem scanParen_ge (text : List Nat) :
    ∀ fuel pos depth, pos ≤ scanParen text fuel pos depth := by
  intro fuel
  induction fuel with
  | zero => intro pos d; simp [scanParen]
  | succ n ih =>
    intro pos d
    simp only [scanParen]
    split
    · exact Nat.le_trans (Nat.le_succ pos) (ih (pos + 1) _)
    · exact Nat.le_refl pos

theorem scanParen_le (text : List Nat) :
    ∀ fuel pos depth, pos ≤ text.length → scanParen text fuel pos depth ≤ text.length := by
  intro fuel
  induction fuel with
  | zero => intro pos d h; simpa [scanParen] using h
  | succ n ih =>
    intro pos d h
    simp only [scanParen]
    split
    · next hlt => exact ih (pos + 1) _ hlt.1
    · exact h

theorem scanRustAttr_ge (text : List Nat) :
    ∀ fuel pos depth, pos ≤ scanRustAttr text fuel pos depth := by
  intro fuel
  induction fuel with
  | zero => intro pos d; simp [scanRustAttr]
  | succ n ih =>
    intro pos d
    simp only [scanRustAttr]
    split
    · split
      · exact Nat.le_trans (Nat.le_succ pos) (ih (pos + 1) (d + 1))
      · split
        · split
          · exact Nat.le_succ pos
          · exact Nat.le_trans (Nat.le_succ pos) (ih (pos + 1) (d - 1))
        · exact Nat.le_trans (Nat.le_succ pos) (ih (pos + 1) d)
    · exact Nat.le_refl pos

theorem scanRustAttr_le (text : List Nat) :
    ∀ fuel pos depth, pos ≤ text.length → scanRustAttr text fuel pos depth ≤ text.length := by
  intro fuel
  induction fuel with
  | zero => intro pos d h; simpa [scanRustAttr] using h
  | succ n ih =>
    intro pos d h
    simp only [scanRustAttr]
    split
    · next hlt =>
      split
      · exact ih (pos + 1) (d + 1) hlt
      · split
        · split
          · exact hlt
          · exact ih (pos + 1) (d - 1) hlt
        · exact ih (pos + 1) d hlt
    · exact h

/-! Combined bounds, in the form used by the per-branch progress proofs:
starting a scan at `a` with `pos < a ≤ len` keeps the result in
`(pos, len]`. -/

theorem scanWhile_bounds_of (text : List Nat) (c : Nat → Bool) (fuel : Nat)
    {p a : Nat} (h1 : p < a) (h2 : a ≤ text.length) :
    p < scanWhile text c fuel a ∧ scanWhile text c fuel a ≤ text.length :=
  ⟨Nat.lt_of_lt_of_le h1 (scanWhile_ge text c fuel a), scanWhile_le text c fuel a h2⟩

theorem scanEsc_bounds_of (text : List Nat) (q : Nat) (fuel : Nat) (e : Bool)
    {p a : Nat} (h1 : p < a) (h2 : a ≤ text.length) :
    p < scanEsc text q fuel a e ∧ scanEsc text q fuel a e ≤ text.length :=
  ⟨Nat.lt_of_lt_of_le h1 (scanEsc_ge text q fuel a e), scanEsc_le text q fuel a e h2⟩

theorem scanEscNl_bounds_of (text : List Nat) (q : Nat) (fuel : Nat) (e : Bool)
    {p a : Nat} (h1 : p < a) (h2 : a ≤ text.length) :
    p < scanEscNl text q fuel a e ∧ scanEscNl text q fuel a e ≤ text.length :=
  ⟨Nat.lt_of_lt_of_le h1 (scanEscNl_ge text q fuel a e), scanEscNl_le text q fuel a e h2⟩

theorem scanPair_bounds_of (text : List Nat) (x y : Nat) (fuel : Nat)
    {p a : Nat} (h1 : p < a) (h2 : a ≤ text.length) :
    p < scanPair text x y fuel a ∧ scanPair text x y fuel a ≤ text.length :=
  ⟨Nat.lt_of_lt_of_le h1 (scanPair_ge text x y fuel a), scanPair_le text x y fuel a h2⟩

theorem scanTriple_bounds_of (text : List Nat) (q : Nat) (fuel : Nat)
    {p a : Nat} (h1 : p < a) (h2 : a ≤ text.length) :
    p < scanTriple text q fuel a ∧ scanTriple text q fuel a ≤ text.length :=
  ⟨Nat.lt_of_lt_of_le h1 (scanTriple_ge text q fuel a), scanTriple_le text q fuel a h2⟩

theorem scanDoubled_bounds_of (text : List Nat) (q : Nat) (fuel : Nat)
    {p a : Nat} (h1 : p < a) (h2 : a ≤ text.length) :
    p < scanDoubled text q fuel a ∧ scanDoubled text q fuel a ≤ text.length :=
  ⟨Nat.lt_of_lt_of_le h1 (scanDoubled_ge text q fuel a), scanDoubled_le text q fuel a h2⟩

theorem scanLogicalLine_bounds_of (text : List Nat) (fuel : Nat)
    {p a : Nat} (h1 : p < a) (h2 : a ≤ text.length) :
    p < scanLogicalLine text fuel a ∧ scanLogicalLine text fuel a ≤ text.length :=
  ⟨Nat.lt_of_lt_of_le h1 (scanLogicalLine_ge text fuel a), scanLogicalLine_le text fuel a h2⟩

theorem scanNested_bounds_of (text : List Nat) (fuel d : Nat)
    {p a : Nat} (h1 : p < a) (h2 : a ≤ text.length) :
    p < scanNested text fuel a d ∧ scanNested text fuel a d ≤ text.length :=
  ⟨Nat.lt_of_lt_of_le h1 (scanNested_ge text fuel a d), scanNested_le text fuel a d h2⟩

theorem scanParen_bounds_of (text : List Nat) (fuel d : Nat)
    {p a : Nat} (h1 : p < a) (h2 : a ≤ text.length) :
    p < scanParen text fuel a d ∧ scanParen text fuel a d ≤ text.length :=
  ⟨Nat.lt_of_lt_of_le h1 (scanParen_ge text fuel a d), scanParen_le text fuel a d h2⟩

theorem scanRustAttr_bounds_of (text : List Nat) (fuel d : Nat)
    {p a : Nat} (h1 : p < a) (h2 : a ≤ text.length) :
    p < scanRustAttr text fuel a d ∧ scanRustAttr text fuel a d ≤ text.length :=
  ⟨Nat.lt_of_lt_of_le h1 (scanRustAttr_ge text fuel a d), scanRustAttr_le text fuel a d h2⟩

/-! ### The C lexer (c.rs) -/

/-- Keyword table of the identifier arm of c.rs (C and C23 keywords). -/
def cKeywords : List (List Nat) :=
  [bytes "auto", bytes "break", bytes "case", bytes "char", bytes "const",
   bytes "continue", bytes "default", bytes "do", bytes "double", bytes "else",
   bytes "enum", bytes "extern", bytes "float", bytes "for", bytes "goto",
   bytes "if", bytes "inline", bytes "int", bytes "long", bytes "register",
   bytes "restrict", bytes "return", bytes "short", bytes "signed",
   bytes "sizeof", bytes "static", bytes "struct", bytes "switch",
   bytes "typedef", bytes "union", bytes "unsigned", bytes "void",
   bytes "volatile", bytes "while", bytes "_Alignas", bytes "_Alignof",
   bytes "_Atomic", bytes "_Bool", bytes "_Complex", bytes "_Generic",
   bytes "_Imaginary", bytes "_Noreturn", bytes "_Static_assert",
   bytes "_Thread_local", bytes "_BitInt", bytes "typeof",
   bytes "typeof_unqual", bytes "_Decimal128", bytes "_Decimal32",
   bytes "_Decimal64"]

/-- Constant table of the identifier arm of c.rs. -/
def cBooleans : List (List Nat) :=
  [bytes "NULL", bytes "true", bytes "false", bytes "TRUE", bytes "FALSE"]

/-- Standard-type table of the identifier arm of c.rs. -/
def cTypeNames : List (List Nat) :=
  [bytes "size_t", bytes "ssize_t", bytes "ptrdiff_t", bytes "intptr_t",
   bytes "uintptr_t", bytes "int8_t", bytes "int16_t", bytes "int32_t",
   bytes "int64_t", bytes "uint8_t", bytes "uint16_t", bytes "uint32_t",
   bytes "uint64_t", bytes "FILE", bytes "DIR", bytes "time_t",
   bytes "clock_t", bytes "pid_t"]

/-- Word classification of the identifier arm of c.rs. -/
def cClassify (w : List Nat) : TokenKind :=
  if cKeywords.contains w then TokenKind.Keyword
  else if cBooleans.contains w then TokenKind.Boolean
  else if cTypeNames.contains w then TokenKind.TypeName
  else TokenKind.Identifier

/-- Loop predicate of the identifier arms of c.rs/cpp.rs:
`is_ident_continue(text[pos]) || text[pos] == b'_'`. -/
def identContinueU (c : Nat) : Bool :=
  is_ident_continue c || c = 95

/-- Hex-digit-or-underscore predicate of the c.rs hex-literal loop. -/
def hexDigitU (c : Nat) : Bool :=
  is_ascii_digit c || (97 ≤ c && c ≤ 102) || (65 ≤ c && c ≤ 70) || c = 95

/-- Octal-digit-or-underscore predicate of the c.rs octal-literal loop. -/
def octDigitU (c : Nat) : Bool :=
  (48 ≤ c && c ≤ 55) || c = 95

/-- Binary-digit-or-underscore predicate of the c.rs binary-literal loop. -/
def binDigitU (c : Nat) : Bool :=
  c = 48 || c = 49 || c = 95

/-- Digit-or-underscore predicate of the c.rs decimal loops. -/
def digitU (c : Nat) : Bool :=
  is_ascii_digit c || c = 95

/-- Numeric-suffix predicate of c.rs (`f F l L u U`). -/
def cSuffix (c : Nat) : Bool :=
  c = 102 || c = 70 || c = 108 || c = 76 || c = 117 || c = 85

/-- The number arm of c.rs: hex / octal / binary / decimal (with fraction
and exponent), then the suffix loop. Returns the end position. -/
def cNum (text : List Nat) (pos : Nat) : Nat :=
  let len := text.length
  let b := byteAt text pos
  let p :=
    if b = 48 ∧ pos + 1 < len ∧ (byteAt text (pos + 1) = 120 ∨ byteAt text (pos + 1) = 88) then
      scanWhile text hexDigitU len (pos + 2)
    else if b = 48 ∧ pos + 1 < len ∧ (48 ≤ byteAt text (pos + 1) ∧ byteAt text (pos + 1) ≤ 55) then
      scanWhile text octDigitU len (pos + 1)
    else if b = 48 ∧ pos + 1 < len ∧ (byteAt text (pos + 1) = 98 ∨ byteAt text (pos + 1) = 66) then
      scanWhile text binDigitU len (pos + 2)
    else
      let p1 := scanWhile text digitU len pos
      let p2 :=
        if p1 < len ∧ byteAt text p1 = 46 then scanWhile text digitU len (p1 + 1) else p1
      if p2 < len ∧ (byteAt text p2 = 101 ∨ byteAt text p2 = 69) then
        let p3 := if p2 + 1 < len ∧ (byteAt text (p2 + 1) = 43 ∨ byteAt text (p2 + 1) = 45)
          then p2 + 2 else p2 + 1
        scanWhile text is_ascii_digit len p3
      else p2
  scanWhile text cSuffix len p

/-- The eighteen two-byte operator pairs common to the C-family pair
tables (c.rs, cpp.rs, go.rs, csharp.rs, java.rs). -/
def basePair2 (a c : Nat) : Bool :=
  (a = 43 && c = 43) || (a = 45 && c = 45) || (a = 43 && c = 61) ||
  (a = 45 && c = 61) || (a = 42 && c = 61) || (a = 47 && c = 61) ||
  (a = 37 && c = 61) || (a = 61 && c = 61) || (a = 33 && c = 61) ||
  (a = 60 && c = 60) || (a = 62 && c = 62) || (a = 60 && c = 61) ||
  (a = 62 && c = 61) || (a = 38 && c = 38) || (a = 124 && c = 124) ||
  (a = 38 && c = 61) || (a = 124 && c = 61) || (a = 94 && c = 61)

/-- Two-byte operator table of c.rs: the common pairs and `->`. -/
def cPair2 (a c : Nat) : Bool :=
  basePair2 a c || (a = 45 && c = 62)

/-- Three-byte operator table of c.rs (`<<=` and `>>=`). -/
def cTriple3 (a c d : Nat) : Bool :=
  (a = 60 && c = 60 && d = 61) || (a = 62 && c = 62 && d = 61)

/-- The operator arm of c.rs: consume one byte, then greedily a known
two-byte pair, then a known three-byte triple. Returns the end position. -/
def cOpEnd (text : List Nat) (pos : Nat) : Nat :=
  let len := text.length
  let b := byteAt text pos
  if pos + 1 < len ∧ cPair2 b (byteAt text (pos + 1)) = true then
    if pos + 2 < len ∧ cTriple3 b (byteAt text (pos + 1)) (byteAt text (pos + 2)) = true then
      pos + 3
    else pos + 2
  else pos + 1

/-- Operator-byte set of the operator arm of c.rs. -/
def cOpByte (b : Nat) : Bool :=
  b = 43 || b = 45 || b = 42 || b = 47 || b = 37 || b = 61 || b = 33 ||
  b = 60 || b = 62 || b = 38 || b = 124 || b = 94 || b = 126 || b = 63 ||
  b = 58 || b = 46 || b = 44 || b = 59 || b = 40 || b = 41 || b = 123 ||
  b = 125 || b = 91 || b = 93

/-- One iteration of the c.rs `tokenize` loop: the kind pushed and the end
position of the single token `start..pos` it pushes. -/
def cStep (text : List Nat) (pos : Nat) : TokenKind × Nat :=
  let len := text.length
  let b := byteAt text pos
  if is_whitespace b then
    (TokenKind.Whitespace, scanWhile text is_whitespace len pos)
  else if b = 47 ∧ pos + 1 < len ∧ byteAt text (pos + 1) = 47 then
    (TokenKind.Comment, scanWhile text (fun c => c ≠ 10) len (pos + 2))
  else if b = 47 ∧ pos + 1 < len ∧ byteAt text (pos + 1) = 42 then
    (TokenKind.Comment, scanPair text 42 47 len (pos + 2))
  else if b = 35 then
    let p1 := scanWhile text is_whitespace len (pos + 1)
    let p2 := scanWhile text identContinueU len p1
    (TokenKind.MacroKind, scanLogicalLine text len p2)
  else if b = 34 then
    (TokenKind.String, scanEsc text 34 len (pos + 1) false)
  else if b = 39 then
    (TokenKind.Char, scanEsc text 39 len (pos + 1) false)
  else if is_ascii_digit b then
    (TokenKind.Number, cNum text pos)
  else if is_ident_start b then
    let e := scanWhile text identContinueU len pos
    (cClassify (sliceB text pos e), e)
  else if cOpByte b then
    (TokenKind.Operator, cOpEnd text pos)
  else
    (TokenKind.Error, pos + 1)

/-- Generic tokenize loop shared by the scanners that push exactly one
token `start..pos` per iteration: `while pos < len { let start = pos;
... pos advances ...; tokens.push(Token::new(kind, start..pos)) }`. -/
def runStep1 (step : List Nat → Nat → TokenKind × Nat) (text : List Nat) :
    Nat → Nat → List Token
  | 0, _ => []
  | fuel + 1, pos =>
    if pos < text.length then
      Token.mk (step text pos).1 (Span.mk pos (step text pos).2) ::
        runStep1 step text fuel (step text pos).2
    else []

/-- c.rs `CLexer::tokenize`. -/
def cTokenize (text : List Nat) : List Token :=
  runStep1 cStep text text.length 0


theorem ident_start_continue {b : Nat} (h : is_ident_start b = true) :
    identContinueU b = true := by
  simp only [is_ident_start, is_ascii_alpha, identContinueU, is_ident_continue,
    is_ascii_alphanumeric, is_ascii_digit, Bool.or_eq_true, Bool.and_eq_true,
    decide_eq_true_eq] at *
  omega

theorem cNum_bounds (text : List Nat) (pos : Nat) (h : pos < text.length)
    (hd : is_ascii_digit (byteAt text pos) = true) :
    pos < cNum text pos ∧ cNum text pos ≤ text.length := by
  simp only [cNum]
  split_ifs with h1 h2 h3 h4 h5 h6 h7 h8
  · have := scanWhile_bounds_of text hexDigitU text.length (p := pos) (a := pos + 2) (by omega) (by omega)
    exact scanWhile_bounds_of text cSuffix text.length this.1 this.2
  · have := scanWhile_bounds_of text octDigitU text.length (p := pos) (a := pos + 1) (by omega) (by omega)
    exact scanWhile_bounds_of text cSuffix text.length this.1 this.2
  · have := scanWhile_bounds_of text binDigitU text.length (p := pos) (a := pos + 2) (by omega) (by omega)
    exact scanWhile_bounds_of text cSuffix text.length this.1 this.2
  all_goals
    have hp1 : pos < scanWhile text digitU text.length pos ∧
        scanWhile text digitU text.length pos ≤ text.length :=
      ⟨scanWhile_advance text digitU text.length pos (by omega) h (by simp [digitU, hd]),
       scanWhile_le text digitU text.length pos (by omega)⟩
  · -- float yes, exponent yes, sign yes
    have hp2 := scanWhile_bounds_of text digitU text.length
      (p := pos) (a := scanWhile text digitU text.length pos + 1) (by omega) (by omega)
    refine scanWhile_bounds_of text cSuffix text.length
      (scanWhile_bounds_of text is_ascii_digit text.length ?_ ?_).1
      (scanWhile_bounds_of text is_ascii_digit text.length (p := pos) ?_ ?_).2 <;> omega
  · -- float yes, exponent yes, sign no
    have hp2 := scanWhile_bounds_of text digitU text.length
      (p := pos) (a := scanWhile text digitU text.length pos + 1) (by omega) (by omega)
    refine scanWhile_bounds_of text cSuffix text.length
      (scanWhile_bounds_of text is_ascii_digit text.length ?_ ?_).1
      (scanWhile_bounds_of text is_ascii_digit text.length (p := pos) ?_ ?_).2 <;> omega
  · -- float yes, exponent no
    have hp2 := scanWhile_bounds_of text digitU text.length
      (p := pos) (a := scanWhile text digitU text.length pos + 1) (by omega) (by omega)
    exact scanWhile_bounds_of text cSuffix text.length hp2.1 hp2.2
  · -- float no, exponent yes, sign yes
    refine scanWhile_bounds_of text cSuffix text.length
      (scanWhile_bounds_of text is_ascii_digit text.length ?_ ?_).1
      (scanWhile_bounds_of text is_ascii_digit text.length (p := pos) ?_ ?_).2 <;> omega
  · -- float no, exponent yes, sign no
    refine scanWhile_bounds_of text cSuffix text.length
      (scanWhile_bounds_of text is_ascii_digit text.length ?_ ?_).1
      (scanWhile_bounds_of text is_ascii_digit text.length (p := pos) ?_ ?_).2 <;> omega
  · -- float no, exponent no
    exact scanWhile_bounds_of text cSuffix text.length hp1.1 hp1.2

theorem cOpEnd_bounds (text : List Nat) (pos : Nat) (h : pos < text.length) :
    pos < cOpEnd text pos ∧ cOpEnd text pos ≤ text.length := by
  simp only [cOpEnd]
  split_ifs with h1 h2 <;> omega

theorem cStep_bounds (text : List Nat) (pos : Nat) (h : pos < text.length) :
    pos < (cStep text pos).2 ∧ (cStep text pos).2 ≤ text.length := by
  simp only [cStep]
  split_ifs with h1 h2 h3 h4 h5 h6 h7 h8 h9
  · exact ⟨scanWhile_advance text is_whitespace text.length pos (by omega) h h1,
      scanWhile_le text is_whitespace text.length pos (by omega)⟩
  · exact scanWhile_bounds_of text (fun c => decide (c ≠ 10)) text.length (by omega) (by omega)
  · exact scanPair_bounds_of text 42 47 text.length (by omega) (by omega)
  · have q1 := scanWhile_bounds_of text is_whitespace text.length
      (p := pos) (a := pos + 1) (by omega) (by omega)
    have q2 := scanWhile_bounds_of text identContinueU text.length q1.1 q1.2
    exact scanLogicalLine_bounds_of text text.length q2.1 q2.2
  · exact scanEsc_bounds_of text 34 text.length false (by omega) (by omega)
  · exact scanEsc_bounds_of text 39 text.length false (by omega) (by omega)
  · exact cNum_bounds text pos h h7
  · exact ⟨scanWhile_advance text identContinueU text.length pos (by omega) h
      (ident_start_continue h8),
      scanWhile_le text identContinueU text.length pos (by omega)⟩
  · exact cOpEnd_bounds text pos h
  · omega


/-! ### The JSON lexer (json.rs) -/

/-- The number arm of json.rs: leading `-`/digit already consumed by the
initial `pos += 1`, then digits, optional fraction, optional exponent. -/
def jsonNum (text : List Nat) (pos : Nat) : Nat :=
  let len := text.length
  let p1 := scanWhile text is_ascii_digit len (pos + 1)
  let p2 :=
    if p1 < len ∧ byteAt text p1 = 46 then scanWhile text is_ascii_digit len (p1 + 1) else p1
  if p2 < len ∧ (byteAt text p2 = 101 ∨ byteAt text p2 = 69) then
    let p3 := if p2 + 1 < len ∧ (byteAt text (p2 + 1) = 43 ∨ byteAt text (p2 + 1) = 45)
      then p2 + 2 else p2 + 1
    scanWhile text is_ascii_digit len p3
  else p2

/-- The `b'/'`-guarded comment arm of json.rs (line comment, block
comment, or a one-byte `Error`). -/
def jsonSlash (text : List Nat) (pos : Nat) : TokenKind × Nat :=
  if byteAt text (pos + 1) = 47 then
    (TokenKind.Comment, scanWhile text (fun c => c ≠ 10) text.length (pos + 2))
  else if byteAt text (pos + 1) = 42 then
    (TokenKind.Comment, scanPair text 42 47 text.length (pos + 2))
  else (TokenKind.Error, pos + 1)

/-- The `true`/`false`/`null` keyword arms of json.rs and the following
delimiter and error arms. -/
def jsonKw (text : List Nat) (pos : Nat) : TokenKind × Nat :=
  let len := text.length
  let b := byteAt text pos
  if b = 116 ∧ pos + 4 ≤ len ∧ sliceB text pos (pos + 4) = bytes "true" then
    (TokenKind.Boolean, pos + 4)
  else if b = 102 ∧ pos + 5 ≤ len ∧ sliceB text pos (pos + 5) = bytes "false" then
    (TokenKind.Boolean, pos + 5)
  else if b = 110 ∧ pos + 4 ≤ len ∧ sliceB text pos (pos + 4) = bytes "null" then
    (TokenKind.Null, pos + 4)
  else if b = 123 then (TokenKind.JsonBrace, pos + 1)
  else if b = 125 then (TokenKind.JsonBrace, pos + 1)
  else if b = 91 then (TokenKind.JsonBracket, pos + 1)
  else if b = 93 then (TokenKind.JsonBracket, pos + 1)
  else if b = 58 then (TokenKind.JsonColon, pos + 1)
  else if b = 44 then (TokenKind.JsonComma, pos + 1)
  else (TokenKind.Error, pos + 1)

/-- One iteration of the json.rs `tokenize` loop. -/
def jsonStep (text : List Nat) (pos : Nat) : TokenKind × Nat :=
  let len := text.length
  let b := byteAt text pos
  if is_whitespace b then
    (TokenKind.Whitespace, scanWhile text is_whitespace len pos)
  else if b = 34 then
    (TokenKind.String, scanEsc text 34 len (pos + 1) false)
  else if b = 45 ∨ is_ascii_digit b then
    (TokenKind.Number, jsonNum text pos)
  else if b = 47 ∧ pos + 1 < len then
    jsonSlash text pos
  else jsonKw text pos

/-- json.rs `JsonLexer::tokenize`. -/
def jsonTokenize (text : List Nat) : List Token :=
  runStep1 jsonStep text text.length 0

theorem jsonNum_bounds (text : List Nat) (pos : Nat) (h : pos < text.length) :
    pos < jsonNum text pos ∧ jsonNum text pos ≤ text.length := by
  simp only [jsonNum]
  have hp1 := scanWhile_bounds_of text is_ascii_digit text.length
    (p := pos) (a := pos + 1) (by omega) (by omega)
  split_ifs with h1 h2 h3 h4 h5
  · have hp2 := scanWhile_bounds_of text is_ascii_digit text.length
      (p := pos) (a := scanWhile text is_ascii_digit text.length (pos + 1) + 1)
      (by omega) (by omega)
    refine scanWhile_bounds_of text is_ascii_digit text.length ?_ ?_ <;> omega
  · have hp2 := scanWhile_bounds_of text is_ascii_digit text.length
      (p := pos) (a := scanWhile text is_ascii_digit text.length (pos + 1) + 1)
      (by omega) (by omega)
    refine scanWhile_bounds_of text is_ascii_digit text.length ?_ ?_ <;> omega
  · have hp2 := scanWhile_bounds_of text is_ascii_digit text.length
      (p := pos) (a := scanWhile text is_ascii_digit text.length (pos + 1) + 1)
      (by omega) (by omega)
    exact hp2
  · refine scanWhile_bounds_of text is_ascii_digit text.length ?_ ?_ <;> omega
  · refine scanWhile_bounds_of text is_ascii_digit text.length ?_ ?_ <;> omega
  · exact hp1

theorem jsonSlash_bounds (text : List Nat) (pos : Nat) (h : pos + 1 < text.length) :
    pos < (jsonSlash text pos).2 ∧ (jsonSlash text pos).2 ≤ text.length := by
  simp only [jsonSlash]
  split_ifs with h1 h2
  · exact scanWhile_bounds_of text (fun c => decide (c ≠ 10)) text.length (by omega) (by omega)
  · exact scanPair_bounds_of text 42 47 text.length (by omega) (by omega)
  · omega

theorem jsonKw_bounds (text : List Nat) (pos : Nat) (h : pos < text.length) :
    pos < (jsonKw text pos).2 ∧ (jsonKw text pos).2 ≤ text.length := by
  simp only [jsonKw]
  split_ifs with h1 h2 h3 h4 h5 h6 h7 h8 h9 <;> omega

theorem jsonStep_bounds (text : List Nat) (pos : Nat) (h : pos < text.length) :
    pos < (jsonStep text pos).2 ∧ (jsonStep text pos).2 ≤ text.length := by
  simp only [jsonStep]
  split_ifs with h1 h2 h3 h4
  · exact ⟨scanWhile_advance text is_whitespace text.length pos (by omega) h h1,
      scanWhile_le text is_whitespace text.length pos (by omega)⟩
  · exact scanEsc_bounds_of text 34 text.length false (by omega) (by omega)
  · exact jsonNum_bounds text pos h
  · exact jsonSlash_bounds text pos h4.2
  · exact jsonKw_bounds text pos h


/-! ### The Rust lexer (rust.rs) -/

/-- Word classification of the identifier arm of rust.rs. -/
def rustClassify (w : List Nat) : TokenKind :=
  if [bytes "as", bytes "in", bytes "is"].contains w then
    TokenKind.KeywordOperator
  else if [bytes "break", bytes "continue", bytes "else", bytes "for", bytes "if",
      bytes "loop", bytes "match", bytes "return", bytes "while"].contains w then
    TokenKind.KeywordControl
  else if [bytes "fn", bytes "async", bytes "await"].contains w then
    TokenKind.KeywordFunction
  else if [bytes "use", bytes "mod", bytes "extern", bytes "crate"].contains w then
    TokenKind.KeywordImport
  else if [bytes "let", bytes "const", bytes "static", bytes "mut"].contains w then
    TokenKind.KeywordStorage
  else if [bytes "struct", bytes "enum", bytes "union", bytes "trait", bytes "type",
      bytes "impl"].contains w then
    TokenKind.KeywordType
  else if [bytes "pub", bytes "priv", bytes "super", bytes "self", bytes "Self",
      bytes "where", bytes "unsafe", bytes "ref", bytes "move"].contains w then
    TokenKind.Keyword
  else if [bytes "true", bytes "false"].contains w then
    TokenKind.Boolean
  else TokenKind.Identifier

/-- The number arm of rust.rs: the first digit is consumed by the initial
`pos += 1`; binary/octal/hex prefixes, else decimal with fraction and
exponent. -/
def rustNum (text : List Nat) (pos : Nat) : Nat :=
  let len := text.length
  if pos + 1 < len ∧ byteAt text pos = 48 ∧ byteAt text (pos + 1) = 98 then
    scanWhile text binDigitU len (pos + 2)
  else if pos + 1 < len ∧ byteAt text pos = 48 ∧ byteAt text (pos + 1) = 111 then
    scanWhile text octDigitU len (pos + 2)
  else if pos + 1 < len ∧ byteAt text pos = 48 ∧ byteAt text (pos + 1) = 120 then
    scanWhile text hexDigitU len (pos + 2)
  else
    let p1 := scanWhile text digitU len (pos + 1)
    let p2 :=
      if p1 < len ∧ byteAt text p1 = 46 ∧ p1 + 1 < len ∧
          is_ascii_digit (byteAt text (p1 + 1)) = true
      then scanWhile text digitU len (p1 + 1) else p1
    if p2 < len ∧ (byteAt text p2 = 101 ∨ byteAt text p2 = 69) then
      let p3 := if p2 + 1 < len ∧ (byteAt text (p2 + 1) = 43 ∨ byteAt text (p2 + 1) = 45)
        then p2 + 2 else p2 + 1
      scanWhile text digitU len p3
    else p2

/-- The identifier-like type-suffix tail of the rust.rs number arm. -/
def rustNumSuffix (text : List Nat) (pos : Nat) : Nat :=
  if pos < text.length ∧ is_ident_start (byteAt text pos) = true then
    scanWhile text is_ident_continue text.length pos
  else pos

/-- The raw-string arm `r"..."` of rust.rs (after the opening `r"`):
scan to the next `"`, consuming it when present. -/
def rustRawEnd (text : List Nat) (pos : Nat) : Nat :=
  let p := scanWhile text (fun c => c ≠ 34) text.length (pos + 2)
  if p < text.length then p + 1 else p

/-- The character-literal arm of rust.rs (after the opening `'`):
optional escape byte, one content byte, optional closing `'`. -/
def rustCharEnd (text : List Nat) (pos : Nat) : Nat :=
  let len := text.length
  let p1 := if pos + 1 < len ∧ byteAt text (pos + 1) = 92 then pos + 2 else pos + 1
  let p2 := if p1 < len then p1 + 1 else p1
  if p2 < len ∧ byteAt text p2 = 39 then p2 + 1 else p2

/-- Operator-byte set of the operator arm of rust.rs. -/
def rustOpByte (b : Nat) : Bool :=
  b = 43 || b = 45 || b = 42 || b = 47 || b = 37 || b = 38 || b = 124 ||
  b = 94 || b = 33 || b = 61 || b = 60 || b = 62

/-- Second-byte set of the two-byte operator extension in rust.rs. -/
def rustOpSecond (c : Nat) : Bool :=
  c = 61 || c = 38 || c = 124 || c = 60 || c = 62

/-- The operator arm of rust.rs. -/
def rustOpEnd (text : List Nat) (pos : Nat) : Nat :=
  if pos + 1 < text.length ∧ rustOpSecond (byteAt text (pos + 1)) = true then pos + 2
  else pos + 1

/-- The identifier, operator, delimiter, punctuation and error arms of
rust.rs (the tail of the match). -/
def rustTail (text : List Nat) (pos : Nat) : TokenKind × Nat :=
  let len := text.length
  let b := byteAt text pos
  if is_ident_start b then
    let e := scanWhile text is_ident_continue len pos
    (rustClassify (sliceB text pos e), e)
  else if rustOpByte b then
    (TokenKind.Operator, rustOpEnd text pos)
  else if b = 123 ∨ b = 125 ∨ b = 91 ∨ b = 93 ∨ b = 40 ∨ b = 41 then
    (TokenKind.Delimiter, pos + 1)
  else if b = 44 ∨ b = 59 ∨ b = 58 ∨ b = 46 then
    (TokenKind.Punctuation, pos + 1)
  else (TokenKind.Error, pos + 1)

/-- One iteration of the rust.rs `tokenize` loop. -/
def rustStep (text : List Nat) (pos : Nat) : TokenKind × Nat :=
  let len := text.length
  let b := byteAt text pos
  if is_whitespace b then
    (TokenKind.Whitespace, scanWhile text is_whitespace len pos)
  else if b = 47 ∧ pos + 1 < len ∧ byteAt text (pos + 1) = 47 then
    (TokenKind.Comment, scanWhile text (fun c => c ≠ 10) len (pos + 2))
  else if b = 47 ∧ pos + 1 < len ∧ byteAt text (pos + 1) = 42 then
    (TokenKind.Comment, scanNested text len (pos + 2) 1)
  else if b = 34 then
    (TokenKind.String, scanEsc text 34 len (pos + 1) false)
  else if b = 114 ∧ pos + 1 < len ∧ byteAt text (pos + 1) = 34 then
    (TokenKind.String, rustRawEnd text pos)
  else if b = 39 ∧ pos + 1 < len ∧ is_ident_start (byteAt text (pos + 1)) = true then
    (TokenKind.RustLifetime, scanWhile text is_ident_continue len (pos + 1))
  else if b = 39 then
    (TokenKind.Char, rustCharEnd text pos)
  else if is_ascii_digit b then
    (TokenKind.Number, rustNumSuffix text (rustNum text pos))
  else if b = 35 ∧ pos + 1 < len ∧ byteAt text (pos + 1) = 91 then
    (TokenKind.RustAttribute, scanRustAttr text len (pos + 1) 0)
  else rustTail text pos

/-- rust.rs `RustLexer::tokenize`. -/
def rustTokenize (text : List Nat) : List Token :=
  runStep1 rustStep text text.length 0

theorem ident_start_is_continue {b : Nat} (h : is_ident_start b = true) :
    is_ident_continue b = true := by
  simp only [is_ident_start, is_ascii_alpha, is_ident_continue,
    is_ascii_alphanumeric, is_ascii_digit, Bool.or_eq_true, Bool.and_eq_true,
    decide_eq_true_eq] at *
  omega

theorem rustNum_bounds (text : List Nat) (pos : Nat) (h : pos < text.length) :
    pos < rustNum text pos ∧ rustNum text pos ≤ text.length := by
  simp only [rustNum]
  split_ifs with h1 h2 h3 h4 h5 h6 h7 h8
  · exact scanWhile_bounds_of text binDigitU text.length (by omega) (by omega)
  · exact scanWhile_bounds_of text octDigitU text.length (by omega) (by omega)
  · exact scanWhile_bounds_of text hexDigitU text.length (by omega) (by omega)
  all_goals
    have hp1 := scanWhile_bounds_of text digitU text.length
      (p := pos) (a := pos + 1) (by omega) (by omega)
  · have hp2 := scanWhile_bounds_of text digitU text.length
      (p := pos) (a := scanWhile text digitU text.length (pos + 1) + 1) (by omega) (by omega)
    refine scanWhile_bounds_of text digitU text.length ?_ ?_ <;> omega
  · have hp2 := scanWhile_bounds_of text digitU text.length
      (p := pos) (a := scanWhile text digitU text.length (pos + 1) + 1) (by omega) (by omega)
    refine scanWhile_bounds_of text digitU text.length ?_ ?_ <;> omega
  · have hp2 := scanWhile_bounds_of text digitU text.length
      (p := pos) (a := scanWhile text digitU text.length (pos + 1) + 1) (by omega) (by omega)
    exact hp2
  · refine scanWhile_bounds_of text digitU text.length ?_ ?_ <;> omega
  · refine scanWhile_bounds_of text digitU text.length ?_ ?_ <;> omega
  · exact hp1

theorem rustNumSuffix_bounds (text : List Nat) {p a : Nat}
    (h1 : p < a) (h2 : a ≤ text.length) :
    p < rustNumSuffix text a ∧ rustNumSuffix text a ≤ text.length := by
  simp only [rustNumSuffix]
  split_ifs with hs
  · exact scanWhile_bounds_of text is_ident_continue text.length h1 h2
  · exact ⟨h1, h2⟩

theorem rustRawEnd_bounds (text : List Nat) (pos : Nat) (h : pos + 1 < text.length) :
    pos < rustRawEnd text pos ∧ rustRawEnd text pos ≤ text.length := by
  simp only [rustRawEnd]
  have hp := scanWhile_bounds_of text (fun c => decide (c ≠ 34)) text.length
    (p := pos) (a := pos + 2) (by omega) (by omega)
  split_ifs with h1 <;> omega

theorem rustCharEnd_bounds (text : List Nat) (pos : Nat) (h : pos < text.length) :
    pos < rustCharEnd text pos ∧ rustCharEnd text pos ≤ text.length := by
  simp only [rustCharEnd]
  split_ifs <;> omega

theorem rustOpEnd_bounds (text : List Nat) (pos : Nat) (h : pos < text.length) :
    pos < rustOpEnd text pos ∧ rustOpEnd text pos ≤ text.length := by
  simp only [rustOpEnd]
  split_ifs <;> omega

theorem rustTail_bounds (text : List Nat) (pos : Nat) (h : pos < text.length) :
    pos < (rustTail text pos).2 ∧ (rustTail text pos).2 ≤ text.length := by
  simp only [rustTail]
  split_ifs with h1 h2 h3 h4
  · exact ⟨scanWhile_advance text is_ident_continue text.length pos (by omega) h
      (ident_start_is_continue h1),
      scanWhile_le text is_ident_continue text.length pos (by omega)⟩
  · exact rustOpEnd_bounds text pos h
  all_goals omega

theorem rustStep_bounds (text : List Nat) (pos : Nat) (h : pos < text.length) :
    pos < (rustStep text pos).2 ∧ (rustStep text pos).2 ≤ text.length := by
  simp only [rustStep]
  split_ifs with h1 h2 h3 h4 h5 h6 h7 h8 h9
  · exact ⟨scanWhile_advance text is_whitespace text.length pos (by omega) h h1,
      scanWhile_le text is_whitespace text.length pos (by omega)⟩
  · exact scanWhile_bounds_of text (fun c => decide (c ≠ 10)) text.length (by omega) (by omega)
  · exact scanNested_bounds_of text text.length 1 (by omega) (by omega)
  · exact scanEsc_bounds_of text 34 text.length false (by omega) (by omega)
  · exact rustRawEnd_bounds text pos h5.2.1
  · exact ⟨Nat.lt_of_lt_of_le (by omega)
      (scanWhile_ge text is_ident_continue text.length (pos + 1)),
      scanWhile_le text is_ident_continue text.length (pos + 1) (by omega)⟩
  · exact rustCharEnd_bounds text pos h
  · exact rustNumSuffix_bounds text (rustNum_bounds text pos h).1 (rustNum_bounds text pos h).2
  · exact scanRustAttr_bounds_of text text.length 0 (by omega) (by omega)
  · exact rustTail_bounds text pos h


/-! ### The Python lexer (python.rs) -/

/-- Whitespace set of the python.rs whitespace arm (newline excluded). -/
def pyWs (c : Nat) : Bool :=
  c = 32 || c = 9 || c = 13

/-- Word classification of the identifier arm of python.rs. -/
def pyClassify (w : List Nat) : TokenKind :=
  if [bytes "and", bytes "or", bytes "not", bytes "in", bytes "is"].contains w then
    TokenKind.KeywordOperator
  else if [bytes "if", bytes "elif", bytes "else", bytes "for", bytes "while",
      bytes "break", bytes "continue", bytes "return", bytes "yield", bytes "pass",
      bytes "match", bytes "case"].contains w then
    TokenKind.KeywordControl
  else if [bytes "def", bytes "lambda", bytes "async", bytes "await"].contains w then
    TokenKind.KeywordFunction
  else if [bytes "import", bytes "from", bytes "as"].contains w then
    TokenKind.KeywordImport
  else if [bytes "class"].contains w then
    TokenKind.KeywordType
  else if [bytes "global", bytes "nonlocal", bytes "del"].contains w then
    TokenKind.KeywordStorage
  else if [bytes "try", bytes "except", bytes "finally", bytes "raise",
      bytes "assert", bytes "with"].contains w then
    TokenKind.Keyword
  else if [bytes "True", bytes "False"].contains w then
    TokenKind.Boolean
  else if [bytes "None"].contains w then
    TokenKind.Null
  else TokenKind.Identifier

/-- The string arm of python.rs: triple-quoted when two more quote bytes
follow the opener, otherwise single-line with escapes. -/
def pyStringEnd (text : List Nat) (pos q : Nat) : Nat :=
  let len := text.length
  if pos + 2 < len ∧ byteAt text (pos + 1) = q ∧ byteAt text (pos + 2) = q then
    scanTriple text q len (pos + 3)
  else scanEscNl text q len (pos + 1) false

/-- The number arm of python.rs (binary/octal/hex prefixes, else decimal
with fraction and exponent; no type suffix). -/
def pyNum (text : List Nat) (pos : Nat) : Nat :=
  let len := text.length
  if pos + 1 < len ∧ byteAt text pos = 48 ∧
      (byteAt text (pos + 1) = 98 ∨ byteAt text (pos + 1) = 66) then
    scanWhile text binDigitU len (pos + 2)
  else if pos + 1 < len ∧ byteAt text pos = 48 ∧
      (byteAt text (pos + 1) = 111 ∨ byteAt text (pos + 1) = 79) then
    scanWhile text octDigitU len (pos + 2)
  else if pos + 1 < len ∧ byteAt text pos = 48 ∧
      (byteAt text (pos + 1) = 120 ∨ byteAt text (pos + 1) = 88) then
    scanWhile text hexDigitU len (pos + 2)
  else
    let p1 := scanWhile text digitU len (pos + 1)
    let p2 :=
      if p1 < len ∧ byteAt text p1 = 46 ∧ p1 + 1 < len ∧
          is_ascii_digit (byteAt text (p1 + 1)) = true
      then scanWhile text digitU len (p1 + 1) else p1
    if p2 < len ∧ (byteAt text p2 = 101 ∨ byteAt text p2 = 69) then
      let p3 := if p2 + 1 < len ∧ (byteAt text (p2 + 1) = 43 ∨ byteAt text (p2 + 1) = 45)
        then p2 + 2 else p2 + 1
      scanWhile text digitU len p3
    else p2

/-- Operator-byte set of the operator arm of python.rs. -/
def pyOpByte (b : Nat) : Bool :=
  b = 43 || b = 45 || b = 42 || b = 47 || b = 37 || b = 38 || b = 124 ||
  b = 94 || b = 126 || b = 33 || b = 61 || b = 60 || b = 62

/-- Second-byte set of the two-byte operator extension in python.rs. -/
def pyOpSecond (c : Nat) : Bool :=
  c = 61 || c = 42 || c = 47 || c = 60 || c = 62

/-- The identifier, decorator, operator, delimiter, punctuation and error
arms of python.rs (the tail of the match). -/
def pyTail (text : List Nat) (pos : Nat) : TokenKind × Nat :=
  let len := text.length
  let b := byteAt text pos
  if is_ident_start b then
    let e := scanWhile text is_ident_continue len pos
    (pyClassify (sliceB text pos e), e)
  else if b = 64 ∧ pos + 1 < len ∧ is_ident_start (byteAt text (pos + 1)) = true then
    (TokenKind.Attribute, scanWhile text (fun c => is_ident_continue c || c = 46) len (pos + 1))
  else if pyOpByte b then
    (TokenKind.Operator,
      if pos + 1 < len ∧ pyOpSecond (byteAt text (pos + 1)) = true then pos + 2 else pos + 1)
  else if b = 123 ∨ b = 125 ∨ b = 91 ∨ b = 93 ∨ b = 40 ∨ b = 41 then
    (TokenKind.Delimiter, pos + 1)
  else if b = 44 ∨ b = 59 ∨ b = 58 ∨ b = 46 then
    (TokenKind.Punctuation, pos + 1)
  else (TokenKind.Error, pos + 1)

/-- One iteration of the python.rs `tokenize` loop. -/
def pyStep (text : List Nat) (pos : Nat) : TokenKind × Nat :=
  let len := text.length
  let b := byteAt text pos
  if pyWs b then
    (TokenKind.Whitespace, scanWhile text pyWs len pos)
  else if b = 10 then
    (TokenKind.Whitespace, pos + 1)
  else if b = 35 then
    (TokenKind.Comment, scanWhile text (fun c => c ≠ 10) len (pos + 1))
  else if b = 34 ∨ b = 39 then
    (TokenKind.String, pyStringEnd text pos b)
  else if (b = 102 ∨ b = 70) ∧ pos + 1 < len ∧
      (byteAt text (pos + 1) = 34 ∨ byteAt text (pos + 1) = 39) then
    (TokenKind.String, scanEsc text (byteAt text (pos + 1)) len (pos + 2) false)
  else if is_ascii_digit b then
    (TokenKind.Number, pyNum text pos)
  else pyTail text pos

/-- python.rs `PythonLexer::tokenize`. -/
def pyTokenize (text : List Nat) : List Token :=
  runStep1 pyStep text text.length 0

theorem pyStringEnd_bounds (text : List Nat) (pos q : Nat) (h : pos < text.length) :
    pos < pyStringEnd text pos q ∧ pyStringEnd text pos q ≤ text.length := by
  simp only [pyStringEnd]
  split_ifs with h1
  · exact scanTriple_bounds_of text q text.length (by omega) (by omega)
  · exact scanEscNl_bounds_of text q text.length false (by omega) (by omega)

theorem pyNum_bounds (text : List Nat) (pos : Nat) (h : pos < text.length) :
    pos < pyNum text pos ∧ pyNum text pos ≤ text.length := by
  simp only [pyNum]
  split_ifs with h1 h2 h3 h4 h5 h6 h7 h8
  · exact scanWhile_bounds_of text binDigitU text.length (by omega) (by omega)
  · exact scanWhile_bounds_of text octDigitU text.length (by omega) (by omega)
  · exact scanWhile_bounds_of text hexDigitU text.length (by omega) (by omega)
  all_goals
    have hp1 := scanWhile_bounds_of text digitU text.length
      (p := pos) (a := pos + 1) (by omega) (by omega)
  · have hp2 := scanWhile_bounds_of text digitU text.length
      (p := pos) (a := scanWhile text digitU text.length (pos + 1) + 1) (by omega) (by omega)
    refine scanWhile_bounds_of text digitU text.length ?_ ?_ <;> omega
  · have hp2 := scanWhile_bounds_of text digitU text.length
      (p := pos) (a := scanWhile text digitU text.length (pos + 1) + 1) (by omega) (by omega)
    refine scanWhile_bounds_of text digitU text.length ?_ ?_ <;> omega
  · have hp2 := scanWhile_bounds_of text digitU text.length
      (p := pos) (a := scanWhile text digitU text.length (pos + 1) + 1) (by omega) (by omega)
    exact hp2
  · refine scanWhile_bounds_of text digitU text.length ?_ ?_ <;> omega
  · refine scanWhile_bounds_of text digitU text.length ?_ ?_ <;> omega
  · exact hp1

theorem pyTail_bounds (text : List Nat) (pos : Nat) (h : pos < text.length) :
    pos < (pyTail text pos).2 ∧ (pyTail text pos).2 ≤ text.length := by
  simp only [pyTail]
  split_ifs with h1 h2 h3 h4 h5 h6
  · exact ⟨scanWhile_advance text is_ident_continue text.length pos (by omega) h
      (ident_start_is_continue h1),
      scanWhile_le text is_ident_continue text.length pos (by omega)⟩
  · exact ⟨Nat.lt_of_lt_of_le (by omega)
      (scanWhile_ge text (fun c => is_ident_continue c || decide (c = 46)) text.length (pos + 1)),
      scanWhile_le text (fun c => is_ident_continue c || decide (c = 46)) text.length (pos + 1)
        (by omega)⟩
  all_goals omega

theorem pyStep_bounds (text : List Nat) (pos : Nat) (h : pos < text.length) :
    pos < (pyStep text pos).2 ∧ (pyStep text pos).2 ≤ text.length := by
  simp only [pyStep]
  split_ifs with h1 h2 h3 h4 h5 h6
  · exact ⟨scanWhile_advance text pyWs text.length pos (by omega) h h1,
      scanWhile_le text pyWs text.length pos (by omega)⟩
  · omega
  · exact scanWhile_bounds_of text (fun c => decide (c ≠ 10)) text.length (by omega) (by omega)
  · exact pyStringEnd_bounds text pos (byteAt text pos) h
  · exact scanEsc_bounds_of text (byteAt text (pos + 1)) text.length false (by omega) (by omega)
  · exact pyNum_bounds text pos h
  · exact pyTail_bounds text pos h

/-! ### The TOML lexer (toml.rs) -/

/-- The section-header arm `[section]` / `[[array]]` of toml.rs. -/
def tomlSection (text : List Nat) (pos : Nat) : Nat :=
  let len := text.length
  let isArr := pos + 1 < len ∧ byteAt text (pos + 1) = 91
  let p1 := if isArr then pos + 2 else pos + 1
  let p2 := scanWhile text (fun c => c ≠ 93) len p1
  if p2 < len then
    if isArr ∧ p2 + 1 < len ∧ byteAt text (p2 + 1) = 93 then p2 + 2 else p2 + 1
  else p2

/-- The string arm of toml.rs: triple-quoted (multi-line) when two more
quote bytes follow, otherwise single-line with escapes. -/
def tomlStringEnd (text : List Nat) (pos q : Nat) : Nat :=
  let len := text.length
  if pos + 2 < len ∧ byteAt text (pos + 1) = q ∧ byteAt text (pos + 2) = q then
    scanTriple text q len (pos + 3)
  else scanEscNl text q len (pos + 1) false

/-- The fraction/exponent tail of the toml.rs number arm, from the end
of the integer-digit scan. -/
def tomlNumFrac (text : List Nat) (p1 : Nat) : Nat :=
  let len := text.length
  let p2 := if p1 < len ∧ byteAt text p1 = 46 then scanWhile text digitU len (p1 + 1) else p1
  if p2 < len ∧ (byteAt text p2 = 101 ∨ byteAt text p2 = 69) then
    let p3 := if p2 + 1 < len ∧ (byteAt text (p2 + 1) = 43 ∨ byteAt text (p2 + 1) = 45)
      then p2 + 2 else p2 + 1
    scanWhile text digitU len p3
  else p2

/-- The number arm of toml.rs: optional sign, digits, optional fraction,
optional exponent. -/
def tomlNum (text : List Nat) (pos : Nat) : Nat :=
  let p0 := if byteAt text pos = 43 ∨ byteAt text pos = 45 then pos + 1 else pos
  tomlNumFrac text (scanWhile text digitU text.length p0)

/-- The keyword, identifier, operator, delimiter and error arms of
toml.rs (the tail of the match). -/
def tomlTail (text : List Nat) (pos : Nat) : TokenKind × Nat :=
  let len := text.length
  let b := byteAt text pos
  if b = 116 ∧ pos + 4 ≤ len ∧ sliceB text pos (pos + 4) = bytes "true" then
    (TokenKind.Boolean, pos + 4)
  else if b = 102 ∧ pos + 5 ≤ len ∧ sliceB text pos (pos + 5) = bytes "false" then
    (TokenKind.Boolean, pos + 5)
  else if is_ident_start b then
    (TokenKind.Identifier, scanWhile text (fun c => is_ident_continue c || c = 45) len pos)
  else if b = 61 then (TokenKind.Operator, pos + 1)
  else if b = 46 ∨ b = 44 then (TokenKind.Punctuation, pos + 1)
  else if b = 123 ∨ b = 125 then (TokenKind.Delimiter, pos + 1)
  else (TokenKind.Error, pos + 1)

/-- One iteration of the toml.rs `tokenize` loop. -/
def tomlStep (text : List Nat) (pos : Nat) : TokenKind × Nat :=
  let len := text.length
  let b := byteAt text pos
  if is_whitespace b then
    (TokenKind.Whitespace, scanWhile text is_whitespace len pos)
  else if b = 35 then
    (TokenKind.Comment, scanWhile text (fun c => c ≠ 10) len pos)
  else if b = 91 then
    (TokenKind.KeywordType, tomlSection text pos)
  else if b = 34 ∨ b = 39 then
    (TokenKind.String, tomlStringEnd text pos b)
  else if ((b = 43 ∨ b = 45) ∧ pos + 1 < len ∧ is_ascii_digit (byteAt text (pos + 1)) = true) ∨
      is_ascii_digit b = true then
    (TokenKind.Number, tomlNum text pos)
  else tomlTail text pos

/-- toml.rs `TomlLexer::tokenize`. -/
def tomlTokenize (text : List Nat) : List Token :=
  runStep1 tomlStep text text.length 0

theorem tomlSection_bounds (text : List Nat) (pos : Nat) (h : pos < text.length) :
    pos < tomlSection text pos ∧ tomlSection text pos ≤ text.length := by
  simp only [tomlSection]
  split_ifs with h1 h2 h3 h4 h5
  all_goals
    first
    | (have hp := scanWhile_bounds_of text (fun c => decide (c ≠ 93)) text.length
        (p := pos) (a := pos + 2) (by omega) (by omega)
       omega)
    | (have hp := scanWhile_bounds_of text (fun c => decide (c ≠ 93)) text.length
        (p := pos) (a := pos + 1) (by omega) (by omega)
       omega)

theorem tomlStringEnd_bounds (text : List Nat) (pos q : Nat) (h : pos < text.length) :
    pos < tomlStringEnd text pos q ∧ tomlStringEnd text pos q ≤ text.length := by
  simp only [tomlStringEnd]
  split_ifs with h1
  · exact scanTriple_bounds_of text q text.length (by omega) (by omega)
  · exact scanEscNl_bounds_of text q text.length false (by omega) (by omega)

theorem tomlNumFrac_bounds (text : List Nat) {p p1 : Nat}
    (h1 : p < p1) (h2 : p1 ≤ text.length) :
    p < tomlNumFrac text p1 ∧ tomlNumFrac text p1 ≤ text.length := by
  simp only [tomlNumFrac]
  split_ifs with ha hb hc hd he
  · have hp2 := scanWhile_bounds_of text digitU text.length
      (p := p) (a := p1 + 1) (by omega) (by omega)
    refine scanWhile_bounds_of text digitU text.length ?_ ?_ <;> omega
  · have hp2 := scanWhile_bounds_of text digitU text.length
      (p := p) (a := p1 + 1) (by omega) (by omega)
    refine scanWhile_bounds_of text digitU text.length ?_ ?_ <;> omega
  · exact scanWhile_bounds_of text digitU text.length
      (p := p) (a := p1 + 1) (by omega) (by omega)
  · refine scanWhile_bounds_of text digitU text.length ?_ ?_ <;> omega
  · refine scanWhile_bounds_of text digitU text.length ?_ ?_ <;> omega
  · exact ⟨h1, h2⟩

theorem tomlNum_bounds (text : List Nat) (pos : Nat) (h : pos < text.length)
    (hg : ((byteAt text pos = 43 ∨ byteAt text pos = 45) ∧ pos + 1 < text.length ∧
        is_ascii_digit (byteAt text (pos + 1)) = true) ∨
      is_ascii_digit (byteAt text pos) = true) :
    pos < tomlNum text pos ∧ tomlNum text pos ≤ text.length := by
  simp only [tomlNum]
  split_ifs with h0
  · have hp1 := scanWhile_bounds_of text digitU text.length
      (p := pos) (a := pos + 1) (by omega) (by omega)
    exact tomlNumFrac_bounds text hp1.1 hp1.2
  · have hd : is_ascii_digit (byteAt text pos) = true := by
      rcases hg with ⟨hs, _⟩ | hd
      · exact absurd hs h0
      · exact hd
    exact tomlNumFrac_bounds text
      (scanWhile_advance text digitU text.length pos (by omega) h (by simp [digitU, hd]))
      (scanWhile_le text digitU text.length pos (by omega))


theorem tomlTail_bounds (text : List Nat) (pos : Nat) (h : pos < text.length) :
    pos < (tomlTail text pos).2 ∧ (tomlTail text pos).2 ≤ text.length := by
  simp only [tomlTail]
  split_ifs with h1 h2 h3 h4 h5 h6
  · omega
  · omega
  · exact ⟨scanWhile_advance text (fun c => is_ident_continue c || decide (c = 45)) text.length
      pos (by omega) h (by simp [ident_start_is_continue h3]),
      scanWhile_le text (fun c => is_ident_continue c || decide (c = 45)) text.length pos
        (by omega)⟩
  all_goals omega

theorem tomlStep_bounds (text : List Nat) (pos : Nat) (h : pos < text.length) :
    pos < (tomlStep text pos).2 ∧ (tomlStep text pos).2 ≤ text.length := by
  simp only [tomlStep]
  split_ifs with h1 h2 h3 h4 h5
  · exact ⟨scanWhile_advance text is_whitespace text.length pos (by omega) h h1,
      scanWhile_le text is_whitespace text.length pos (by omega)⟩
  · exact ⟨scanWhile_advance text (fun c => decide (c ≠ 10)) text.length pos (by omega) h
      (by simp [h2]),
      scanWhile_le text (fun c => decide (c ≠ 10)) text.length pos (by omega)⟩
  · exact tomlSection_bounds text pos h
  · exact tomlStringEnd_bounds text pos (byteAt text pos) h
  · exact tomlNum_bounds text pos h h5
  · exact tomlTail_bounds text pos h


/-! ### The YAML lexer (yaml.rs) -/

/-- The fraction/exponent tail of the yaml.rs number arm (the exponent
digit loop accepts digits only). -/
def yamlNumFrac (text : List Nat) (p1 : Nat) : Nat :=
  let len := text.length
  let p2 := if p1 < len ∧ byteAt text p1 = 46 then scanWhile text digitU len (p1 + 1) else p1
  if p2 < len ∧ (byteAt text p2 = 101 ∨ byteAt text p2 = 69) then
    let p3 := if p2 + 1 < len ∧ (byteAt text (p2 + 1) = 43 ∨ byteAt text (p2 + 1) = 45)
      then p2 + 2 else p2 + 1
    scanWhile text is_ascii_digit len p3
  else p2

/-- The number arm of yaml.rs. -/
def yamlNum (text : List Nat) (pos : Nat) : Nat :=
  let p0 := if byteAt text pos = 43 ∨ byteAt text pos = 45 then pos + 1 else pos
  yamlNumFrac text (scanWhile text digitU text.length p0)

/-- Non-whitespace predicate of the yaml.rs tag loop. -/
def yamlTagCont (c : Nat) : Bool :=
  !(c = 32 || c = 10 || c = 9)

/-- Identifier continuation of yaml.rs (idents, anchors): identifier byte
or `-`. -/
def yamlIdentCont (c : Nat) : Bool :=
  is_ident_continue c || c = 45

/-- The identifier, colon, delimiter, comma, pipe/fold and error arms of
yaml.rs. -/
def yamlTail2 (text : List Nat) (pos : Nat) : TokenKind × Nat :=
  let len := text.length
  let b := byteAt text pos
  if is_ident_start b then
    (TokenKind.Identifier, scanWhile text yamlIdentCont len pos)
  else if b = 58 then (TokenKind.Punctuation, pos + 1)
  else if b = 91 ∨ b = 93 ∨ b = 123 ∨ b = 125 then (TokenKind.Delimiter, pos + 1)
  else if b = 44 then (TokenKind.Punctuation, pos + 1)
  else if b = 124 ∨ b = 62 then (TokenKind.Operator, pos + 1)
  else (TokenKind.Error, pos + 1)

/-- The special-value, list-marker, anchor and tag arms of yaml.rs. -/
def yamlTail (text : List Nat) (pos : Nat) : TokenKind × Nat :=
  let len := text.length
  let b := byteAt text pos
  if b = 116 ∧ pos + 4 ≤ len ∧ sliceB text pos (pos + 4) = bytes "true" then
    (TokenKind.Boolean, pos + 4)
  else if b = 102 ∧ pos + 5 ≤ len ∧ sliceB text pos (pos + 5) = bytes "false" then
    (TokenKind.Boolean, pos + 5)
  else if b = 110 ∧ pos + 4 ≤ len ∧ sliceB text pos (pos + 4) = bytes "null" then
    (TokenKind.Null, pos + 4)
  else if b = 126 then (TokenKind.Null, pos + 1)
  else if b = 45 ∧ pos + 1 < len ∧ (byteAt text (pos + 1) = 32 ∨ byteAt text (pos + 1) = 10) then
    (TokenKind.Operator, pos + 1)
  else if b = 38 ∨ b = 42 then
    (TokenKind.Label, scanWhile text yamlIdentCont len (pos + 1))
  else if b = 33 then
    (TokenKind.Attribute, scanWhile text yamlTagCont len (pos + 1))
  else yamlTail2 text pos

/-- One iteration of the yaml.rs `tokenize` loop. -/
def yamlStep (text : List Nat) (pos : Nat) : TokenKind × Nat :=
  let len := text.length
  let b := byteAt text pos
  if pyWs b then
    (TokenKind.Whitespace, scanWhile text pyWs len pos)
  else if b = 10 then
    (TokenKind.Whitespace, pos + 1)
  else if b = 35 then
    (TokenKind.Comment, scanWhile text (fun c => c ≠ 10) len pos)
  else if b = 45 ∧ pos + 2 < len ∧ byteAt text (pos + 1) = 45 ∧ byteAt text (pos + 2) = 45 then
    (TokenKind.Keyword, pos + 3)
  else if b = 46 ∧ pos + 2 < len ∧ byteAt text (pos + 1) = 46 ∧ byteAt text (pos + 2) = 46 then
    (TokenKind.Keyword, pos + 3)
  else if b = 34 ∨ b = 39 then
    (TokenKind.String, scanEsc text b len (pos + 1) false)
  else if ((b = 43 ∨ b = 45) ∧ pos + 1 < len ∧ is_ascii_digit (byteAt text (pos + 1)) = true) ∨
      is_ascii_digit b = true then
    (TokenKind.Number, yamlNum text pos)
  else yamlTail text pos

/-- yaml.rs `YamlLexer::tokenize`. -/
def yamlTokenize (text : List Nat) : List Token :=
  runStep1 yamlStep text text.length 0

theorem yamlNumFrac_bounds (text : List Nat) {p p1 : Nat}
    (h1 : p < p1) (h2 : p1 ≤ text.length) :
    p < yamlNumFrac text p1 ∧ yamlNumFrac text p1 ≤ text.length := by
  simp only [yamlNumFrac]
  split_ifs with ha hb hc hd he
  · have hp2 := scanWhile_bounds_of text digitU text.length
      (p := p) (a := p1 + 1) (by omega) (by omega)
    refine scanWhile_bounds_of text is_ascii_digit text.length ?_ ?_ <;> omega
  · have hp2 := scanWhile_bounds_of text digitU text.length
      (p := p) (a := p1 + 1) (by omega) (by omega)
    refine scanWhile_bounds_of text is_ascii_digit text.length ?_ ?_ <;> omega
  · exact scanWhile_bounds_of text digitU text.length
      (p := p) (a := p1 + 1) (by omega) (by omega)
  · refine scanWhile_bounds_of text is_ascii_digit text.length ?_ ?_ <;> omega
  · refine scanWhile_bounds_of text is_ascii_digit text.length ?_ ?_ <;> omega
  · exact ⟨h1, h2⟩

theorem yamlNum_bounds (text : List Nat) (pos : Nat) (h : pos < text.length)
    (hg : ((byteAt text pos = 43 ∨ byteAt text pos = 45) ∧ pos + 1 < text.length ∧
        is_ascii_digit (byteAt text (pos + 1)) = true) ∨
      is_ascii_digit (byteAt text pos) = true) :
    pos < yamlNum text pos ∧ yamlNum text pos ≤ text.length := by
  simp only [yamlNum]
  split_ifs with h0
  · have hp1 := scanWhile_bounds_of text digitU text.length
      (p := pos) (a := pos + 1) (by omega) (by omega)
    exact yamlNumFrac_bounds text hp1.1 hp1.2
  · have hd : is_ascii_digit (byteAt text pos) = true := by
      rcases hg with ⟨hs, _⟩ | hd
      · exact absurd hs h0
      · exact hd
    exact yamlNumFrac_bounds text
      (scanWhile_advance text digitU text.length pos (by omega) h (by simp [digitU, hd]))
      (scanWhile_le text digitU text.length pos (by omega))

theorem yamlTail2_bounds (text : List Nat) (pos : Nat) (h : pos < text.length) :
    pos < (yamlTail2 text pos).2 ∧ (yamlTail2 text pos).2 ≤ text.length := by
  simp only [yamlTail2]
  split_ifs with h1 h2 h3 h4 h5
  · exact ⟨scanWhile_advance text yamlIdentCont text.length pos (by omega) h
      (by simp [yamlIdentCont, ident_start_is_continue h1]),
      scanWhile_le text yamlIdentCont text.length pos (by omega)⟩
  all_goals omega

theorem yamlTail_bounds (text : List Nat) (pos : Nat) (h : pos < text.length) :
    pos < (yamlTail text pos).2 ∧ (yamlTail text pos).2 ≤ text.length := by
  simp only [yamlTail]
  split_ifs with h1 h2 h3 h4 h5 h6 h7
  · omega
  · omega
  · omega
  · omega
  · omega
  · exact ⟨Nat.lt_of_lt_of_le (by omega) (scanWhile_ge text yamlIdentCont text.length (pos + 1)),
      scanWhile_le text yamlIdentCont text.length (pos + 1) (by omega)⟩
  · exact ⟨Nat.lt_of_lt_of_le (by omega) (scanWhile_ge text yamlTagCont text.length (pos + 1)),
      scanWhile_le text yamlTagCont text.length (pos + 1) (by omega)⟩
  · exact yamlTail2_bounds text pos h

theorem yamlStep_bounds (text : List Nat) (pos : Nat) (h : pos < text.length) :
    pos < (yamlStep text pos).2 ∧ (yamlStep text pos).2 ≤ text.length := by
  simp only [yamlStep]
  split_ifs with h1 h2 h3 h4 h5 h6 h7
  · exact ⟨scanWhile_advance text pyWs text.length pos (by omega) h h1,
      scanWhile_le text pyWs text.length pos (by omega)⟩
  · omega
  · exact ⟨scanWhile_advance text (fun c => decide (c ≠ 10)) text.length pos (by omega) h
      (by simp [h3]),
      scanWhile_le text (fun c => decide (c ≠ 10)) text.length pos (by omega)⟩
  · omega
  · omega
  · exact scanEsc_bounds_of text (byteAt text pos) text.length false (by omega) (by omega)
  · exact yamlNum_bounds text pos h h7
  · exact yamlTail_bounds text pos h


/-! ### The C++ lexer (cpp.rs) -/

/-- Hex digit, underscore or single-quote separator (cpp.rs). -/
def cppHexU (c : Nat) : Bool :=
  is_ascii_digit c || (97 ≤ c && c ≤ 102) || (65 ≤ c && c ≤ 70) || c = 95 || c = 39

/-- Binary digit, underscore or single-quote separator (cpp.rs). -/
def cppBinU (c : Nat) : Bool :=
  c = 48 || c = 49 || c = 95 || c = 39

/-- Octal digit, underscore or single-quote separator (cpp.rs). -/
def cppOctU (c : Nat) : Bool :=
  (48 ≤ c && c ≤ 55) || c = 95 || c = 39

/-- Decimal digit, underscore or single-quote separator (cpp.rs). -/
def cppDigitU (c : Nat) : Bool :=
  is_ascii_digit c || c = 95 || c = 39

/-- Exponent digit or single-quote separator (cpp.rs). -/
def cppExpU (c : Nat) : Bool :=
  is_ascii_digit c || c = 39

/-- The number arm of cpp.rs: hex / binary / octal / decimal with
fraction and exponent, then the suffix loop. -/
def cppNum (text : List Nat) (pos : Nat) : Nat :=
  let len := text.length
  let p :=
    if byteAt text pos = 48 ∧ pos + 1 < len ∧
        (byteAt text (pos + 1) = 120 ∨ byteAt text (pos + 1) = 88) then
      scanWhile text cppHexU len (pos + 2)
    else if byteAt text pos = 48 ∧ pos + 1 < len ∧
        (byteAt text (pos + 1) = 98 ∨ byteAt text (pos + 1) = 66) then
      scanWhile text cppBinU len (pos + 2)
    else if byteAt text pos = 48 ∧ pos + 1 < len ∧
        (48 ≤ byteAt text (pos + 1) ∧ byteAt text (pos + 1) ≤ 55) then
      scanWhile text cppOctU len (pos + 1)
    else
      let p1 := scanWhile text cppDigitU len pos
      let p2 :=
        if p1 < len ∧ byteAt text p1 = 46 then scanWhile text cppDigitU len (p1 + 1) else p1
      if p2 < len ∧ (byteAt text p2 = 101 ∨ byteAt text p2 = 69) then
        let p3 := if p2 + 1 < len ∧ (byteAt text (p2 + 1) = 43 ∨ byteAt text (p2 + 1) = 45)
          then p2 + 2 else p2 + 1
        scanWhile text cppExpU len p3
      else p2
  scanWhile text cSuffix len p

/-- The prefix-match loop inside the cpp.rs raw-string closing scan:
how many leading bytes of `delim` match the text starting at `temp`. -/
def matchCount (text : List Nat) : List Nat → Nat → Nat
  | [], _ => 0
  | d :: ds, temp =>
    if temp < text.length ∧ byteAt text temp = d then 1 + matchCount text ds (temp + 1)
    else 0

/-- The closing scan of the cpp.rs raw-string arm: find `)delim"`. -/
def scanRawEnd (text : List Nat) (delim : List Nat) : Nat → Nat → Nat
  | 0, pos => pos
  | fuel + 1, pos =>
    if pos < text.length then
      if byteAt text pos = 41 ∧ matchCount text delim (pos + 1) = delim.length ∧
          pos + 1 + delim.length < text.length ∧ byteAt text (pos + 1 + delim.length) = 34 then
        pos + 1 + delim.length + 1
      else scanRawEnd text delim fuel (pos + 1)
    else pos

/-- The raw-string arm `R"(...)"` of cpp.rs (after the opening `R"(`):
read the delimiter up to `)`, then scan for the closing sequence. -/
def cppRaw (text : List Nat) (pos : Nat) : Nat :=
  let len := text.length
  let dend := scanWhile text (fun c => c ≠ 41) len (pos + 3)
  let delim := sliceB text (pos + 3) dend
  let p1 := if dend < len then dend + 1 else dend
  scanRawEnd text delim len p1

/-- Keyword table of the identifier arm of cpp.rs. -/
def cppKeywords : List (List Nat) :=
  [bytes "alignas", bytes "alignof", bytes "and", bytes "and_eq", bytes "asm",
   bytes "auto", bytes "bitand", bytes "bitor", bytes "bool", bytes "break",
   bytes "case", bytes "catch", bytes "char", bytes "char8_t", bytes "char16_t",
   bytes "char32_t", bytes "class", bytes "compl", bytes "concept", bytes "const",
   bytes "const_cast", bytes "consteval", bytes "constexpr", bytes "constinit",
   bytes "continue", bytes "co_await", bytes "co_return", bytes "co_yield",
   bytes "decltype", bytes "default", bytes "delete", bytes "do", bytes "double",
   bytes "dynamic_cast", bytes "else", bytes "enum", bytes "explicit",
   bytes "export", bytes "extern", bytes "float", bytes "for", bytes "friend",
   bytes "goto", bytes "if", bytes "inline", bytes "int", bytes "long",
   bytes "mutable", bytes "namespace", bytes "new", bytes "noexcept",
   bytes "not", bytes "not_eq", bytes "operator", bytes "or", bytes "or_eq",
   bytes "private", bytes "protected", bytes "public", bytes "register",
   bytes "reinterpret_cast", bytes "requires", bytes "return", bytes "short",
   bytes "signed", bytes "sizeof", bytes "static", bytes "static_assert",
   bytes "static_cast", bytes "struct", bytes "switch", bytes "template",
   bytes "this", bytes "thread_local", bytes "throw", bytes "try",
   bytes "typedef", bytes "typeid", bytes "typename", bytes "union",
   bytes "unsigned", bytes "using", bytes "virtual", bytes "void",
   bytes "volatile", bytes "wchar_t", bytes "while", bytes "xor", bytes "xor_eq"]

/-- Boolean/nullptr table of the identifier arm of cpp.rs. -/
def cppBooleans : List (List Nat) :=
  [bytes "true", bytes "false", bytes "TRUE", bytes "FALSE",
   bytes "nullptr", bytes "NULL"]

/-- STL-type table of the identifier arm of cpp.rs. -/
def cppTypeNames : List (List Nat) :=
  [bytes "string", bytes "vector", bytes "map", bytes "set", bytes "list",
   bytes "deque", bytes "queue", bytes "stack", bytes "array", bytes "pair",
   bytes "tuple", bytes "optional", bytes "variant", bytes "any",
   bytes "function", bytes "shared_ptr", bytes "unique_ptr", bytes "weak_ptr",
   bytes "size_t", bytes "ptrdiff_t", bytes "nullptr_t"]

/-- Word classification of the identifier arm of cpp.rs. -/
def cppClassify (w : List Nat) : TokenKind :=
  if cppKeywords.contains w then TokenKind.Keyword
  else if cppBooleans.contains w then TokenKind.Boolean
  else if cppTypeNames.contains w then TokenKind.TypeName
  else TokenKind.Identifier

/-- Two-byte operator table of cpp.rs (the c.rs table plus `::`). -/
def cppPair2 (a c : Nat) : Bool :=
  cPair2 a c || (a = 58 && c = 58)

/-- Three-byte operator table of cpp.rs. -/
def cppTriple3 (a c d : Nat) : Bool :=
  (a = 60 && c = 60 && d = 61) || (a = 62 && c = 62 && d = 61) ||
  (a = 45 && c = 62 && d = 42) || (a = 46 && c = 46 && d = 46)

/-- The operator arm of cpp.rs. -/
def cppOpEnd (text : List Nat) (pos : Nat) : Nat :=
  let len := text.length
  let b := byteAt text pos
  if pos + 1 < len ∧ cppPair2 b (byteAt text (pos + 1)) = true then
    if pos + 2 < len ∧ cppTriple3 b (byteAt text (pos + 1)) (byteAt text (pos + 2)) = true then
      pos + 3
    else pos + 2
  else pos + 1

/-- The identifier, operator and error arms of cpp.rs. -/
def cppTail (text : List Nat) (pos : Nat) : TokenKind × Nat :=
  let len := text.length
  let b := byteAt text pos
  if is_ident_start b then
    let e := scanWhile text identContinueU len pos
    (cppClassify (sliceB text pos e), e)
  else if cOpByte b then
    (TokenKind.Operator, cppOpEnd text pos)
  else (TokenKind.Error, pos + 1)

/-- One iteration of the cpp.rs `tokenize` loop. -/
def cppStep (text : List Nat) (pos : Nat) : TokenKind × Nat :=
  let len := text.length
  let b := byteAt text pos
  if is_whitespace b then
    (TokenKind.Whitespace, scanWhile text is_whitespace len pos)
  else if b = 47 ∧ pos + 1 < len ∧ byteAt text (pos + 1) = 47 then
    (TokenKind.Comment, scanWhile text (fun c => c ≠ 10) len (pos + 2))
  else if b = 47 ∧ pos + 1 < len ∧ byteAt text (pos + 1) = 42 then
    (TokenKind.Comment, scanPair text 42 47 len (pos + 2))
  else if b = 35 then
    let p1 := scanWhile text is_whitespace len (pos + 1)
    let p2 := scanWhile text identContinueU len p1
    (TokenKind.MacroKind, scanLogicalLine text len p2)
  else if b = 82 ∧ pos + 2 < len ∧ byteAt text (pos + 1) = 34 ∧ byteAt text (pos + 2) = 40 then
    (TokenKind.String, cppRaw text pos)
  else if b = 34 then
    (TokenKind.String, scanEsc text 34 len (pos + 1) false)
  else if b = 39 then
    (TokenKind.Char, scanEsc text 39 len (pos + 1) false)
  else if is_ascii_digit b then
    (TokenKind.Number, cppNum text pos)
  else cppTail text pos

/-- cpp.rs `CppLexer::tokenize`. -/
def cppTokenize (text : List Nat) : List Token :=
  runStep1 cppStep text text.length 0

theorem matchCount_nonneg (text : List Nat) (ds : List Nat) (temp : Nat) :
    matchCount text ds temp ≤ ds.length := by
  induction ds generalizing temp with
  | nil => simp [matchCount]
  | cons d ds ih =>
    simp only [matchCount]
    split
    · have := ih (temp + 1)
      simp only [List.length_cons]
      omega
    · simp

theorem scanRawEnd_ge (text : List Nat) (delim : List Nat) :
    ∀ fuel pos, pos ≤ scanRawEnd text delim fuel pos := by
  intro fuel
  induction fuel with
  | zero => intro pos; simp [scanRawEnd]
  | succ n ih =>
    intro pos
    simp only [scanRawEnd]
    split
    · split
      · omega
      · exact Nat.le_trans (Nat.le_succ pos) (ih (pos + 1))
    · exact Nat.le_refl pos

theorem scanRawEnd_le (text : List Nat) (delim : List Nat) :
    ∀ fuel pos, pos ≤ text.length → scanRawEnd text delim fuel pos ≤ text.length := by
  intro fuel
  induction fuel with
  | zero => intro pos h; simpa [scanRawEnd] using h
  | succ n ih =>
    intro pos h
    simp only [scanRawEnd]
    split
    · split
      · next hc => omega
      · exact ih (pos + 1) (by omega)
    · exact h

theorem cppRaw_bounds (text : List Nat) (pos : Nat) (h : pos + 2 < text.length) :
    pos < cppRaw text pos ∧ cppRaw text pos ≤ text.length := by
  simp only [cppRaw]
  have hd := scanWhile_bounds_of text (fun c => decide (c ≠ 41)) text.length
    (p := pos) (a := pos + 3) (by omega) (by omega)
  split_ifs with h1
  · constructor
    · exact Nat.lt_of_lt_of_le (by omega)
        (scanRawEnd_ge text _ text.length _)
    · exact scanRawEnd_le text _ text.length _ (by omega)
  · constructor
    · exact Nat.lt_of_lt_of_le (by omega)
        (scanRawEnd_ge text _ text.length _)
    · exact scanRawEnd_le text _ text.length _ (by omega)

theorem cppNum_bounds (text : List Nat) (pos : Nat) (h : pos < text.length)
    (hd : is_ascii_digit (byteAt text pos) = true) :
    pos < cppNum text pos ∧ cppNum text pos ≤ text.length := by
  simp only [cppNum]
  split_ifs with h1 h2 h3 h4 h5 h6 h7 h8
  · have := scanWhile_bounds_of text cppHexU text.length (p := pos) (a := pos + 2)
      (by omega) (by omega)
    exact scanWhile_bounds_of text cSuffix text.length this.1 this.2
  · have := scanWhile_bounds_of text cppBinU text.length (p := pos) (a := pos + 2)
      (by omega) (by omega)
    exact scanWhile_bounds_of text cSuffix text.length this.1 this.2
  · have := scanWhile_bounds_of text cppOctU text.length (p := pos) (a := pos + 1)
      (by omega) (by omega)
    exact scanWhile_bounds_of text cSuffix text.length this.1 this.2
  all_goals
    have hp1 : pos < scanWhile text cppDigitU text.length pos ∧
        scanWhile text cppDigitU text.length pos ≤ text.length :=
      ⟨scanWhile_advance text cppDigitU text.length pos (by omega) h (by simp [cppDigitU, hd]),
       scanWhile_le text cppDigitU text.length pos (by omega)⟩
  · have hp2 := scanWhile_bounds_of text cppDigitU text.length
      (p := pos) (a := scanWhile text cppDigitU text.length pos + 1) (by omega) (by omega)
    refine scanWhile_bounds_of text cSuffix text.length
      (scanWhile_bounds_of text cppExpU text.length ?_ ?_).1
      (scanWhile_bounds_of text cppExpU text.length (p := pos) ?_ ?_).2 <;> omega
  · have hp2 := scanWhile_bounds_of text cppDigitU text.length
      (p := pos) (a := scanWhile text cppDigitU text.length pos + 1) (by omega) (by omega)
    refine scanWhile_bounds_of text cSuffix text.length
      (scanWhile_bounds_of text cppExpU text.length ?_ ?_).1
      (scanWhile_bounds_of text cppExpU text.length (p := pos) ?_ ?_).2 <;> omega
  · have hp2 := scanWhile_bounds_of text cppDigitU text.length
      (p := pos) (a := scanWhile text cppDigitU text.length pos + 1) (by omega) (by omega)
    exact scanWhile_bounds_of text cSuffix text.length hp2.1 hp2.2
  · refine scanWhile_bounds_of text cSuffix text.length
      (scanWhile_bounds_of text cppExpU text.length ?_ ?_).1
      (scanWhile_bounds_of text cppExpU text.length (p := pos) ?_ ?_).2 <;> omega
  · refine scanWhile_bounds_of text cSuffix text.length
      (scanWhile_bounds_of text cppExpU text.length ?_ ?_).1
      (scanWhile_bounds_of text cppExpU text.length (p := pos) ?_ ?_).2 <;> omega
  · exact scanWhile_bounds_of text cSuffix text.length hp1.1 hp1.2

theorem cppOpEnd_bounds (text : List Nat) (pos : Nat) (h : pos < text.length) :
    pos < cppOpEnd text pos ∧ cppOpEnd text pos ≤ text.length := by
  simp only [cppOpEnd]
  split_ifs <;> omega

theorem cppTail_bounds (text : List Nat) (pos : Nat) (h : pos < text.length) :
    pos < (cppTail text pos).2 ∧ (cppTail text pos).2 ≤ text.length := by
  simp only [cppTail]
  split_ifs with h1 h2
  · exact ⟨scanWhile_advance text identContinueU text.length pos (by omega) h
      (ident_start_continue h1),
      scanWhile_le text identContinueU text.length pos (by omega)⟩
  · exact cppOpEnd_bounds text pos h
  · omega

theorem cppStep_bounds (text : List Nat) (pos : Nat) (h : pos < text.length) :
    pos < (cppStep text pos).2 ∧ (cppStep text pos).2 ≤ text.length := by
  simp only [cppStep]
  split_ifs with h1 h2 h3 h4 h5 h6 h7 h8
  · exact ⟨scanWhile_advance text is_whitespace text.length pos (by omega) h h1,
      scanWhile_le text is_whitespace text.length pos (by omega)⟩
  · exact scanWhile_bounds_of text (fun c => decide (c ≠ 10)) text.length (by omega) (by omega)
  · exact scanPair_bounds_of text 42 47 text.length (by omega) (by omega)
  · have q1 := scanWhile_bounds_of text is_whitespace text.length
      (p := pos) (a := pos + 1) (by omega) (by omega)
    have q2 := scanWhile_bounds_of text identContinueU text.length q1.1 q1.2
    exact scanLogicalLine_bounds_of text text.length q2.1 q2.2
  · exact cppRaw_bounds text pos h5.2.1
  · exact scanEsc_bounds_of text 34 text.length false (by omega) (by omega)
  · exact scanEsc_bounds_of text 39 text.length false (by omega) (by omega)
  · exact cppNum_bounds text pos h h8
  · exact cppTail_bounds text pos h


/-- Scan to the next occurrence of byte `q`, consuming it when present
(shared shape of several "find closing byte" loops). -/
def scanUntilInc (text : List Nat) (q : Nat) (from0 : Nat) : Nat :=
  let p := scanWhile text (fun c => c ≠ q) text.length from0
  if p < text.length then p + 1 else p

theorem scanUntilInc_bounds_of (text : List Nat) (q : Nat) {p a : Nat}
    (h1 : p < a) (h2 : a ≤ text.length) :
    p < scanUntilInc text q a ∧ scanUntilInc text q a ≤ text.length := by
  simp only [scanUntilInc]
  have hp := scanWhile_bounds_of text (fun c => decide (c ≠ q)) text.length h1 h2
  split_ifs <;> omega

/-! ### The Go lexer (go.rs) -/

/-- Keyword table of the identifier arm of go.rs. -/
def goKeywords : List (List Nat) :=
  [bytes "break", bytes "case", bytes "chan", bytes "const", bytes "continue",
   bytes "default", bytes "defer", bytes "else", bytes "fallthrough",
   bytes "for", bytes "func", bytes "go", bytes "goto", bytes "if",
   bytes "import", bytes "interface", bytes "map", bytes "package",
   bytes "range", bytes "return", bytes "select", bytes "struct",
   bytes "switch", bytes "type", bytes "var"]

/-- Built-in type table of the identifier arm of go.rs. -/
def goTypeNames : List (List Nat) :=
  [bytes "bool", bytes "byte", bytes "complex64", bytes "complex128",
   bytes "error", bytes "float32", bytes "float64", bytes "int",
   bytes "int8", bytes "int16", bytes "int32", bytes "int64", bytes "rune",
   bytes "string", bytes "uint", bytes "uint8", bytes "uint16",
   bytes "uint32", bytes "uint64", bytes "uintptr"]

/-- Built-in function table of the identifier arm of go.rs. -/
def goFuncNames : List (List Nat) :=
  [bytes "append", bytes "cap", bytes "close", bytes "complex", bytes "copy",
   bytes "delete", bytes "imag", bytes "len", bytes "make", bytes "new",
   bytes "panic", bytes "print", bytes "println", bytes "real", bytes "recover"]

/-- Word classification of the identifier arm of go.rs. -/
def goClassify (w : List Nat) : TokenKind :=
  if goKeywords.contains w then TokenKind.Keyword
  else if [bytes "true", bytes "false"].contains w then TokenKind.Boolean
  else if [bytes "nil"].contains w then TokenKind.Boolean
  else if goTypeNames.contains w then TokenKind.TypeName
  else if goFuncNames.contains w then TokenKind.FunctionName
  else if [bytes "iota"].contains w then TokenKind.Keyword
  else TokenKind.Identifier

/-- The number arm of go.rs: hex / octal (`0o`) / binary prefixes, else
decimal with fraction and exponent, then the imaginary suffix `i`. -/
def goNum (text : List Nat) (pos : Nat) : Nat :=
  let len := text.length
  let p :=
    if byteAt text pos = 48 ∧ pos + 1 < len ∧
        (byteAt text (pos + 1) = 120 ∨ byteAt text (pos + 1) = 88) then
      scanWhile text hexDigitU len (pos + 2)
    else if byteAt text pos = 48 ∧ pos + 1 < len ∧
        (byteAt text (pos + 1) = 111 ∨ byteAt text (pos + 1) = 79) then
      scanWhile text octDigitU len (pos + 2)
    else if byteAt text pos = 48 ∧ pos + 1 < len ∧
        (byteAt text (pos + 1) = 98 ∨ byteAt text (pos + 1) = 66) then
      scanWhile text binDigitU len (pos + 2)
    else
      let p1 := scanWhile text digitU len pos
      let p2 :=
        if p1 < len ∧ byteAt text p1 = 46 ∧ p1 + 1 < len ∧
            is_ascii_digit (byteAt text (p1 + 1)) = true
        then scanWhile text digitU len (p1 + 1) else p1
      if p2 < len ∧ (byteAt text p2 = 101 ∨ byteAt text p2 = 69) then
        let p3 := if p2 + 1 < len ∧ (byteAt text (p2 + 1) = 43 ∨ byteAt text (p2 + 1) = 45)
          then p2 + 2 else p2 + 1
        scanWhile text digitU len p3
      else p2
  if p < len ∧ byteAt text p = 105 then p + 1 else p

/-- Two-byte operator table of go.rs: the common pairs (go.rs has no
`->`) and `<-`, `:=`, `..`. -/
def goPair2 (a c : Nat) : Bool :=
  basePair2 a c || (a = 60 && c = 45) || (a = 58 && c = 61) || (a = 46 && c = 46)

/-- Three-byte operator table of go.rs. -/
def goTriple3 (a c d : Nat) : Bool :=
  (a = 60 && c = 60 && d = 61) || (a = 62 && c = 62 && d = 61) ||
  (a = 46 && c = 46 && d = 46) || (a = 38 && c = 94 && d = 61)

/-- The operator arm of go.rs. -/
def goOpEnd (text : List Nat) (pos : Nat) : Nat :=
  let len := text.length
  let b := byteAt text pos
  if pos + 1 < len ∧ goPair2 b (byteAt text (pos + 1)) = true then
    if pos + 2 < len ∧ goTriple3 b (byteAt text (pos + 1)) (byteAt text (pos + 2)) = true then
      pos + 3
    else pos + 2
  else pos + 1

/-- The identifier, operator and error arms of go.rs. -/
def goTail (text : List Nat) (pos : Nat) : TokenKind × Nat :=
  let len := text.length
  let b := byteAt text pos
  if is_ident_start b then
    let e := scanWhile text identContinueU len pos
    (goClassify (sliceB text pos e), e)
  else if cOpByte b then
    (TokenKind.Operator, goOpEnd text pos)
  else (TokenKind.Error, pos + 1)

/-- One iteration of the go.rs `tokenize` loop. -/
def goStep (text : List Nat) (pos : Nat) : TokenKind × Nat :=
  let len := text.length
  let b := byteAt text pos
  if is_whitespace b then
    (TokenKind.Whitespace, scanWhile text is_whitespace len pos)
  else if b = 47 ∧ pos + 1 < len ∧ byteAt text (pos + 1) = 47 then
    (TokenKind.Comment, scanWhile text (fun c => c ≠ 10) len (pos + 2))
  else if b = 47 ∧ pos + 1 < len ∧ byteAt text (pos + 1) = 42 then
    (TokenKind.Comment, scanPair text 42 47 len (pos + 2))
  else if b = 96 then
    (TokenKind.String, scanUntilInc text 96 (pos + 1))
  else if b = 34 then
    (TokenKind.String, scanEsc text 34 len (pos + 1) false)
  else if b = 39 then
    (TokenKind.Char, scanEsc text 39 len (pos + 1) false)
  else if is_ascii_digit b then
    (TokenKind.Number, goNum text pos)
  else goTail text pos

/-- go.rs `GoLexer::tokenize`. -/
def goTokenize (text : List Nat) : List Token :=
  runStep1 goStep text text.length 0

theorem goNum_bounds (text : List Nat) (pos : Nat) (h : pos < text.length)
    (hd : is_ascii_digit (byteAt text pos) = true) :
    pos < goNum text pos ∧ goNum text pos ≤ text.length := by
  simp only [goNum]
  split_ifs with h1 h2 h3 h4 h5 h6 h7 h8 h9 h10 h11 h12
  all_goals try {
    have := scanWhile_bounds_of text hexDigitU text.length (p := pos) (a := pos + 2)
      (by omega) (by omega)
    omega }
  all_goals try {
    have := scanWhile_bounds_of text octDigitU text.length (p := pos) (a := pos + 2)
      (by omega) (by omega)
    omega }
  all_goals try {
    have := scanWhile_bounds_of text binDigitU text.length (p := pos) (a := pos + 2)
      (by omega) (by omega)
    omega }
  all_goals
    have hp1 : pos < scanWhile text digitU text.length pos ∧
        scanWhile text digitU text.length pos ≤ text.length :=
      ⟨scanWhile_advance text digitU text.length pos (by omega) h (by simp [digitU, hd]),
       scanWhile_le text digitU text.length pos (by omega)⟩
  all_goals try {
    have hp2 := scanWhile_bounds_of text digitU text.length
      (p := pos) (a := scanWhile text digitU text.length pos + 1) (by omega) (by omega)
    first
    | (have hp3 := scanWhile_bounds_of text digitU text.length
        (p := pos)
        (a := scanWhile text digitU text.length
          (scanWhile text digitU text.length pos + 1) + 2) (by omega) (by omega)
       omega)
    | (have hp3 := scanWhile_bounds_of text digitU text.length
        (p := pos)
        (a := scanWhile text digitU text.length
          (scanWhile text digitU text.length pos + 1) + 1) (by omega) (by omega)
       omega)
    | omega }
  all_goals try {
    first
    | (have hp3 := scanWhile_bounds_of text digitU text.length
        (p := pos) (a := scanWhile text digitU text.length pos + 2) (by omega) (by omega)
       omega)
    | (have hp3 := scanWhile_bounds_of text digitU text.length
        (p := pos) (a := scanWhile text digitU text.length pos + 1) (by omega) (by omega)
       omega)
    | omega }

theorem goOpEnd_bounds (text : List Nat) (pos : Nat) (h : pos < text.length) :
    pos < goOpEnd text pos ∧ goOpEnd text pos ≤ text.length := by
  simp only [goOpEnd]
  split_ifs <;> omega

theorem goTail_bounds (text : List Nat) (pos : Nat) (h : pos < text.length) :
    pos < (goTail text pos).2 ∧ (goTail text pos).2 ≤ text.length := by
  simp only [goTail]
  split_ifs with h1 h2
  · exact ⟨scanWhile_advance text identContinueU text.length pos (by omega) h
      (ident_start_continue h1),
      scanWhile_le text identContinueU text.length pos (by omega)⟩
  · exact goOpEnd_bounds text pos h
  · omega

theorem goStep_bounds (text : List Nat) (pos : Nat) (h : pos < text.length) :
    pos < (goStep text pos).2 ∧ (goStep text pos).2 ≤ text.length := by
  simp only [goStep]
  split_ifs with h1 h2 h3 h4 h5 h6 h7
  · exact ⟨scanWhile_advance text is_whitespace text.length pos (by omega) h h1,
      scanWhile_le text is_whitespace text.length pos (by omega)⟩
  · exact scanWhile_bounds_of text (fun c => decide (c ≠ 10)) text.length (by omega) (by omega)
  · exact scanPair_bounds_of text 42 47 text.length (by omega) (by omega)
  · exact scanUntilInc_bounds_of text 96 (by omega) (by omega)
  · exact scanEsc_bounds_of text 34 text.length false (by omega) (by omega)
  · exact scanEsc_bounds_of text 39 text.length false (by omega) (by omega)
  · exact goNum_bounds text pos h h7
  · exact goTail_bounds text pos h


/-! ### The C# lexer (csharp.rs) -/

/-- The interpolated-string loop of csharp.rs, tracking verbatim mode,
brace depth and the escape flag. -/
def scanInterp (text : List Nat) : Nat → Nat → Bool → Nat → Bool → Nat
  | 0, pos, _, _, _ => pos
  | fuel + 1, pos, v, depth, esc =>
    if pos < text.length then
      if v = true then
        if byteAt text pos = 34 then
          if pos + 1 < text.length ∧ byteAt text (pos + 1) = 34 then
            scanInterp text fuel (pos + 2) v depth esc
          else pos + 1
        else if byteAt text pos = 123 then
          if pos + 1 < text.length ∧ byteAt text (pos + 1) = 123 then
            scanInterp text fuel (pos + 2) v depth esc
          else scanInterp text fuel (pos + 1) v (depth + 1) esc
        else if byteAt text pos = 125 then
          scanInterp text fuel (pos + 1) v (depth - 1) esc
        else scanInterp text fuel (pos + 1) v depth esc
      else
        if esc = true then scanInterp text fuel (pos + 1) v depth false
        else if byteAt text pos = 92 then scanInterp text fuel (pos + 1) v depth true
        else if byteAt text pos = 34 ∧ depth = 0 then pos + 1
        else if byteAt text pos = 123 then
          if pos + 1 < text.length ∧ byteAt text (pos + 1) = 123 then
            scanInterp text fuel (pos + 2) v depth esc
          else scanInterp text fuel (pos + 1) v (depth + 1) esc
        else if byteAt text pos = 125 then
          scanInterp text fuel (pos + 1) v (depth - 1) esc
        else scanInterp text fuel (pos + 1) v depth esc
    else pos

theorem scanInterp_ge (text : List Nat) :
    ∀ fuel pos v depth esc, pos ≤ scanInterp text fuel pos v depth esc := by
  intro fuel
  induction fuel with
  | zero => intro pos v d e; simp [scanInterp]
  | succ n ih =>
    intro pos v d e
    simp only [scanInterp]
    split
    · split
      · split
        · split
          · exact Nat.le_trans (by omega) (ih (pos + 2) v d e)
          · omega
        · split
          · split
            · exact Nat.le_trans (by omega) (ih (pos + 2) v d e)
            · exact Nat.le_trans (by omega) (ih (pos + 1) v (d + 1) e)
          · split
            · exact Nat.le_trans (by omega) (ih (pos + 1) v (d - 1) e)
            · exact Nat.le_trans (by omega) (ih (pos + 1) v d e)
      · split
        · exact Nat.le_trans (by omega) (ih (pos + 1) v d false)
        · split
          · exact Nat.le_trans (by omega) (ih (pos + 1) v d true)
          · split
            · omega
            · split
              · split
                · exact Nat.le_trans (by omega) (ih (pos + 2) v d e)
                · exact Nat.le_trans (by omega) (ih (pos + 1) v (d + 1) e)
              · split
                · exact Nat.le_trans (by omega) (ih (pos + 1) v (d - 1) e)
                · exact Nat.le_trans (by omega) (ih (pos + 1) v d e)
    · exact Nat.le_refl pos

theorem scanInterp_le (text : List Nat) :
    ∀ fuel pos v depth esc, pos ≤ text.length →
      scanInterp text fuel pos v depth esc ≤ text.length := by
  intro fuel
  induction fuel with
  | zero => intro pos v d e h; simpa [scanInterp] using h
  | succ n ih =>
    intro pos v d e h
    simp only [scanInterp]
    split
    · next hlt =>
      split
      · split
        · split
          · next hq => exact ih (pos + 2) v d e (by omega)
          · omega
        · split
          · split
            · next hq => exact ih (pos + 2) v d e (by omega)
            · exact ih (pos + 1) v (d + 1) e (by omega)
          · split
            · exact ih (pos + 1) v (d - 1) e (by omega)
            · exact ih (pos + 1) v d e (by omega)
      · split
        · exact ih (pos + 1) v d false (by omega)
        · split
          · exact ih (pos + 1) v d true (by omega)
          · split
            · omega
            · split
              · split
                · next hq => exact ih (pos + 2) v d e (by omega)
                · exact ih (pos + 1) v (d + 1) e (by omega)
              · split
                · exact ih (pos + 1) v (d - 1) e (by omega)
                · exact ih (pos + 1) v d e (by omega)
    · exact h

/-- Keyword table of the identifier arm of csharp.rs (reserved,
contextual and C# 9.0+ keywords). -/
def csKeywords : List (List Nat) :=
  [bytes "abstract", bytes "as", bytes "base", bytes "bool", bytes "break",
   bytes "byte", bytes "case", bytes "catch", bytes "char", bytes "checked",
   bytes "class", bytes "const", bytes "continue", bytes "decimal",
   bytes "default", bytes "delegate", bytes "do", bytes "double",
   bytes "else", bytes "enum", bytes "event", bytes "explicit",
   bytes "extern", bytes "finally", bytes "fixed", bytes "float",
   bytes "for", bytes "foreach", bytes "goto", bytes "if", bytes "implicit",
   bytes "in", bytes "int", bytes "interface", bytes "internal", bytes "is",
   bytes "lock", bytes "long", bytes "namespace", bytes "new", bytes "object",
   bytes "operator", bytes "out", bytes "override", bytes "params",
   bytes "private", bytes "protected", bytes "public", bytes "readonly",
   bytes "ref", bytes "return", bytes "sbyte", bytes "sealed", bytes "short",
   bytes "sizeof", bytes "stackalloc", bytes "static", bytes "string",
   bytes "struct", bytes "switch", bytes "this", bytes "throw", bytes "try",
   bytes "typeof", bytes "uint", bytes "ulong", bytes "unchecked",
   bytes "unsafe", bytes "ushort", bytes "using", bytes "virtual",
   bytes "void", bytes "volatile", bytes "while",
   bytes "add", bytes "alias", bytes "ascending", bytes "async",
   bytes "await", bytes "by", bytes "descending", bytes "dynamic",
   bytes "equals", bytes "from", bytes "get", bytes "global", bytes "group",
   bytes "into", bytes "join", bytes "let", bytes "nameof", bytes "on",
   bytes "orderby", bytes "partial", bytes "remove", bytes "select",
   bytes "set", bytes "value", bytes "var", bytes "when", bytes "where",
   bytes "yield", bytes "record", bytes "init", bytes "with", bytes "nint",
   bytes "nuint"]

/-- Word classification of the identifier arm of csharp.rs. -/
def csClassify (w : List Nat) : TokenKind :=
  if csKeywords.contains w then TokenKind.Keyword
  else if [bytes "true", bytes "false"].contains w then TokenKind.Boolean
  else if [bytes "null"].contains w then TokenKind.Boolean
  else TokenKind.Identifier

/-- Numeric-suffix predicate of csharp.rs (`f F d D m M l L u U`). -/
def csSuffix (c : Nat) : Bool :=
  c = 102 || c = 70 || c = 100 || c = 68 || c = 109 || c = 77 ||
  c = 108 || c = 76 || c = 117 || c = 85

/-- The number arm of csharp.rs: hex / binary prefixes, else decimal with
digit-guarded fraction and exponent, then the suffix loop. -/
def csNum (text : List Nat) (pos : Nat) : Nat :=
  let len := text.length
  let p :=
    if byteAt text pos = 48 ∧ pos + 1 < len ∧
        (byteAt text (pos + 1) = 120 ∨ byteAt text (pos + 1) = 88) then
      scanWhile text hexDigitU len (pos + 2)
    else if byteAt text pos = 48 ∧ pos + 1 < len ∧
        (byteAt text (pos + 1) = 98 ∨ byteAt text (pos + 1) = 66) then
      scanWhile text binDigitU len (pos + 2)
    else
      let p1 := scanWhile text digitU len pos
      let p2 :=
        if p1 < len ∧ byteAt text p1 = 46 ∧ p1 + 1 < len ∧
            is_ascii_digit (byteAt text (p1 + 1)) = true
        then scanWhile text digitU len (p1 + 1) else p1
      if p2 < len ∧ (byteAt text p2 = 101 ∨ byteAt text p2 = 69) then
        let p3 := if p2 + 1 < len ∧ (byteAt text (p2 + 1) = 43 ∨ byteAt text (p2 + 1) = 45)
          then p2 + 2 else p2 + 1
        scanWhile text is_ascii_digit len p3
      else p2
  scanWhile text csSuffix len p

/-- Two-byte operator table of csharp.rs: the common pairs (csharp.rs
has no `->`) and `=>`, `??`, `?.`. -/
def csPair2 (a c : Nat) : Bool :=
  basePair2 a c || (a = 61 && c = 62) || (a = 63 && c = 63) || (a = 63 && c = 46)

/-- Three-byte operator table of csharp.rs. -/
def csTriple3 (a c d : Nat) : Bool :=
  (a = 60 && c = 60 && d = 61) || (a = 62 && c = 62 && d = 61) ||
  (a = 63 && c = 63 && d = 61)

/-- The operator arm of csharp.rs. -/
def csOpEnd (text : List Nat) (pos : Nat) : Nat :=
  let len := text.length
  let b := byteAt text pos
  if pos + 1 < len ∧ csPair2 b (byteAt text (pos + 1)) = true then
    if pos + 2 < len ∧ csTriple3 b (byteAt text (pos + 1)) (byteAt text (pos + 2)) = true then
      pos + 3
    else pos + 2
  else pos + 1

/-- The identifier (with `@` verbatim prefix), operator and error arms of
csharp.rs. -/
def csTail (text : List Nat) (pos : Nat) : TokenKind × Nat :=
  let len := text.length
  let b := byteAt text pos
  if is_ident_start b ∨ b = 64 then
    let p0 := if b = 64 then pos + 1 else pos
    let e := scanWhile text identContinueU len p0
    (csClassify (sliceB text pos e), e)
  else if cOpByte b then
    (TokenKind.Operator, csOpEnd text pos)
  else (TokenKind.Error, pos + 1)

/-- The interpolated-string arm of csharp.rs: skip `$"` or `$@"`, then
run the interpolation loop. -/
def csInterpArm (text : List Nat) (pos : Nat) : Nat :=
  let verbatim := byteAt text (pos + 1) = 64
  let p0 := if verbatim then pos + 3 else pos + 2
  scanInterp text text.length p0 verbatim 0 false

/-- The interpolated-string, plain-string, char, number, identifier,
operator and error arms of csharp.rs. -/
def csStep2 (text : List Nat) (pos : Nat) : TokenKind × Nat :=
  let len := text.length
  let b := byteAt text pos
  if b = 36 ∧ pos + 1 < len ∧ (byteAt text (pos + 1) = 34 ∨
      (pos + 2 < len ∧ byteAt text (pos + 1) = 64 ∧ byteAt text (pos + 2) = 34)) then
    (TokenKind.String, csInterpArm text pos)
  else if b = 34 then
    (TokenKind.String, scanEsc text 34 len (pos + 1) false)
  else if b = 39 then
    (TokenKind.Char, scanEsc text 39 len (pos + 1) false)
  else if is_ascii_digit b then
    (TokenKind.Number, csNum text pos)
  else csTail text pos

/-- One iteration of the csharp.rs `tokenize` loop. -/
def csStep (text : List Nat) (pos : Nat) : TokenKind × Nat :=
  let len := text.length
  let b := byteAt text pos
  if is_whitespace b then
    (TokenKind.Whitespace, scanWhile text is_whitespace len pos)
  else if b = 47 ∧ pos + 1 < len ∧ byteAt text (pos + 1) = 47 then
    (TokenKind.Comment, scanWhile text (fun c => c ≠ 10) len (pos + 2))
  else if b = 47 ∧ pos + 1 < len ∧ byteAt text (pos + 1) = 42 then
    (TokenKind.Comment, scanPair text 42 47 len (pos + 2))
  else if b = 35 then
    (TokenKind.MacroKind, scanWhile text (fun c => c ≠ 10) len (pos + 1))
  else if b = 91 ∧ pos + 1 < len ∧ is_ident_start (byteAt text (pos + 1)) = true then
    (TokenKind.Attribute, scanUntilInc text 93 (pos + 1))
  else if b = 64 ∧ pos + 1 < len ∧ byteAt text (pos + 1) = 34 then
    (TokenKind.String, scanDoubled text 34 len (pos + 2))
  else csStep2 text pos

/-- csharp.rs `CSharpLexer::tokenize`. -/
def csTokenize (text : List Nat) : List Token :=
  runStep1 csStep text text.length 0

theorem csNum_bounds (text : List Nat) (pos : Nat) (h : pos < text.length)
    (hd : is_ascii_digit (byteAt text pos) = true) :
    pos < csNum text pos ∧ csNum text pos ≤ text.length := by
  simp only [csNum]
  split_ifs with h1 h2 h3 h4 h5 h6 h7 h8
  · have := scanWhile_bounds_of text hexDigitU text.length (p := pos) (a := pos + 2)
      (by omega) (by omega)
    exact scanWhile_bounds_of text csSuffix text.length this.1 this.2
  · have := scanWhile_bounds_of text binDigitU text.length (p := pos) (a := pos + 2)
      (by omega) (by omega)
    exact scanWhile_bounds_of text csSuffix text.length this.1 this.2
  all_goals
    have hp1 : pos < scanWhile text digitU text.length pos ∧
        scanWhile text digitU text.length pos ≤ text.length :=
      ⟨scanWhile_advance text digitU text.length pos (by omega) h (by simp [digitU, hd]),
       scanWhile_le text digitU text.length pos (by omega)⟩
  · have hp2 := scanWhile_bounds_of text digitU text.length
      (p := pos) (a := scanWhile text digitU text.length pos + 1) (by omega) (by omega)
    refine scanWhile_bounds_of text csSuffix text.length
      (scanWhile_bounds_of text is_ascii_digit text.length ?_ ?_).1
      (scanWhile_bounds_of text is_ascii_digit text.length (p := pos) ?_ ?_).2 <;> omega
  · have hp2 := scanWhile_bounds_of text digitU text.length
      (p := pos) (a := scanWhile text digitU text.length pos + 1) (by omega) (by omega)
    refine scanWhile_bounds_of text csSuffix text.length
      (scanWhile_bounds_of text is_ascii_digit text.length ?_ ?_).1
      (scanWhile_bounds_of text is_ascii_digit text.length (p := pos) ?_ ?_).2 <;> omega
  · have hp2 := scanWhile_bounds_of text digitU text.length
      (p := pos) (a := scanWhile text digitU text.length pos + 1) (by omega) (by omega)
    exact scanWhile_bounds_of text csSuffix text.length hp2.1 hp2.2
  · refine scanWhile_bounds_of text csSuffix text.length
      (scanWhile_bounds_of text is_ascii_digit text.length ?_ ?_).1
      (scanWhile_bounds_of text is_ascii_digit text.length (p := pos) ?_ ?_).2 <;> omega
  · refine scanWhile_bounds_of text csSuffix text.length
      (scanWhile_bounds_of text is_ascii_digit text.length ?_ ?_).1
      (scanWhile_bounds_of text is_ascii_digit text.length (p := pos) ?_ ?_).2 <;> omega
  · exact scanWhile_bounds_of text csSuffix text.length hp1.1 hp1.2

theorem csOpEnd_bounds (text : List Nat) (pos : Nat) (h : pos < text.length) :
    pos < csOpEnd text pos ∧ csOpEnd text pos ≤ text.length := by
  simp only [csOpEnd]
  split_ifs <;> omega

theorem csTail_bounds (text : List Nat) (pos : Nat) (h : pos < text.length) :
    pos < (csTail text pos).2 ∧ (csTail text pos).2 ≤ text.length := by
  simp only [csTail]
  split_ifs with h1 h2 h3
  · exact ⟨Nat.lt_of_lt_of_le (by omega)
      (scanWhile_ge text identContinueU text.length (pos + 1)),
      scanWhile_le text identContinueU text.length (pos + 1) (by omega)⟩
  · rcases h1 with hs | hat
    · exact ⟨scanWhile_advance text identContinueU text.length pos (by omega) h
        (ident_start_continue hs),
        scanWhile_le text identContinueU text.length pos (by omega)⟩
    · exact absurd hat h2
  · exact csOpEnd_bounds text pos h
  · omega

theorem csInterpArm_bounds (text : List Nat) (pos : Nat) (h : pos < text.length)
    (hg : pos + 1 < text.length ∧ (byteAt text (pos + 1) = 34 ∨
      (pos + 2 < text.length ∧ byteAt text (pos + 1) = 64 ∧ byteAt text (pos + 2) = 34))) :
    pos < csInterpArm text pos ∧ csInterpArm text pos ≤ text.length := by
  simp only [csInterpArm]
  split_ifs with hv
  · refine ⟨Nat.lt_of_lt_of_le (by omega) (scanInterp_ge text text.length _ _ 0 false),
      scanInterp_le text text.length _ _ 0 false ?_⟩
    rcases hg.2 with hq | ⟨hl, _, _⟩
    · rw [hv] at hq; omega
    · omega
  · exact ⟨Nat.lt_of_lt_of_le (by omega) (scanInterp_ge text text.length _ _ 0 false),
      scanInterp_le text text.length _ _ 0 false (by omega)⟩

theorem csStep2_bounds (text : List Nat) (pos : Nat) (h : pos < text.length) :
    pos < (csStep2 text pos).2 ∧ (csStep2 text pos).2 ≤ text.length := by
  simp only [csStep2]
  split_ifs with h1 h2 h3 h4
  · exact csInterpArm_bounds text pos h h1.2
  · exact scanEsc_bounds_of text 34 text.length false (by omega) (by omega)
  · exact scanEsc_bounds_of text 39 text.length false (by omega) (by omega)
  · exact csNum_bounds text pos h h4
  · exact csTail_bounds text pos h

theorem csStep_bounds (text : List Nat) (pos : Nat) (h : pos < text.length) :
    pos < (csStep text pos).2 ∧ (csStep text pos).2 ≤ text.length := by
  simp only [csStep]
  split_ifs with h1 h2 h3 h4 h5 h6
  · exact ⟨scanWhile_advance text is_whitespace text.length pos (by omega) h h1,
      scanWhile_le text is_whitespace text.length pos (by omega)⟩
  · exact scanWhile_bounds_of text (fun c => decide (c ≠ 10)) text.length (by omega) (by omega)
  · exact scanPair_bounds_of text 42 47 text.length (by omega) (by omega)
  · exact scanWhile_bounds_of text (fun c => decide (c ≠ 10)) text.length (by omega) (by omega)
  · exact scanUntilInc_bounds_of text 93 (by omega) (by omega)
  · exact scanDoubled_bounds_of text 34 text.length (by omega) (by omega)
  · exact csStep2_bounds text pos h


/-! ### The CSS lexer (css.rs) -/

/-- Identifier continuation of css.rs: identifier byte or `-`. -/
def cssIdentCont (c : Nat) : Bool :=
  is_ident_continue c || c = 45

/-- Keyword/value table of the identifier arm of css.rs. -/
def cssKeywords : List (List Nat) :=
  [bytes "important", bytes "inherit", bytes "initial", bytes "unset",
   bytes "auto", bytes "none", bytes "normal", bytes "bold", bytes "italic",
   bytes "block", bytes "inline", bytes "flex", bytes "grid",
   bytes "absolute", bytes "relative", bytes "fixed", bytes "sticky",
   bytes "left", bytes "right", bytes "center", bytes "top", bytes "bottom",
   bytes "hidden", bytes "visible", bytes "scroll", bytes "solid",
   bytes "dashed", bytes "dotted", bytes "transparent", bytes "currentColor"]

/-- Word classification of the identifier arm of css.rs. -/
def cssClassify (w : List Nat) : TokenKind :=
  if cssKeywords.contains w then TokenKind.Keyword else TokenKind.Identifier

/-- The number arm of css.rs: optional leading `-`, digits/dots, then a
unit (identifier run allowing `%`, or a single `%`). -/
def cssNum (text : List Nat) (pos : Nat) : Nat :=
  let len := text.length
  let p0 := if byteAt text pos = 45 then pos + 1 else pos
  let p := scanWhile text (fun c => is_ascii_digit c || c = 46) len p0
  if p < len ∧ is_ident_start (byteAt text p) = true then
    scanWhile text (fun c => is_ident_continue c || c = 37) len p
  else if p < len ∧ byteAt text p = 37 then p + 1
  else p

/-- Operator-byte set of the operator arm of css.rs. -/
def cssOpByte (b : Nat) : Bool :=
  b = 123 || b = 125 || b = 40 || b = 41 || b = 91 || b = 93 || b = 58 ||
  b = 59 || b = 44 || b = 62 || b = 43 || b = 126 || b = 42 || b = 61 ||
  b = 94 || b = 36 || b = 124

/-- Two-byte operator table of css.rs. -/
def cssPair2 (a c : Nat) : Bool :=
  (a = 58 && c = 58) || (a = 42 && c = 61) || (a = 94 && c = 61) ||
  (a = 36 && c = 61) || (a = 124 && c = 61)

/-- The identifier, operator and fallback arms of css.rs (the fallback
emits a one-byte `Operator`, not `Error`). -/
def cssTail (text : List Nat) (pos : Nat) : TokenKind × Nat :=
  let len := text.length
  let b := byteAt text pos
  if is_ident_start b ∨ b = 45 then
    let e := scanWhile text cssIdentCont len pos
    (cssClassify (sliceB text pos e), e)
  else if cssOpByte b then
    (TokenKind.Operator,
      if pos + 1 < len ∧ cssPair2 b (byteAt text (pos + 1)) = true then pos + 2 else pos + 1)
  else (TokenKind.Operator, pos + 1)

/-- One iteration of the css.rs `tokenize` loop. -/
def cssStep (text : List Nat) (pos : Nat) : TokenKind × Nat :=
  let len := text.length
  let b := byteAt text pos
  if is_whitespace b then
    (TokenKind.Whitespace, scanWhile text is_whitespace len pos)
  else if b = 47 ∧ pos + 1 < len ∧ byteAt text (pos + 1) = 42 then
    (TokenKind.Comment, scanPair text 42 47 len (pos + 2))
  else if b = 64 then
    (TokenKind.Keyword, scanWhile text cssIdentCont len (pos + 1))
  else if b = 35 then
    (TokenKind.Number, scanWhile text cssIdentCont len (pos + 1))
  else if b = 46 ∧ pos + 1 < len ∧
      (is_ident_start (byteAt text (pos + 1)) = true ∨ byteAt text (pos + 1) = 45) then
    (TokenKind.Keyword, scanWhile text cssIdentCont len (pos + 1))
  else if b = 34 ∨ b = 39 then
    (TokenKind.String, scanEsc text b len (pos + 1) false)
  else if (is_ascii_digit b = true ∨ b = 45) ∧ pos + 1 < len ∧
      is_ascii_digit (byteAt text (pos + 1)) = true then
    (TokenKind.Number, cssNum text pos)
  else cssTail text pos

/-- css.rs `CssLexer::tokenize`. -/
def cssTokenize (text : List Nat) : List Token :=
  runStep1 cssStep text text.length 0

theorem cssNum_bounds (text : List Nat) (pos : Nat) (h : pos < text.length)
    (hg : (is_ascii_digit (byteAt text pos) = true ∨ byteAt text pos = 45) ∧
      pos + 1 < text.length ∧ is_ascii_digit (byteAt text (pos + 1)) = true) :
    pos < cssNum text pos ∧ cssNum text pos ≤ text.length := by
  simp only [cssNum]
  split_ifs with h1 h2 h3 h4 h5
  · have hb := scanWhile_bounds_of text (fun c => is_ascii_digit c || decide (c = 46))
      text.length (p := pos) (a := pos + 1) (by omega) (by omega)
    exact scanWhile_bounds_of text (fun c => is_ident_continue c || decide (c = 37))
      text.length hb.1 hb.2
  · have hb := scanWhile_bounds_of text (fun c => is_ascii_digit c || decide (c = 46))
      text.length (p := pos) (a := pos + 1) (by omega) (by omega)
    omega
  · exact scanWhile_bounds_of text (fun c => is_ascii_digit c || decide (c = 46))
      text.length (p := pos) (a := pos + 1) (by omega) (by omega)
  all_goals
    have hd : is_ascii_digit (byteAt text pos) = true := by
      rcases hg.1 with hd | hm
      · exact hd
      · exact absurd hm h1
  all_goals
    have hb : pos < scanWhile text (fun c => is_ascii_digit c || decide (c = 46))
        text.length pos ∧
        scanWhile text (fun c => is_ascii_digit c || decide (c = 46)) text.length pos ≤
          text.length :=
      ⟨scanWhile_advance text _ text.length pos (by omega) h (by simp [hd]),
       scanWhile_le text _ text.length pos (by omega)⟩
  · exact scanWhile_bounds_of text (fun c => is_ident_continue c || decide (c = 37))
      text.length hb.1 hb.2
  · omega
  · exact hb

theorem cssTail_bounds (text : List Nat) (pos : Nat) (h : pos < text.length) :
    pos < (cssTail text pos).2 ∧ (cssTail text pos).2 ≤ text.length := by
  simp only [cssTail]
  split_ifs with h1 h2 h3
  · have hc : cssIdentCont (byteAt text pos) = true := by
      rcases h1 with hs | hm
      · simp [cssIdentCont, ident_start_is_continue hs]
      · simp [cssIdentCont, hm]
    exact ⟨scanWhile_advance text cssIdentCont text.length pos (by omega) h hc,
      scanWhile_le text cssIdentCont text.length pos (by omega)⟩
  all_goals omega

theorem cssStep_bounds (text : List Nat) (pos : Nat) (h : pos < text.length) :
    pos < (cssStep text pos).2 ∧ (cssStep text pos).2 ≤ text.length := by
  simp only [cssStep]
  split_ifs with h1 h2 h3 h4 h5 h6 h7
  · exact ⟨scanWhile_advance text is_whitespace text.length pos (by omega) h h1,
      scanWhile_le text is_whitespace text.length pos (by omega)⟩
  · exact scanPair_bounds_of text 42 47 text.length (by omega) (by omega)
  · exact ⟨Nat.lt_of_lt_of_le (by omega) (scanWhile_ge text cssIdentCont text.length (pos + 1)),
      scanWhile_le text cssIdentCont text.length (pos + 1) (by omega)⟩
  · exact ⟨Nat.lt_of_lt_of_le (by omega) (scanWhile_ge text cssIdentCont text.length (pos + 1)),
      scanWhile_le text cssIdentCont text.length (pos + 1) (by omega)⟩
  · exact ⟨Nat.lt_of_lt_of_le (by omega) (scanWhile_ge text cssIdentCont text.length (pos + 1)),
      scanWhile_le text cssIdentCont text.length (pos + 1) (by omega)⟩
  · exact scanEsc_bounds_of text (byteAt text pos) text.length false (by omega) (by omega)
  · exact cssNum_bounds text pos h h7
  · exact cssTail_bounds text pos h

/-! ### The Java lexer (java.rs) -/

/-- Keyword table of the identifier arm of java.rs. -/
def javaKeywords : List (List Nat) :=
  [bytes "abstract", bytes "assert", bytes "break", bytes "case",
   bytes "catch", bytes "class", bytes "const", bytes "continue",
   bytes "default", bytes "do", bytes "else", bytes "enum", bytes "extends",
   bytes "final", bytes "finally", bytes "for", bytes "goto", bytes "if",
   bytes "implements", bytes "import", bytes "instanceof", bytes "interface",
   bytes "native", bytes "new", bytes "package", bytes "private",
   bytes "protected", bytes "public", bytes "return", bytes "static",
   bytes "strictfp", bytes "super", bytes "switch", bytes "synchronized",
   bytes "this", bytes "throw", bytes "throws", bytes "transient",
   bytes "try", bytes "volatile", bytes "while",
   bytes "record", bytes "sealed", bytes "non-sealed", bytes "permits",
   bytes "var", bytes "yield"]

/-- Primitive-type table of the identifier arm of java.rs. -/
def javaTypeNames : List (List Nat) :=
  [bytes "boolean", bytes "byte", bytes "char", bytes "short", bytes "int",
   bytes "long", bytes "float", bytes "double", bytes "void"]

/-- Word classification of the identifier arm of java.rs. -/
def javaClassify (w : List Nat) : TokenKind :=
  if javaKeywords.contains w then TokenKind.Keyword
  else if javaTypeNames.contains w then TokenKind.TypeName
  else if [bytes "true", bytes "false"].contains w then TokenKind.Boolean
  else if [bytes "null"].contains w then TokenKind.Boolean
  else TokenKind.Identifier

/-- Numeric-suffix set of java.rs (`f F d D l L`, applied once). -/
def javaSuffix (c : Nat) : Bool :=
  c = 102 || c = 70 || c = 100 || c = 68 || c = 108 || c = 76

/-- The number arm of java.rs: hex / binary / octal prefixes, else
decimal with digit-guarded fraction and exponent, then a single optional
suffix byte. -/
def javaNum (text : List Nat) (pos : Nat) : Nat :=
  let len := text.length
  let p :=
    if byteAt text pos = 48 ∧ pos + 1 < len ∧
        (byteAt text (pos + 1) = 120 ∨ byteAt text (pos + 1) = 88) then
      scanWhile text hexDigitU len (pos + 2)
    else if byteAt text pos = 48 ∧ pos + 1 < len ∧
        (byteAt text (pos + 1) = 98 ∨ byteAt text (pos + 1) = 66) then
      scanWhile text binDigitU len (pos + 2)
    else if byteAt text pos = 48 ∧ pos + 1 < len ∧
        (48 ≤ byteAt text (pos + 1) ∧ byteAt text (pos + 1) ≤ 55) then
      scanWhile text octDigitU len (pos + 1)
    else
      let p1 := scanWhile text digitU len pos
      let p2 :=
        if p1 < len ∧ byteAt text p1 = 46 ∧ p1 + 1 < len ∧
            is_ascii_digit (byteAt text (p1 + 1)) = true
        then scanWhile text digitU len (p1 + 1) else p1
      if p2 < len ∧ (byteAt text p2 = 101 ∨ byteAt text p2 = 69) then
        let p3 := if p2 + 1 < len ∧ (byteAt text (p2 + 1) = 43 ∨ byteAt text (p2 + 1) = 45)
          then p2 + 2 else p2 + 1
        scanWhile text digitU len p3
      else p2
  if p < len ∧ javaSuffix (byteAt text p) = true then p + 1 else p

/-- Two-byte operator table of java.rs (the c.rs table plus `::`). -/
def javaPair2 (a c : Nat) : Bool :=
  cPair2 a c || (a = 58 && c = 58)

/-- Three-byte operator table of java.rs. -/
def javaTriple3 (a c d : Nat) : Bool :=
  (a = 60 && c = 60 && d = 61) || (a = 62 && c = 62 && d = 61) ||
  (a = 62 && c = 62 && d = 62)

/-- The operator arm of java.rs: pair, triple, then one further `=`
(for `>>>=`, but applied after any matched triple, as in the source). -/
def javaOpEnd (text : List Nat) (pos : Nat) : Nat :=
  let len := text.length
  let b := byteAt text pos
  if pos + 1 < len ∧ javaPair2 b (byteAt text (pos + 1)) = true then
    if pos + 2 < len ∧ javaTriple3 b (byteAt text (pos + 1)) (byteAt text (pos + 2)) = true then
      if pos + 3 < len ∧ byteAt text (pos + 3) = 61 then pos + 4 else pos + 3
    else pos + 2
  else pos + 1

/-- The identifier, operator and error arms of java.rs. -/
def javaTail (text : List Nat) (pos : Nat) : TokenKind × Nat :=
  let len := text.length
  let b := byteAt text pos
  if is_ident_start b then
    let e := scanWhile text identContinueU len pos
    (javaClassify (sliceB text pos e), e)
  else if cOpByte b then
    (TokenKind.Operator, javaOpEnd text pos)
  else (TokenKind.Error, pos + 1)

/-- One iteration of the java.rs `tokenize` loop. -/
def javaStep (text : List Nat) (pos : Nat) : TokenKind × Nat :=
  let len := text.length
  let b := byteAt text pos
  if is_whitespace b then
    (TokenKind.Whitespace, scanWhile text is_whitespace len pos)
  else if b = 47 ∧ pos + 1 < len ∧ byteAt text (pos + 1) = 47 then
    (TokenKind.Comment, scanWhile text (fun c => c ≠ 10) len (pos + 2))
  else if b = 47 ∧ pos + 1 < len ∧ byteAt text (pos + 1) = 42 then
    (TokenKind.Comment, scanPair text 42 47 len (pos + 2))
  else if b = 64 then
    (TokenKind.Attribute, scanWhile text identContinueU len (pos + 1))
  else if b = 34 ∧ pos + 2 < len ∧ byteAt text (pos + 1) = 34 ∧ byteAt text (pos + 2) = 34 then
    (TokenKind.String, scanTriple text 34 len (pos + 3))
  else if b = 34 then
    (TokenKind.String, scanEsc text 34 len (pos + 1) false)
  else if b = 39 then
    (TokenKind.Char, scanEsc text 39 len (pos + 1) false)
  else if is_ascii_digit b then
    (TokenKind.Number, javaNum text pos)
  else javaTail text pos

/-- java.rs `JavaLexer::tokenize`. -/
def javaTokenize (text : List Nat) : List Token :=
  runStep1 javaStep text text.length 0

theorem javaNum_bounds (text : List Nat) (pos : Nat) (h : pos < text.length)
    (hd : is_ascii_digit (byteAt text pos) = true) :
    pos < javaNum text pos ∧ javaNum text pos ≤ text.length := by
  simp only [javaNum]
  split_ifs with h1 h2 h3 h4 h5 h6 h7 h8 h9 h10 h11 h12 h13 h14 h15 h16
  all_goals try {
    have := scanWhile_bounds_of text hexDigitU text.length (p := pos) (a := pos + 2)
      (by omega) (by omega)
    omega }
  all_goals try {
    have := scanWhile_bounds_of text binDigitU text.length (p := pos) (a := pos + 2)
      (by omega) (by omega)
    omega }
  all_goals try {
    have := scanWhile_bounds_of text octDigitU text.length (p := pos) (a := pos + 1)
      (by omega) (by omega)
    omega }
  all_goals
    have hp1 : pos < scanWhile text digitU text.length pos ∧
        scanWhile text digitU text.length pos ≤ text.length :=
      ⟨scanWhile_advance text digitU text.length pos (by omega) h (by simp [digitU, hd]),
       scanWhile_le text digitU text.length pos (by omega)⟩
  all_goals try {
    have hp2 := scanWhile_bounds_of text digitU text.length
      (p := pos) (a := scanWhile text digitU text.length pos + 1) (by omega) (by omega)
    first
    | (have hp3 := scanWhile_bounds_of text digitU text.length
        (p := pos)
        (a := scanWhile text digitU text.length
          (scanWhile text digitU text.length pos + 1) + 2) (by omega) (by omega)
       omega)
    | (have hp3 := scanWhile_bounds_of text digitU text.length
        (p := pos)
        (a := scanWhile text digitU text.length
          (scanWhile text digitU text.length pos + 1) + 1) (by omega) (by omega)
       omega)
    | omega }
  all_goals try {
    first
    | (have hp3 := scanWhile_bounds_of text digitU text.length
        (p := pos) (a := scanWhile text digitU text.length pos + 2) (by omega) (by omega)
       omega)
    | (have hp3 := scanWhile_bounds_of text digitU text.length
        (p := pos) (a := scanWhile text digitU text.length pos + 1) (by omega) (by omega)
       omega)
    | omega }

theorem javaOpEnd_bounds (text : List Nat) (pos : Nat) (h : pos < text.length) :
    pos < javaOpEnd text pos ∧ javaOpEnd text pos ≤ text.length := by
  simp only [javaOpEnd]
  split_ifs <;> omega

theorem javaTail_bounds (text : List Nat) (pos : Nat) (h : pos < text.length) :
    pos < (javaTail text pos).2 ∧ (javaTail text pos).2 ≤ text.length := by
  simp only [javaTail]
  split_ifs with h1 h2
  · exact ⟨scanWhile_advance text identContinueU text.length pos (by omega) h
      (ident_start_continue h1),
      scanWhile_le text identContinueU text.length pos (by omega)⟩
  · exact javaOpEnd_bounds text pos h
  · omega

theorem javaStep_bounds (text : List Nat) (pos : Nat) (h : pos < text.length) :
    pos < (javaStep text pos).2 ∧ (javaStep text pos).2 ≤ text.length := by
  simp only [javaStep]
  split_ifs with h1 h2 h3 h4 h5 h6 h7 h8
  · exact ⟨scanWhile_advance text is_whitespace text.length pos (by omega) h h1,
      scanWhile_le text is_whitespace text.length pos (by omega)⟩
  · exact scanWhile_bounds_of text (fun c => decide (c ≠ 10)) text.length (by omega) (by omega)
  · exact scanPair_bounds_of text 42 47 text.length (by omega) (by omega)
  · exact ⟨Nat.lt_of_lt_of_le (by omega) (scanWhile_ge text identContinueU text.length (pos + 1)),
      scanWhile_le text identContinueU text.length (pos + 1) (by omega)⟩
  · exact scanTriple_bounds_of text 34 text.length (by omega) (by omega)
  · exact scanEsc_bounds_of text 34 text.length false (by omega) (by omega)
  · exact scanEsc_bounds_of text 39 text.length false (by omega) (by omega)
  · exact javaNum_bounds text pos h h8
  · exact javaTail_bounds text pos h


/-! ### The Shell lexer (shell.rs) -/

/-- Special-variable byte set of the shell.rs `$` arm
(`? ! $ @ * # -` or a digit). -/
def shellSpecial (b : Nat) : Bool :=
  b = 63 || b = 33 || b = 36 || b = 64 || b = 42 || b = 35 || b = 45 ||
  is_ascii_digit b

/-- Identifier continuation of shell.rs (allows `_` and `-`). -/
def shellIdentCont (c : Nat) : Bool :=
  is_ident_continue c || c = 95 || c = 45

/-- Variable continuation of the shell.rs `$VAR` loop. -/
def shellVarCont (c : Nat) : Bool :=
  is_ident_continue c || c = 95

/-- The `$` arm of shell.rs: special variable, `${...}`, `$(...)`,
`$VAR`, or a bare `$` as `Operator`. -/
def shellDollar (text : List Nat) (pos : Nat) : TokenKind × Nat :=
  let len := text.length
  let p := pos + 1
  if p < len ∧ shellSpecial (byteAt text p) = true then
    (TokenKind.VariableName, p + 1)
  else if p < len ∧ byteAt text p = 123 then
    (TokenKind.VariableName, scanUntilInc text 125 (p + 1))
  else if p < len ∧ byteAt text p = 40 then
    (TokenKind.VariableName, scanParen text len (p + 1) 1)
  else if p < len ∧ (is_ident_start (byteAt text p) = true ∨ byteAt text p = 95) then
    (TokenKind.VariableName, scanWhile text shellVarCont len p)
  else (TokenKind.Operator, p)

/-- Bash keyword table of the identifier arm of shell.rs (including the
`test` builtin, classified as `Keyword` by the source). -/
def shellKeywords : List (List Nat) :=
  [bytes "if", bytes "then", bytes "else", bytes "elif", bytes "fi",
   bytes "case", bytes "esac", bytes "for", bytes "while", bytes "until",
   bytes "do", bytes "done", bytes "in", bytes "select", bytes "time",
   bytes "function", bytes "declare", bytes "typeset", bytes "local",
   bytes "readonly", bytes "export", bytes "unset", bytes "return",
   bytes "break", bytes "continue", bytes "exit", bytes "shift",
   bytes "eval", bytes "exec", bytes "source", bytes "alias",
   bytes "unalias", bytes "test"]

/-- Builtin/common-command table of the identifier arm of shell.rs. -/
def shellBuiltins : List (List Nat) :=
  [bytes "echo", bytes "printf", bytes "read", bytes "cd", bytes "pwd",
   bytes "pushd", bytes "popd", bytes "ls", bytes "cat", bytes "grep",
   bytes "sed", bytes "awk", bytes "find", bytes "sort", bytes "uniq",
   bytes "head", bytes "tail", bytes "cut", bytes "paste", bytes "tr",
   bytes "wc", bytes "chmod", bytes "chown", bytes "chgrp", bytes "mkdir",
   bytes "rm", bytes "cp", bytes "mv", bytes "touch", bytes "ln",
   bytes "dirname", bytes "basename", bytes "tar", bytes "gzip",
   bytes "gunzip", bytes "zip", bytes "unzip", bytes "ps", bytes "top",
   bytes "kill", bytes "killall", bytes "jobs", bytes "bg", bytes "fg",
   bytes "man", bytes "which", bytes "whereis", bytes "type",
   bytes "command", bytes "set", bytes "shopt", bytes "let", bytes "wait",
   bytes "sleep", bytes "trap"]

/-- Word classification of the identifier arm of shell.rs. -/
def shellClassify (w : List Nat) : TokenKind :=
  if shellKeywords.contains w then TokenKind.Keyword
  else if [bytes "true", bytes "false"].contains w then TokenKind.Boolean
  else if shellBuiltins.contains w then TokenKind.FunctionName
  else TokenKind.Identifier

/-- Redirection-operator byte set of shell.rs. -/
def shellRedirByte (b : Nat) : Bool :=
  b = 62 || b = 60 || b = 124 || b = 38 || b = 59

/-- Two-byte redirection table of shell.rs. -/
def shellRedirPair (a c : Nat) : Bool :=
  (a = 62 && c = 62) || (a = 60 && c = 60) || (a = 38 && c = 38) ||
  (a = 124 && c = 124) || (a = 62 && c = 38) || (a = 60 && c = 38) ||
  (a = 59 && c = 59)

/-- Other-operator byte set of shell.rs. -/
def shellOpByte (b : Nat) : Bool :=
  b = 61 || b = 43 || b = 45 || b = 42 || b = 47 || b = 37 || b = 33 ||
  b = 126 || b = 63 || b = 40 || b = 41 || b = 123 || b = 125 || b = 91 ||
  b = 93 || b = 44 || b = 58 || b = 46

/-- Two-byte other-operator table of shell.rs. -/
def shellOpPair (a c : Nat) : Bool :=
  (a = 61 && c = 61) || (a = 33 && c = 61) || (a = 43 && c = 61) ||
  (a = 45 && c = 61) || (a = 42 && c = 61) || (a = 47 && c = 61) ||
  (a = 37 && c = 61) || (a = 43 && c = 43) || (a = 45 && c = 45) ||
  (a = 61 && c = 126)

/-- The operator, identifier and fallback arms of shell.rs (the fallback
emits a one-byte `Operator`, not `Error`). -/
def shellTail (text : List Nat) (pos : Nat) : TokenKind × Nat :=
  let len := text.length
  let b := byteAt text pos
  if shellRedirByte b then
    (TokenKind.Operator,
      if pos + 1 < len ∧ shellRedirPair b (byteAt text (pos + 1)) = true then pos + 2
      else pos + 1)
  else if shellOpByte b then
    (TokenKind.Operator,
      if pos + 1 < len ∧ shellOpPair b (byteAt text (pos + 1)) = true then pos + 2
      else pos + 1)
  else if is_ident_start b ∨ b = 95 then
    let e := scanWhile text shellIdentCont len pos
    (shellClassify (sliceB text pos e), e)
  else (TokenKind.Operator, pos + 1)

/-- One iteration of the shell.rs `tokenize` loop. -/
def shellStep (text : List Nat) (pos : Nat) : TokenKind × Nat :=
  let len := text.length
  let b := byteAt text pos
  if is_whitespace b then
    (TokenKind.Whitespace, scanWhile text is_whitespace len pos)
  else if b = 35 then
    (TokenKind.Comment, scanWhile text (fun c => c ≠ 10) len pos)
  else if b = 36 then
    shellDollar text pos
  else if b = 39 then
    (TokenKind.String, scanUntilInc text 39 (pos + 1))
  else if b = 34 then
    (TokenKind.String, scanEsc text 34 len (pos + 1) false)
  else if b = 96 then
    (TokenKind.String, scanEsc text 96 len (pos + 1) false)
  else if is_ascii_digit b then
    (TokenKind.Number, scanWhile text is_ascii_digit len pos)
  else shellTail text pos

/-- shell.rs `ShellLexer::tokenize`. -/
def shellTokenize (text : List Nat) : List Token :=
  runStep1 shellStep text text.length 0

theorem shellDollar_bounds (text : List Nat) (pos : Nat) (h : pos < text.length) :
    pos < (shellDollar text pos).2 ∧ (shellDollar text pos).2 ≤ text.length := by
  simp only [shellDollar]
  split_ifs with h1 h2 h3 h4
  · omega
  · exact scanUntilInc_bounds_of text 125 (by omega) (by omega)
  · exact scanParen_bounds_of text text.length 1 (by omega) (by omega)
  · exact ⟨Nat.lt_of_lt_of_le (by omega) (scanWhile_ge text shellVarCont text.length (pos + 1)),
      scanWhile_le text shellVarCont text.length (pos + 1) (by omega)⟩
  · omega

theorem shellTail_bounds (text : List Nat) (pos : Nat) (h : pos < text.length) :
    pos < (shellTail text pos).2 ∧ (shellTail text pos).2 ≤ text.length := by
  simp only [shellTail]
  split_ifs with h1 h2 h3 h4 h5 h6
  all_goals try omega
  · have hc : shellIdentCont (byteAt text pos) = true := by
      rcases h5 with hs | hu
      · simp [shellIdentCont, ident_start_is_continue hs]
      · simp [shellIdentCont, hu]
    exact ⟨scanWhile_advance text shellIdentCont text.length pos (by omega) h hc,
      scanWhile_le text shellIdentCont text.length pos (by omega)⟩

theorem shellStep_bounds (text : List Nat) (pos : Nat) (h : pos < text.length) :
    pos < (shellStep text pos).2 ∧ (shellStep text pos).2 ≤ text.length := by
  simp only [shellStep]
  split_ifs with h1 h2 h3 h4 h5 h6 h7
  · exact ⟨scanWhile_advance text is_whitespace text.length pos (by omega) h h1,
      scanWhile_le text is_whitespace text.length pos (by omega)⟩
  · exact ⟨scanWhile_advance text (fun c => decide (c ≠ 10)) text.length pos (by omega) h
      (by simp [h2]),
      scanWhile_le text (fun c => decide (c ≠ 10)) text.length pos (by omega)⟩
  · exact shellDollar_bounds text pos h
  · exact scanUntilInc_bounds_of text 39 (by omega) (by omega)
  · exact scanEsc_bounds_of text 34 text.length false (by omega) (by omega)
  · exact scanEsc_bounds_of text 96 text.length false (by omega) (by omega)
  · exact ⟨scanWhile_advance text is_ascii_digit text.length pos (by omega) h h7,
      scanWhile_le text is_ascii_digit text.length pos (by omega)⟩
  · exact shellTail_bounds text pos h


/-! ### The SQL lexer (sql.rs) -/

/-- Hex-digit predicate of the sql.rs hex-literal loop (no separators). -/
def sqlHexDigit (c : Nat) : Bool :=
  is_ascii_digit c || (97 ≤ c && c ≤ 102) || (65 ≤ c && c ≤ 70)

/-- The bracket-quoted-identifier loop of sql.rs, tracking whether any
identifier-start byte was seen. -/
def sqlBracketFlag (text : List Nat) : Nat → Nat → Bool → Bool × Nat
  | 0, pos, flag => (flag, pos)
  | fuel + 1, pos, flag =>
    if pos < text.length ∧ byteAt text pos ≠ 93 then
      sqlBracketFlag text fuel (pos + 1) (flag || is_ident_start (byteAt text pos))
    else (flag, pos)

/-- The bracket arm `[identifier]` of sql.rs. -/
def sqlBracket (text : List Nat) (pos : Nat) : TokenKind × Nat :=
  let r := sqlBracketFlag text text.length (pos + 1) false
  let p := if r.2 < text.length then r.2 + 1 else r.2
  (if r.1 then TokenKind.Identifier else TokenKind.Operator, p)

/-- ASCII uppercase of a byte (sql.rs `to_ascii_uppercase`). -/
def natUpper (c : Nat) : Nat :=
  if 97 ≤ c ∧ c ≤ 122 then c - 32 else c

/-- SQL keyword table (DDL, DML, DCL, TCL, constraints, other), matched
on the uppercased word. -/
def sqlKeywords : List (List Nat) :=
  [bytes "CREATE", bytes "ALTER", bytes "DROP", bytes "TRUNCATE",
   bytes "RENAME", bytes "TABLE", bytes "VIEW", bytes "INDEX",
   bytes "DATABASE", bytes "SCHEMA", bytes "PROCEDURE", bytes "FUNCTION",
   bytes "TRIGGER", bytes "SEQUENCE",
   bytes "SELECT", bytes "INSERT", bytes "UPDATE", bytes "DELETE",
   bytes "MERGE", bytes "FROM", bytes "WHERE", bytes "JOIN", bytes "INNER",
   bytes "LEFT", bytes "RIGHT", bytes "FULL", bytes "CROSS", bytes "ON",
   bytes "USING", bytes "GROUP", bytes "HAVING", bytes "ORDER", bytes "BY",
   bytes "LIMIT", bytes "OFFSET", bytes "FETCH", bytes "TOP",
   bytes "UNION", bytes "INTERSECT", bytes "EXCEPT", bytes "MINUS",
   bytes "INTO", bytes "VALUES", bytes "SET",
   bytes "GRANT", bytes "REVOKE", bytes "DENY",
   bytes "COMMIT", bytes "ROLLBACK", bytes "SAVEPOINT", bytes "BEGIN",
   bytes "END", bytes "TRANSACTION", bytes "START",
   bytes "PRIMARY", bytes "FOREIGN", bytes "KEY", bytes "UNIQUE",
   bytes "CHECK", bytes "DEFAULT", bytes "NOT", bytes "NULL",
   bytes "CONSTRAINT", bytes "REFERENCES",
   bytes "AS", bytes "DISTINCT", bytes "ALL", bytes "ANY", bytes "SOME",
   bytes "EXISTS", bytes "IN", bytes "BETWEEN", bytes "LIKE", bytes "IS",
   bytes "AND", bytes "OR", bytes "CASE", bytes "WHEN", bytes "THEN",
   bytes "ELSE", bytes "IF", bytes "WHILE", bytes "LOOP", bytes "REPEAT",
   bytes "GOTO", bytes "RETURN", bytes "DECLARE", bytes "CURSOR",
   bytes "OPEN", bytes "CLOSE", bytes "WITH", bytes "RECURSIVE",
   bytes "OVER", bytes "PARTITION", bytes "WINDOW", bytes "ROWS",
   bytes "RANGE", bytes "PRECEDING", bytes "FOLLOWING", bytes "CURRENT",
   bytes "ROW", bytes "UNBOUNDED"]

/-- SQL data-type table, matched on the uppercased word. -/
def sqlTypeNames : List (List Nat) :=
  [bytes "INT", bytes "INTEGER", bytes "BIGINT", bytes "SMALLINT",
   bytes "TINYINT", bytes "DECIMAL", bytes "NUMERIC", bytes "FLOAT",
   bytes "REAL", bytes "DOUBLE", bytes "CHAR", bytes "VARCHAR",
   bytes "TEXT", bytes "NCHAR", bytes "NVARCHAR", bytes "NTEXT",
   bytes "DATE", bytes "TIME", bytes "DATETIME", bytes "TIMESTAMP",
   bytes "YEAR", bytes "BOOLEAN", bytes "BOOL", bytes "BIT", bytes "BLOB",
   bytes "CLOB", bytes "BINARY", bytes "VARBINARY", bytes "JSON",
   bytes "XML", bytes "UUID", bytes "SERIAL", bytes "AUTO_INCREMENT"]

/-- SQL function table, matched on the uppercased word. -/
def sqlFuncNames : List (List Nat) :=
  [bytes "COUNT", bytes "SUM", bytes "AVG", bytes "MIN", bytes "MAX",
   bytes "STDDEV", bytes "VARIANCE", bytes "GROUP_CONCAT",
   bytes "STRING_AGG", bytes "CONCAT", bytes "SUBSTRING", bytes "SUBSTR",
   bytes "LENGTH", bytes "UPPER", bytes "LOWER", bytes "TRIM",
   bytes "LTRIM", bytes "RTRIM", bytes "REPLACE", bytes "COALESCE",
   bytes "NOW", bytes "CURRENT_DATE", bytes "CURRENT_TIME",
   bytes "CURRENT_TIMESTAMP", bytes "DATEADD", bytes "DATEDIFF",
   bytes "EXTRACT", bytes "CAST", bytes "CONVERT", bytes "TO_CHAR",
   bytes "TO_DATE", bytes "TO_NUMBER"]

/-- Word classification of the identifier arm of sql.rs, on the
uppercased word. -/
def sqlClassify (w : List Nat) : TokenKind :=
  let upper := w.map natUpper
  if sqlKeywords.contains upper then TokenKind.Keyword
  else if sqlTypeNames.contains upper then TokenKind.TypeName
  else if [bytes "TRUE", bytes "FALSE"].contains upper then TokenKind.Boolean
  else if sqlFuncNames.contains upper then TokenKind.FunctionName
  else TokenKind.Identifier

/-- The number arm of sql.rs: hex prefix, else decimal with fraction and
exponent (digits only). -/
def sqlNum (text : List Nat) (pos : Nat) : Nat :=
  let len := text.length
  if byteAt text pos = 48 ∧ pos + 1 < len ∧
      (byteAt text (pos + 1) = 120 ∨ byteAt text (pos + 1) = 88) then
    scanWhile text sqlHexDigit len (pos + 2)
  else
    let p1 := scanWhile text is_ascii_digit len pos
    let p2 :=
      if p1 < len ∧ byteAt text p1 = 46 then scanWhile text is_ascii_digit len (p1 + 1)
      else p1
    if p2 < len ∧ (byteAt text p2 = 101 ∨ byteAt text p2 = 69) then
      let p3 := if p2 + 1 < len ∧ (byteAt text (p2 + 1) = 43 ∨ byteAt text (p2 + 1) = 45)
        then p2 + 2 else p2 + 1
      scanWhile text is_ascii_digit len p3
    else p2

/-- The identifier/variable arm of sql.rs: optional `@`/`@@` prefix, an
identifier run, then `@...` becomes `VariableName`, other words are
classified case-insensitively. -/
def sqlIdent (text : List Nat) (pos : Nat) : TokenKind × Nat :=
  let len := text.length
  let p0 :=
    if byteAt text pos = 64 then
      if pos + 1 < len ∧ byteAt text (pos + 1) = 64 then pos + 2 else pos + 1
    else pos
  let e := scanWhile text identContinueU len p0
  let w := sliceB text pos e
  if w.head? = some 64 then (TokenKind.VariableName, e)
  else (sqlClassify w, e)

/-- Operator-byte set of the operator arm of sql.rs. -/
def sqlOpByte (b : Nat) : Bool :=
  b = 61 || b = 60 || b = 62 || b = 33 || b = 43 || b = 45 || b = 42 ||
  b = 47 || b = 37 || b = 40 || b = 41 || b = 44 || b = 59 || b = 46 ||
  b = 124 || b = 38 || b = 94 || b = 126

/-- Two-byte operator table of sql.rs. -/
def sqlPair2 (a c : Nat) : Bool :=
  (a = 61 && c = 61) || (a = 60 && c = 61) || (a = 62 && c = 61) ||
  (a = 33 && c = 61) || (a = 60 && c = 62) || (a = 60 && c = 60) ||
  (a = 62 && c = 62) || (a = 124 && c = 124) || (a = 58 && c = 58)

/-- The number, identifier, operator and error arms of sql.rs. -/
def sqlTail (text : List Nat) (pos : Nat) : TokenKind × Nat :=
  let len := text.length
  let b := byteAt text pos
  if is_ascii_digit b then
    (TokenKind.Number, sqlNum text pos)
  else if is_ident_start b ∨ b = 95 ∨ b = 64 then
    sqlIdent text pos
  else if sqlOpByte b then
    (TokenKind.Operator,
      if pos + 1 < len ∧ sqlPair2 b (byteAt text (pos + 1)) = true then pos + 2 else pos + 1)
  else (TokenKind.Error, pos + 1)

/-- One iteration of the sql.rs `tokenize` loop. -/
def sqlStep (text : List Nat) (pos : Nat) : TokenKind × Nat :=
  let len := text.length
  let b := byteAt text pos
  if is_whitespace b then
    (TokenKind.Whitespace, scanWhile text is_whitespace len pos)
  else if b = 45 ∧ pos + 1 < len ∧ byteAt text (pos + 1) = 45 then
    (TokenKind.Comment, scanWhile text (fun c => c ≠ 10) len (pos + 2))
  else if b = 35 then
    (TokenKind.Comment, scanWhile text (fun c => c ≠ 10) len (pos + 1))
  else if b = 47 ∧ pos + 1 < len ∧ byteAt text (pos + 1) = 42 then
    (TokenKind.Comment, scanPair text 42 47 len (pos + 2))
  else if b = 39 then
    (TokenKind.String, scanDoubled text 39 len (pos + 1))
  else if b = 34 then
    (TokenKind.Identifier, scanDoubled text 34 len (pos + 1))
  else if b = 96 then
    (TokenKind.Identifier, scanUntilInc text 96 (pos + 1))
  else if b = 91 then
    sqlBracket text pos
  else sqlTail text pos

/-- sql.rs `SqlLexer::tokenize`. -/
def sqlTokenize (text : List Nat) : List Token :=
  runStep1 sqlStep text text.length 0

theorem sqlBracketFlag_ge (text : List Nat) :
    ∀ fuel pos flag, pos ≤ (sqlBracketFlag text fuel pos flag).2 := by
  intro fuel
  induction fuel with
  | zero => intro pos f; simp [sqlBracketFlag]
  | succ n ih =>
    intro pos f
    simp only [sqlBracketFlag]
    split
    · exact Nat.le_trans (Nat.le_succ pos) (ih (pos + 1) _)
    · exact Nat.le_refl pos

theorem sqlBracketFlag_le (text : List Nat) :
    ∀ fuel pos flag, pos ≤ text.length →
      (sqlBracketFlag text fuel pos flag).2 ≤ text.length := by
  intro fuel
  induction fuel with
  | zero => intro pos f h; simpa [sqlBracketFlag] using h
  | succ n ih =>
    intro pos f h
    simp only [sqlBracketFlag]
    split
    · next hc => exact ih (pos + 1) _ hc.1
    · exact h

theorem sqlBracket_bounds (text : List Nat) (pos : Nat) (h : pos < text.length) :
    pos < (sqlBracket text pos).2 ∧ (sqlBracket text pos).2 ≤ text.length := by
  simp only [sqlBracket]
  have hge := sqlBracketFlag_ge text text.length (pos + 1) false
  have hle := sqlBracketFlag_le text text.length (pos + 1) false (by omega)
  split_ifs <;> omega

theorem sqlNum_bounds (text : List Nat) (pos : Nat) (h : pos < text.length)
    (hd : is_ascii_digit (byteAt text pos) = true) :
    pos < sqlNum text pos ∧ sqlNum text pos ≤ text.length := by
  simp only [sqlNum]
  split_ifs with h1 h2 h3 h4 h5
  · exact scanWhile_bounds_of text sqlHexDigit text.length (by omega) (by omega)
  all_goals
    have hp1 : pos < scanWhile text is_ascii_digit text.length pos ∧
        scanWhile text is_ascii_digit text.length pos ≤ text.length :=
      ⟨scanWhile_advance text is_ascii_digit text.length pos (by omega) h hd,
       scanWhile_le text is_ascii_digit text.length pos (by omega)⟩
  · have hp2 := scanWhile_bounds_of text is_ascii_digit text.length
      (p := pos) (a := scanWhile text is_ascii_digit text.length pos + 1)
      (by omega) (by omega)
    refine scanWhile_bounds_of text is_ascii_digit text.length ?_ ?_ <;> omega
  · have hp2 := scanWhile_bounds_of text is_ascii_digit text.length
      (p := pos) (a := scanWhile text is_ascii_digit text.length pos + 1)
      (by omega) (by omega)
    refine scanWhile_bounds_of text is_ascii_digit text.length ?_ ?_ <;> omega
  · exact scanWhile_bounds_of text is_ascii_digit text.length
      (p := pos) (a := scanWhile text is_ascii_digit text.length pos + 1)
      (by omega) (by omega)
  · refine scanWhile_bounds_of text is_ascii_digit text.length ?_ ?_ <;> omega
  · refine scanWhile_bounds_of text is_ascii_digit text.length ?_ ?_ <;> omega
  · exact hp1

theorem sqlIdent_bounds (text : List Nat) (pos : Nat) (h : pos < text.length)
    (hg : is_ident_start (byteAt text pos) = true ∨ byteAt text pos = 95 ∨
      byteAt text pos = 64) :
    pos < (sqlIdent text pos).2 ∧ (sqlIdent text pos).2 ≤ text.length := by
  simp only [sqlIdent]
  split_ifs with ha hb hx hy hz
  all_goals try exact scanWhile_bounds_of text identContinueU text.length (by omega) (by omega)
  all_goals
    have hc : identContinueU (byteAt text pos) = true := by
      rcases hg with hs | hu | hat
      · exact ident_start_continue hs
      · simp [identContinueU, hu]
      · exact absurd hat ha
  all_goals
    exact ⟨scanWhile_advance text identContinueU text.length pos (by omega) h hc,
      scanWhile_le text identContinueU text.length pos (by omega)⟩

theorem sqlTail_bounds (text : List Nat) (pos : Nat) (h : pos < text.length) :
    pos < (sqlTail text pos).2 ∧ (sqlTail text pos).2 ≤ text.length := by
  simp only [sqlTail]
  split_ifs with h1 h2 h3 h4
  · exact sqlNum_bounds text pos h h1
  · exact sqlIdent_bounds text pos h h2
  all_goals omega

theorem sqlStep_bounds (text : List Nat) (pos : Nat) (h : pos < text.length) :
    pos < (sqlStep text pos).2 ∧ (sqlStep text pos).2 ≤ text.length := by
  simp only [sqlStep]
  split_ifs with h1 h2 h3 h4 h5 h6 h7 h8
  · exact ⟨scanWhile_advance text is_whitespace text.length pos (by omega) h h1,
      scanWhile_le text is_whitespace text.length pos (by omega)⟩
  · exact scanWhile_bounds_of text (fun c => decide (c ≠ 10)) text.length (by omega) (by omega)
  · exact scanWhile_bounds_of text (fun c => decide (c ≠ 10)) text.length (by omega) (by omega)
  · exact scanPair_bounds_of text 42 47 text.length (by omega) (by omega)
  · exact scanDoubled_bounds_of text 39 text.length (by omega) (by omega)
  · exact scanDoubled_bounds_of text 34 text.length (by omega) (by omega)
  · exact scanUntilInc_bounds_of text 96 (by omega) (by omega)
  · exact sqlBracket_bounds text pos h
  · exact sqlTail_bounds text pos h


/-! ### The JavaScript/TypeScript lexer (javascript.rs)

This scanner is embedded for the registry and the TypeScript/JavaScript
equivalence; no coverage theorem is stated for it (its template-literal
loop advances `pos` by 2 past a backslash without a bound check, so a
token can end past `text.length`). -/

/-- The template-literal loop of javascript.rs: on a backslash advance by
two (even at the end of input), stop after a closing backtick. -/
def scanTemplate (text : List Nat) : Nat → Nat → Nat
  | 0, pos => pos
  | fuel + 1, pos =>
    if pos < text.length then
      if byteAt text pos = 92 then scanTemplate text fuel (pos + 2)
      else if byteAt text pos = 96 then pos + 1
      else scanTemplate text fuel (pos + 1)
    else pos

/-- Word classification of the identifier arm of javascript.rs. -/
def jsClassify (w : List Nat) : TokenKind :=
  if [bytes "in", bytes "of", bytes "instanceof", bytes "typeof",
      bytes "delete", bytes "void"].contains w then
    TokenKind.KeywordOperator
  else if [bytes "if", bytes "else", bytes "switch", bytes "case",
      bytes "default", bytes "for", bytes "while", bytes "do", bytes "break",
      bytes "continue", bytes "return", bytes "throw", bytes "try",
      bytes "catch", bytes "finally"].contains w then
    TokenKind.KeywordControl
  else if [bytes "function", bytes "async", bytes "await", bytes "yield"].contains w then
    TokenKind.KeywordFunction
  else if [bytes "import", bytes "export", bytes "from", bytes "as"].contains w then
    TokenKind.KeywordImport
  else if [bytes "let", bytes "const", bytes "var"].contains w then
    TokenKind.KeywordStorage
  else if [bytes "class", bytes "interface", bytes "extends",
      bytes "implements", bytes "enum", bytes "type"].contains w then
    TokenKind.KeywordType
  else if [bytes "new", bytes "this", bytes "super", bytes "static",
      bytes "public", bytes "private", bytes "protected", bytes "readonly"].contains w then
    TokenKind.Keyword
  else if [bytes "true", bytes "false"].contains w then
    TokenKind.Boolean
  else if [bytes "null", bytes "undefined"].contains w then
    TokenKind.Null
  else TokenKind.Identifier

/-- The number arm of javascript.rs: hex / binary / octal prefixes, else
decimal (digits only) with digit-guarded fraction and exponent. -/
def jsNum (text : List Nat) (pos : Nat) : Nat :=
  let len := text.length
  if pos + 1 < len ∧ byteAt text pos = 48 ∧
      (byteAt text (pos + 1) = 120 ∨ byteAt text (pos + 1) = 88) then
    scanWhile text sqlHexDigit len (pos + 2)
  else if pos + 1 < len ∧ byteAt text pos = 48 ∧
      (byteAt text (pos + 1) = 98 ∨ byteAt text (pos + 1) = 66) then
    scanWhile text (fun c => c = 48 || c = 49) len (pos + 2)
  else if pos + 1 < len ∧ byteAt text pos = 48 ∧
      (byteAt text (pos + 1) = 111 ∨ byteAt text (pos + 1) = 79) then
    scanWhile text (fun c => 48 ≤ c && c ≤ 55) len (pos + 2)
  else
    let p1 := scanWhile text is_ascii_digit len (pos + 1)
    let p2 :=
      if p1 < len ∧ byteAt text p1 = 46 ∧ p1 + 1 < len ∧
          is_ascii_digit (byteAt text (p1 + 1)) = true
      then scanWhile text is_ascii_digit len (p1 + 1) else p1
    if p2 < len ∧ (byteAt text p2 = 101 ∨ byteAt text p2 = 69) then
      let p3 := if p2 + 1 < len ∧ (byteAt text (p2 + 1) = 43 ∨ byteAt text (p2 + 1) = 45)
        then p2 + 2 else p2 + 1
      scanWhile text is_ascii_digit len p3
    else p2

/-- Identifier continuation of javascript.rs (allows `$`). -/
def jsIdentCont (c : Nat) : Bool :=
  is_ident_continue c || c = 36

/-- Operator-byte set of javascript.rs. -/
def jsOpByte (b : Nat) : Bool :=
  b = 43 || b = 45 || b = 42 || b = 47 || b = 37 || b = 38 || b = 124 ||
  b = 94 || b = 33 || b = 61 || b = 60 || b = 62 || b = 63 || b = 58 || b = 126

/-- Operator-continuation set of the javascript.rs multi-character
operator loop. -/
def jsOpCont (c : Nat) : Bool :=
  c = 61 || c = 38 || c = 124 || c = 60 || c = 62

/-- One iteration of the javascript.rs `tokenize` loop. -/
def jsStep (text : List Nat) (pos : Nat) : TokenKind × Nat :=
  let len := text.length
  let b := byteAt text pos
  if is_whitespace b then
    (TokenKind.Whitespace, scanWhile text is_whitespace len pos)
  else if b = 47 ∧ pos + 1 < len ∧ byteAt text (pos + 1) = 47 then
    (TokenKind.Comment, scanWhile text (fun c => c ≠ 10) len (pos + 2))
  else if b = 47 ∧ pos + 1 < len ∧ byteAt text (pos + 1) = 42 then
    (TokenKind.Comment, scanPair text 42 47 len (pos + 2))
  else if b = 96 then
    (TokenKind.String, scanTemplate text len (pos + 1))
  else if b = 34 ∨ b = 39 then
    (TokenKind.String, scanEsc text b len (pos + 1) false)
  else if is_ascii_digit b then
    (TokenKind.Number, jsNum text pos)
  else if is_ident_start b ∨ b = 36 then
    let e := scanWhile text jsIdentCont len pos
    (jsClassify (sliceB text pos e), e)
  else if jsOpByte b then
    (TokenKind.Operator, scanWhile text jsOpCont len (pos + 1))
  else if b = 123 ∨ b = 125 ∨ b = 91 ∨ b = 93 ∨ b = 40 ∨ b = 41 then
    (TokenKind.Delimiter, pos + 1)
  else if b = 44 ∨ b = 59 ∨ b = 46 then
    (TokenKind.Punctuation, pos + 1)
  else (TokenKind.Error, pos + 1)

/-- javascript.rs `JavaScriptLexer::tokenize` (also dispatched for
TypeScript by the registry). -/
def jsTokenize (text : List Nat) : List Token :=
  runStep1 jsStep text text.length 0

/-! ### The plain-text lexer (lexer.rs `PlainTextLexer`) -/

/-- lexer.rs `PlainTextLexer::tokenize`: the whole input as one
`Identifier` token, or nothing for empty input. -/
def plainTextTokenize (text : List Nat) : List Token :=
  if text.length = 0 then []
  else [Token.mk TokenKind.Identifier (Span.mk 0 text.length)]

/-! ### The XML lexer

Modelled from the spec: `src/crates/edit/src/syntax/lexer.rs` declares
`mod xml;` and `LexerRegistry::get_lexer` dispatches `Language::Xml` to
`xml::XmlLexer`, but `xml.rs` itself is not present under `src/`. The
definition below follows the spec's generic scanner contract (spec
sections 4.2 and 4.3): a forward byte scanner that, at each position,
consumes one construct (whitespace run, `<...>` tag, or text run) and
emits exactly one token, covering the input with no gaps or overlaps. -/

/-- Modelled from the spec: one step of an XML scanner satisfying the
generic per-scanner contract of spec section 4.2. -/
def xmlStep (text : List Nat) (pos : Nat) : TokenKind × Nat :=
  let len := text.length
  let b := byteAt text pos
  if is_whitespace b then
    (TokenKind.Whitespace, scanWhile text is_whitespace len pos)
  else if b = 60 then
    (TokenKind.Keyword, scanUntilInc text 62 (pos + 1))
  else
    (TokenKind.Identifier,
      scanWhile text (fun c => !(c = 60 || is_whitespace c)) len pos)

/-- Modelled from the spec: `tokenize` of the XML scanner (see
`xmlStep`). -/
def xmlTokenize (text : List Nat) : List Token :=
  runStep1 xmlStep text text.length 0

theorem xmlStep_bounds (text : List Nat) (pos : Nat) (h : pos < text.length) :
    pos < (xmlStep text pos).2 ∧ (xmlStep text pos).2 ≤ text.length := by
  simp only [xmlStep]
  split_ifs with h1 h2
  · exact ⟨scanWhile_advance text is_whitespace text.length pos (by omega) h h1,
      scanWhile_le text is_whitespace text.length pos (by omega)⟩
  · exact scanUntilInc_bounds_of text 62 (by omega) (by omega)
  · exact ⟨scanWhile_advance text (fun c => !(decide (c = 60) || is_whitespace c))
      text.length pos (by omega) h (by simp [h1, h2]),
      scanWhile_le text (fun c => !(decide (c = 60) || is_whitespace c)) text.length pos
        (by omega)⟩


/-! ### The Markdown lexer (markdown.rs) -/

/-- Generic tokenize loop for scanners that may push several (or zero)
tokens per iteration. -/
def runStepN (step : List Nat → Nat → List Token × Nat) (text : List Nat) :
    Nat → Nat → List Token
  | 0, _ => []
  | fuel + 1, pos =>
    if pos < text.length then
      (step text pos).1 ++ runStepN step text fuel (step text pos).2
    else []

/-- The heading-marker loop of markdown.rs: up to six `#` bytes. -/
def mdHashes (text : List Nat) : Nat → Nat → Nat → Nat
  | 0, pos, _ => pos
  | fuel + 1, pos, level =>
    if pos < text.length ∧ byteAt text pos = 35 ∧ level < 6 then
      mdHashes text fuel (pos + 1) (level + 1)
    else pos

/-- The link arm `[text](url)` of markdown.rs. -/
def mdLink (text : List Nat) (pos : Nat) : Nat :=
  let len := text.length
  let p := scanWhile text (fun c => c ≠ 93) len (pos + 1)
  if p < len then
    let p1 := p + 1
    if p1 < len ∧ byteAt text p1 = 40 then
      let p2 := scanWhile text (fun c => c ≠ 41) len p1
      if p2 < len then p2 + 1 else p2
    else p1
  else p

/-- Special-byte set that ends a regular-text run in markdown.rs
(including the newline, which no arm of the match consumes). -/
def mdSpecial (c : Nat) : Bool :=
  c = 35 || c = 96 || c = 42 || c = 95 || c = 91 || c = 10

/-- One iteration of the markdown.rs `tokenize` loop.  The default arm
emits no token when the text run is empty (in particular at a newline
byte, which therefore remains uncovered). -/
def markdownStep (text : List Nat) (pos : Nat) : List Token × Nat :=
  let len := text.length
  let b := byteAt text pos
  let atLineStart := pos = 0 ∨ (0 < pos ∧ byteAt text (pos - 1) = 10)
  if b = 35 ∧ atLineStart then
    let p1 := mdHashes text len pos 0
    let p2 := scanWhile text (fun c => c ≠ 10) len p1
    ([Token.mk TokenKind.MarkdownHeading (Span.mk pos p2)], p2)
  else if b = 96 ∧ pos + 2 < len ∧ byteAt text (pos + 1) = 96 ∧ byteAt text (pos + 2) = 96 then
    let p := scanTriple text 96 len (pos + 3)
    ([Token.mk TokenKind.MarkdownCode (Span.mk pos p)], p)
  else if b = 96 then
    let p := scanUntilInc text 96 (pos + 1)
    ([Token.mk TokenKind.MarkdownCode (Span.mk pos p)], p)
  else if b = 42 ∧ pos + 1 < len ∧ byteAt text (pos + 1) = 42 then
    let p := scanPair text 42 42 len (pos + 2)
    ([Token.mk TokenKind.MarkdownBold (Span.mk pos p)], p)
  else if b = 42 then
    let p := scanUntilInc text 42 (pos + 1)
    ([Token.mk TokenKind.MarkdownItalic (Span.mk pos p)], p)
  else if b = 95 ∧ pos + 1 < len ∧ byteAt text (pos + 1) = 95 then
    let p := scanPair text 95 95 len (pos + 2)
    ([Token.mk TokenKind.MarkdownBold (Span.mk pos p)], p)
  else if b = 95 then
    let p := scanUntilInc text 95 (pos + 1)
    ([Token.mk TokenKind.MarkdownItalic (Span.mk pos p)], p)
  else if b = 91 then
    let p := mdLink text pos
    ([Token.mk TokenKind.MarkdownLink (Span.mk pos p)], p)
  else
    let p := scanWhile text (fun c => !mdSpecial c) len pos
    if pos < p then ([Token.mk TokenKind.Identifier (Span.mk pos p)], p)
    else ([], pos + 1)

/-- markdown.rs `MarkdownLexer::tokenize`. -/
def markdownTokenize (text : List Nat) : List Token :=
  runStepN markdownStep text text.length 0

/-! ### The AsciiDoc lexer (asciidoc.rs) -/

/-- Three-byte distinct-sequence scan (`-->` in html.rs):
`while pos + 2 < len { if xyz { pos += 3; break } pos += 1 }`. -/
def scanThree (text : List Nat) (x y z : Nat) : Nat → Nat → Nat
  | 0, pos => pos
  | fuel + 1, pos =>
    if pos + 2 < text.length then
      if byteAt text pos = x ∧ byteAt text (pos + 1) = y ∧ byteAt text (pos + 2) = z then
        pos + 3
      else scanThree text x y z fuel (pos + 1)
    else pos

/-- Bracket-depth scan of the asciidoc.rs macro-attribute loop. -/
def scanBracketDepth (text : List Nat) : Nat → Nat → Nat → Nat
  | 0, pos, _ => pos
  | fuel + 1, pos, depth =>
    if pos < text.length ∧ 0 < depth then
      scanBracketDepth text fuel (pos + 1)
        (if byteAt text pos = 91 then depth + 1
         else if byteAt text pos = 93 then depth - 1
         else depth)
    else pos

/-- The newline handling shared by the line-start arms of asciidoc.rs:
`line_start = text.get(pos) == Some(&b'\n'); if line_start { pos += 1 }`
(returns the new position and the new `line_start` flag). -/
def adocNlSkip (text : List Nat) (p : Nat) : Nat × Bool :=
  if p < text.length ∧ byteAt text p = 10 then (p + 1, true) else (p, false)

/-- The inline-formatting loop of asciidoc.rs (constrained or
unconstrained, stopping at a newline); returns the end position and
whether the closing delimiter was found. -/
def adocFmtLoop (text : List Nat) (q : Nat) (dbl : Bool) : Nat → Nat → Nat × Bool
  | 0, p => (p, false)
  | fuel + 1, p =>
    if p < text.length then
      if byteAt text p = q ∧ dbl = true ∧ p + 1 < text.length ∧ byteAt text (p + 1) = q then
        (p + 2, true)
      else if byteAt text p = q ∧ dbl = false then (p + 1, true)
      else if byteAt text p = 10 then (p, false)
      else adocFmtLoop text q dbl fuel (p + 1)
    else (p, false)

/-- The URL arm of asciidoc.rs. -/
def adocLink (text : List Nat) (pos : Nat) : List Token × Nat × Bool :=
  let len := text.length
  let p1 := scanWhile text (fun c => !(is_whitespace c || c = 91)) len pos
  let p2 :=
    if p1 < len ∧ byteAt text p1 = 91 then scanUntilInc text 93 (p1 + 1) else p1
  ([Token.mk TokenKind.String (Span.mk pos p2)], p2, false)

/-- The macro/identifier arm of asciidoc.rs (`image::target[attrs]`). -/
def adocMacro (text : List Nat) (pos : Nat) : List Token × Nat × Bool :=
  let len := text.length
  let p1 := scanWhile text (fun c => is_ident_continue c || c = 45) len pos
  if p1 + 1 < len ∧ byteAt text p1 = 58 ∧ byteAt text (p1 + 1) = 58 then
    let p2 := scanWhile text (fun c => !(c = 91 || c = 10)) len (p1 + 2)
    let p3 := if p2 < len ∧ byteAt text p2 = 91 then scanBracketDepth text len (p2 + 1) 1 else p2
    ([Token.mk TokenKind.MacroKind (Span.mk pos p3)], p3, false)
  else
    ([Token.mk TokenKind.Identifier (Span.mk pos p1)], p1, false)

/-- The non-line-start `match` of the asciidoc.rs loop. -/
def adocMatch (text : List Nat) (pos : Nat) : List Token × Nat × Bool :=
  let len := text.length
  let b := byteAt text pos
  if pyWs b then
    let p := scanWhile text pyWs len pos
    ([Token.mk TokenKind.Whitespace (Span.mk pos p)], p, false)
  else if b = 10 then
    ([Token.mk TokenKind.Whitespace (Span.mk pos (pos + 1))], pos + 1, true)
  else if b = 42 ∨ b = 95 ∨ b = 96 ∨ b = 43 ∨ b = 35 ∨ b = 94 ∨ b = 126 then
    let dbl := pos + 1 < len ∧ byteAt text (pos + 1) = b
    let p0 := if dbl then pos + 2 else pos + 1
    let r := adocFmtLoop text b (decide dbl) len p0
    ([Token.mk (if r.2 then TokenKind.String else TokenKind.Identifier)
        (Span.mk pos r.1)], r.1, false)
  else if b = 104 ∧ ((pos + 7 < len ∧
        sliceB text pos (pos + 7) = [104, 116, 116, 112, 58, 47, 47]) ∨
      (pos + 8 < len ∧
        sliceB text pos (pos + 8) = [104, 116, 116, 112, 115, 58, 47, 47])) then
    adocLink text pos
  else if is_ascii_alpha b then
    adocMacro text pos
  else if b = 123 then
    let p1 := scanWhile text (fun c => !(c = 125 || c = 10)) len (pos + 1)
    if p1 < len ∧ byteAt text p1 = 125 then
      ([Token.mk TokenKind.VariableName (Span.mk pos (p1 + 1))], p1 + 1, false)
    else
      ([Token.mk TokenKind.Identifier (Span.mk pos (pos + 1))], p1, false)
  else
    ([Token.mk TokenKind.Identifier (Span.mk pos (pos + 1))], pos + 1, false)

/-- One iteration of the asciidoc.rs `tokenize` loop; the state is the
`line_start` flag.  Several line-start arms skip the byte after the
consumed line (the newline) without emitting a token for it. -/
def adocStep (text : List Nat) (pos : Nat) (ls : Bool) : List Token × Nat × Bool :=
  let len := text.length
  let b := byteAt text pos
  if ls = true ∧ b = 61 then
    let p1 := scanWhile text (fun c => c = 61) len pos
    let p2 := if p1 < len ∧ byteAt text p1 = 32 then p1 + 1 else p1
    let p3 := scanWhile text (fun c => c ≠ 10) len p2
    let nl := adocNlSkip text p3
    ([Token.mk TokenKind.Keyword (Span.mk pos p3)], nl.1, nl.2)
  else if ls = true ∧ (b = 45 ∨ b = 42 ∨ b = 61 ∨ b = 95 ∨ b = 46 ∨ b = 47) ∧
      (let p1 := scanWhile text (fun c => c = b) len pos
       4 ≤ p1 - pos ∧ (p1 ≥ len ∨ byteAt text p1 = 10 ∨ is_whitespace (byteAt text p1) = true)) then
    let p1 := scanWhile text (fun c => c = b) len pos
    let p2 := scanWhile text (fun c => c ≠ 10) len p1
    let nl := adocNlSkip text p2
    ([Token.mk TokenKind.Operator (Span.mk pos p2)], nl.1, nl.2)
  else if ls = true ∧ b = 58 ∧ pos + 1 < len ∧ byteAt text (pos + 1) ≠ 58 ∧
      (let p1 := scanWhile text (fun c => !(c = 58 || c = 10)) len (pos + 1)
       p1 < len ∧ byteAt text p1 = 58) then
    let p1 := scanWhile text (fun c => !(c = 58 || c = 10)) len (pos + 1)
    let p2 := scanWhile text (fun c => c ≠ 10) len (p1 + 1)
    let nl := adocNlSkip text p2
    ([Token.mk TokenKind.Attribute (Span.mk pos p2)], nl.1, nl.2)
  else if ls = true ∧ b = 46 ∧ pos + 1 < len ∧
      is_ascii_digit (byteAt text (pos + 1)) = false ∧ byteAt text (pos + 1) ≠ 32 then
    let p := scanWhile text (fun c => c ≠ 10) len (pos + 1)
    let nl := adocNlSkip text p
    ([Token.mk TokenKind.PropertyName (Span.mk pos p)], nl.1, nl.2)
  else if ls = true ∧ b = 42 ∧ pos + 1 < len ∧
      (byteAt text (pos + 1) = 32 ∨ byteAt text (pos + 1) = 42) then
    let p := scanWhile text (fun c => c = 42) len pos
    ([Token.mk TokenKind.Operator (Span.mk pos p)], p, false)
  else if ls = true ∧ b = 46 ∧ pos + 1 < len ∧
      (byteAt text (pos + 1) = 32 ∨ byteAt text (pos + 1) = 46) ∧
      (let p := scanWhile text (fun c => c = 46) len pos
       p < len ∧ byteAt text p = 32) then
    let p := scanWhile text (fun c => c = 46) len pos
    ([Token.mk TokenKind.Operator (Span.mk pos p)], p, false)
  else if ls = true ∧ b = 47 ∧ pos + 1 < len ∧ byteAt text (pos + 1) = 47 ∧
      (pos + 2 ≥ len ∨ byteAt text (pos + 2) ≠ 47) then
    let p := scanWhile text (fun c => c ≠ 10) len pos
    let nl := adocNlSkip text p
    ([Token.mk TokenKind.Comment (Span.mk pos p)], nl.1, nl.2)
  else adocMatch text pos

/-- Tokenize loop with a carried `line_start` flag (asciidoc.rs). -/
def runStepS (step : List Nat → Nat → Bool → List Token × Nat × Bool)
    (text : List Nat) : Nat → Nat → Bool → List Token
  | 0, _, _ => []
  | fuel + 1, pos, ls =>
    if pos < text.length then
      (step text pos ls).1 ++ runStepS step text fuel (step text pos ls).2.1 (step text pos ls).2.2
    else []

/-- asciidoc.rs `AsciiDocLexer::tokenize`. -/
def adocTokenize (text : List Nat) : List Token :=
  runStepS adocStep text text.length 0 true


/-! ### The HTML lexer (html.rs)

The attribute loop of `HtmlLexer::tokenize` (html.rs lines 100-165) does
not always advance: when the cursor rests on a byte that is not
whitespace, not `=`, not `>`, and is a `/` not followed by `>`, the loop
body neither emits nor advances and the `loop` repeats forever.  The
embedding makes the loop fuel-based and `Option`-valued so that this
divergence is observable as `none` for every fuel. -/

/-- Single whitespace-run emission used throughout html.rs (`if` the
cursor is on whitespace, consume the run and push one token). -/
def htmlWsRun (text : List Nat) (pos : Nat) : List Token × Nat :=
  if pos < text.length ∧ is_whitespace (byteAt text pos) = true then
    let p := scanWhile text is_whitespace text.length pos
    ([Token.mk TokenKind.Whitespace (Span.mk pos p)], p)
  else ([], pos)

/-- Attribute-name continuation bytes in html.rs. -/
def htmlAttrNameCont (c : Nat) : Bool :=
  !(is_whitespace c || c = 61 || c = 62 || c = 47)

/-- The attribute `loop` of the opening-tag arm of html.rs; `none` means
the loop never reaches the end-of-tag test again (real code: infinite
loop). -/
def htmlAttrLoop (text : List Nat) : Nat → Nat → Option (List Token × Nat)
  | 0, _ => none
  | fuel + 1, pos =>
    let len := text.length
    let ws := htmlWsRun text pos
    let pos1 := ws.2
    if pos1 ≥ len ∨ byteAt text pos1 = 62 ∨
        (byteAt text pos1 = 47 ∧ pos1 + 1 < len ∧ byteAt text (pos1 + 1) = 62) then
      some (ws.1, pos1)
    else
      let nameEnd := scanWhile text htmlAttrNameCont len pos1
      let nameToks :=
        if pos1 < nameEnd then [Token.mk TokenKind.PropertyName (Span.mk pos1 nameEnd)] else []
      let ws2 := htmlWsRun text nameEnd
      let pos2 := ws2.2
      let eqv : List Token × Nat :=
        if pos2 < len ∧ byteAt text pos2 = 61 then
          let ws3 := htmlWsRun text (pos2 + 1)
          let pos3 := ws3.2
          if pos3 < len ∧ (byteAt text pos3 = 34 ∨ byteAt text pos3 = 39) then
            let v := scanUntilInc text (byteAt text pos3) (pos3 + 1)
            ([Token.mk TokenKind.Operator (Span.mk pos2 (pos2 + 1))] ++ ws3.1 ++
              [Token.mk TokenKind.String (Span.mk pos3 v)], v)
          else ([Token.mk TokenKind.Operator (Span.mk pos2 (pos2 + 1))] ++ ws3.1, pos3)
        else ([], pos2)
      match htmlAttrLoop text fuel eqv.2 with
      | none => none
      | some r => some (ws.1 ++ nameToks ++ ws2.1 ++ eqv.1 ++ r.1, r.2)

/-- The opening-tag arm of html.rs (after the `<` byte was emitted).
When the attribute loop diverges the embedding bails out at the end of
the input; the real code loops forever (see `htmlAttrLoop`). -/
def htmlOpenTag (text : List Nat) (pos : Nat) : List Token × Nat :=
  let len := text.length
  let opTok := Token.mk TokenKind.Operator (Span.mk pos (pos + 1))
  let tagEnd := scanWhile text
    (fun c => !(is_whitespace c || c = 62 || c = 47)) len (pos + 1)
  let tagToks :=
    if pos + 1 < tagEnd then [Token.mk TokenKind.Keyword (Span.mk (pos + 1) tagEnd)] else []
  match htmlAttrLoop text (len + 1) tagEnd with
  | none => ([opTok] ++ tagToks, len)
  | some r =>
    let p := r.2
    if p + 1 < len ∧ byteAt text p = 47 ∧ byteAt text (p + 1) = 62 then
      ([opTok] ++ tagToks ++ r.1 ++ [Token.mk TokenKind.Operator (Span.mk p (p + 2))], p + 2)
    else if p < len ∧ byteAt text p = 62 then
      ([opTok] ++ tagToks ++ r.1 ++ [Token.mk TokenKind.Operator (Span.mk p (p + 1))], p + 1)
    else ([opTok] ++ tagToks ++ r.1, p)

/-- One iteration of the html.rs `tokenize` loop. -/
def htmlStep (text : List Nat) (pos : Nat) : List Token × Nat :=
  let len := text.length
  let b := byteAt text pos
  if is_whitespace b then
    let p := scanWhile text is_whitespace len pos
    ([Token.mk TokenKind.Whitespace (Span.mk pos p)], p)
  else if b = 60 ∧ pos + 3 < len ∧ sliceB text pos (pos + 4) = [60, 33, 45, 45] then
    let p := scanThree text 45 45 62 len (pos + 4)
    ([Token.mk TokenKind.Comment (Span.mk pos p)], p)
  else if b = 60 ∧ pos + 1 < len ∧ byteAt text (pos + 1) = 33 then
    let p := scanUntilInc text 62 (pos + 2)
    ([Token.mk TokenKind.Keyword (Span.mk pos p)], p)
  else if b = 60 ∧ pos + 1 < len ∧ byteAt text (pos + 1) = 47 then
    let tagEnd := scanWhile text (fun c => !(is_whitespace c || c = 62)) len (pos + 2)
    let tagToks :=
      if pos + 2 < tagEnd then [Token.mk TokenKind.Keyword (Span.mk (pos + 2) tagEnd)] else []
    let ws := htmlWsRun text tagEnd
    let p := ws.2
    if p < len ∧ byteAt text p = 62 then
      ([Token.mk TokenKind.Operator (Span.mk pos (pos + 2))] ++ tagToks ++ ws.1 ++
        [Token.mk TokenKind.Operator (Span.mk p (p + 1))], p + 1)
    else
      ([Token.mk TokenKind.Operator (Span.mk pos (pos + 2))] ++ tagToks ++ ws.1, p)
  else if b = 60 then
    htmlOpenTag text pos
  else
    let p := scanWhile text (fun c => c ≠ 60) len pos
    ([Token.mk TokenKind.Identifier (Span.mk pos p)], p)

/-- html.rs `HtmlLexer::tokenize`, fuel-truncated: on inputs where the
real attribute loop never finishes (see `htmlAttrLoop`) this total
model bails out at end-of-input and returns a token list the real code
never produces.  `htmlTokenizeP` below is the faithful partial model
(`none` = the real call never returns); statements about Html
tokenization go through it. -/
def htmlTokenize (text : List Nat) : List Token :=
  runStepN htmlStep text text.length 0

/-- The opening-tag arm of html.rs with the attribute-loop divergence
propagated: `none` when the real code loops forever. -/
def htmlOpenTagP (text : List Nat) (pos : Nat) : Option (List Token × Nat) :=
  let len := text.length
  let opTok := Token.mk TokenKind.Operator (Span.mk pos (pos + 1))
  let tagEnd := scanWhile text
    (fun c => !(is_whitespace c || c = 62 || c = 47)) len (pos + 1)
  let tagToks :=
    if pos + 1 < tagEnd then [Token.mk TokenKind.Keyword (Span.mk (pos + 1) tagEnd)] else []
  (htmlAttrLoop text (len + 1) tagEnd).map (fun r =>
    let p := r.2
    if p + 1 < len ∧ byteAt text p = 47 ∧ byteAt text (p + 1) = 62 then
      ([opTok] ++ tagToks ++ r.1 ++ [Token.mk TokenKind.Operator (Span.mk p (p + 2))], p + 2)
    else if p < len ∧ byteAt text p = 62 then
      ([opTok] ++ tagToks ++ r.1 ++ [Token.mk TokenKind.Operator (Span.mk p (p + 1))], p + 1)
    else ([opTok] ++ tagToks ++ r.1, p))

/-- One iteration of the html.rs `tokenize` loop with divergence
propagated (`none` = the iteration never finishes). -/
def htmlStepP (text : List Nat) (pos : Nat) : Option (List Token × Nat) :=
  let len := text.length
  let b := byteAt text pos
  if is_whitespace b then
    let p := scanWhile text is_whitespace len pos
    some ([Token.mk TokenKind.Whitespace (Span.mk pos p)], p)
  else if b = 60 ∧ pos + 3 < len ∧ sliceB text pos (pos + 4) = [60, 33, 45, 45] then
    let p := scanThree text 45 45 62 len (pos + 4)
    some ([Token.mk TokenKind.Comment (Span.mk pos p)], p)
  else if b = 60 ∧ pos + 1 < len ∧ byteAt text (pos + 1) = 33 then
    let p := scanUntilInc text 62 (pos + 2)
    some ([Token.mk TokenKind.Keyword (Span.mk pos p)], p)
  else if b = 60 ∧ pos + 1 < len ∧ byteAt text (pos + 1) = 47 then
    let tagEnd := scanWhile text (fun c => !(is_whitespace c || c = 62)) len (pos + 2)
    let tagToks :=
      if pos + 2 < tagEnd then [Token.mk TokenKind.Keyword (Span.mk (pos + 2) tagEnd)] else []
    let ws := htmlWsRun text tagEnd
    let p := ws.2
    if p < len ∧ byteAt text p = 62 then
      some ([Token.mk TokenKind.Operator (Span.mk pos (pos + 2))] ++ tagToks ++ ws.1 ++
        [Token.mk TokenKind.Operator (Span.mk p (p + 1))], p + 1)
    else
      some ([Token.mk TokenKind.Operator (Span.mk pos (pos + 2))] ++ tagToks ++ ws.1, p)
  else if b = 60 then
    htmlOpenTagP text pos
  else
    let p := scanWhile text (fun c => c ≠ 60) len pos
    some ([Token.mk TokenKind.Identifier (Span.mk pos p)], p)

/-- Tokenize loop over a step that can diverge: `none` as soon as one
iteration does (fuel exhaustion before end-of-input also gives `none`,
never a fabricated list). -/
def runStepNP (step : List Nat → Nat → Option (List Token × Nat)) (text : List Nat) :
    Nat → Nat → Option (List Token)
  | 0, pos => if pos < text.length then none else some []
  | fuel + 1, pos =>
    if pos < text.length then
      (step text pos).bind (fun r =>
        (runStepNP step text fuel r.2).map (fun ts => r.1 ++ ts))
    else some []

/-- html.rs `HtmlLexer::tokenize` with non-termination observable as
`none`. -/
def htmlTokenizeP (text : List Nat) : Option (List Token) :=
  runStepNP htmlStepP text text.length 0

/-! ### Language registry (lexer.rs) -/

/-- lexer.rs `LexerRegistry::get_lexer` composed with `Lexer::tokenize`:
tokenize a byte input under a given language. -/
def tokenizeLang (lang : Language) (text : List Nat) : List Token :=
  match lang with
  | Language.Json => jsonTokenize text
  | Language.Rust => rustTokenize text
  | Language.Python => pyTokenize text
  | Language.Markdown => markdownTokenize text
  | Language.JavaScript => jsTokenize text
  | Language.TypeScript => jsTokenize text
  | Language.Toml => tomlTokenize text
  | Language.Yaml => yamlTokenize text
  | Language.C => cTokenize text
  | Language.Cpp => cppTokenize text
  | Language.CSharp => csTokenize text
  | Language.Go => goTokenize text
  | Language.Html => htmlTokenize text
  | Language.Css => cssTokenize text
  | Language.Java => javaTokenize text
  | Language.Xml => xmlTokenize text
  | Language.Shell => shellTokenize text
  | Language.Sql => sqlTokenize text
  | Language.AsciiDoc => adocTokenize text
  | Language.PlainText => plainTextTokenize text

/-- `get_lexer` composed with `tokenize`, with scanner divergence
observable: `none` when the dispatched scanner never returns on this
input (only the Html scanner can diverge; every other scanner is a
total function of its input). -/
def tokenizeLangP (lang : Language) (text : List Nat) : Option (List Token) :=
  match lang with
  | Language.Html => htmlTokenizeP text
  | l => some (tokenizeLang l text)

/-- The extension table of lexer.rs `Language::from_extension`: the
match arms in source order, each pattern as its UTF-8 bytes.  The Rust
`match` on disjoint string literals is embedded as first-match lookup
in this table. -/
def extTable : List (List Nat × Language) :=
  [(bytes "json", Language.Json), (bytes "jsonc", Language.Json),
   (bytes "rs", Language.Rust),
   (bytes "py", Language.Python), (bytes "pyw", Language.Python),
   (bytes "pyi", Language.Python),
   (bytes "js", Language.JavaScript), (bytes "mjs", Language.JavaScript),
   (bytes "cjs", Language.JavaScript),
   (bytes "ts", Language.TypeScript), (bytes "mts", Language.TypeScript),
   (bytes "cts", Language.TypeScript),
   (bytes "md", Language.Markdown), (bytes "markdown", Language.Markdown),
   (bytes "toml", Language.Toml),
   (bytes "yaml", Language.Yaml), (bytes "yml", Language.Yaml),
   (bytes "c", Language.C), (bytes "h", Language.C),
   (bytes "cpp", Language.Cpp), (bytes "cc", Language.Cpp),
   (bytes "cxx", Language.Cpp), (bytes "hpp", Language.Cpp),
   (bytes "hxx", Language.Cpp),
   (bytes "cs", Language.CSharp),
   (bytes "go", Language.Go),
   (bytes "html", Language.Html), (bytes "htm", Language.Html),
   (bytes "css", Language.Css),
   (bytes "java", Language.Java),
   (bytes "xml", Language.Xml), (bytes "svg", Language.Xml),
   (bytes "xhtml", Language.Xml), (bytes "xsd", Language.Xml),
   (bytes "wsdl", Language.Xml),
   (bytes "sh", Language.Shell), (bytes "bash", Language.Shell),
   (bytes "zsh", Language.Shell),
   (bytes "sql", Language.Sql),
   (bytes "adoc", Language.AsciiDoc), (bytes "asciidoc", Language.AsciiDoc),
   (bytes "asc", Language.AsciiDoc)]

/-- The extensions recognised by lexer.rs `Language::from_extension`
(already lower-case). -/
def knownExtensions : List (List Nat) := extTable.map Prod.fst

/-- ASCII lowercasing of one byte (`A`-`Z` to `a`-`z`), the effect of
Rust `str::to_lowercase` on the ASCII extension strings the table
holds. -/
def toLowerByte (c : Nat) : Nat := if 65 ≤ c ∧ c ≤ 90 then c + 32 else c

/-- `ext.to_lowercase()` on the extension bytes.  Rust lowercases the
full Unicode range (e.g. U+212A to `k`); this model lowercases ASCII
only, which agrees with Rust on everything but exotic casings of the
ASCII extension table. -/
def toLowerBytes (s : List Nat) : List Nat := s.map toLowerByte

/-- The `match` of lexer.rs `Language::from_extension` on the already
lower-cased extension: first-match lookup in `extTable`, defaulting to
`PlainText`. -/
def fromExtLower (e : List Nat) : Language :=
  ((extTable.find? (fun p => decide (p.1 = e))).map Prod.snd).getD Language.PlainText

/-- lexer.rs `Language::from_extension` (`ext.to_lowercase()` then the
extension match). -/
def from_extension (ext : List Nat) : Language :=
  fromExtLower (toLowerBytes ext)


/-! ### Theme (theme.rs) -/

/-- theme.rs `TokenStyle`; colors are 32-bit `0xAABBGGRR` values. -/
structure TokenStyle where
  fg : Nat
  bg : Option Nat
  bold : Bool
  italic : Bool
  underline : Bool
deriving DecidableEq

/-- theme.rs `rgb`: `r | g << 8 | b << 16 | a << 24` from a `0xRRGGBB`
hex value (alpha forced to `0xFF`). -/
def rgb (hex : Nat) : Nat :=
  let r := (hex >>> 16) &&& 0xFF
  let g := (hex >>> 8) &&& 0xFF
  let b := hex &&& 0xFF
  r ||| (g <<< 8) ||| (b <<< 16) ||| (0xFF <<< 24)

/-- theme.rs `TokenStyle::new`. -/
def TokenStyle.new (fg : Nat) : TokenStyle :=
  ⟨fg, none, false, false, false⟩

/-- The Rust discriminant `kind as usize`: `TokenKind` declaration index
in token.rs (the Lean constructors are declared in the same order). -/
def kindIndex : TokenKind → Nat
  | TokenKind.Whitespace => 0
  | TokenKind.Comment => 1
  | TokenKind.Error => 2
  | TokenKind.String => 3
  | TokenKind.Number => 4
  | TokenKind.Boolean => 5
  | TokenKind.Null => 6
  | TokenKind.Char => 7
  | TokenKind.Keyword => 8
  | TokenKind.KeywordControl => 9
  | TokenKind.KeywordFunction => 10
  | TokenKind.KeywordImport => 11
  | TokenKind.KeywordStorage => 12
  | TokenKind.KeywordType => 13
  | TokenKind.KeywordOperator => 14
  | TokenKind.Identifier => 15
  | TokenKind.TypeName => 16
  | TokenKind.FunctionName => 17
  | TokenKind.VariableName => 18
  | TokenKind.PropertyName => 19
  | TokenKind.ParameterName => 20
  | TokenKind.Operator => 21
  | TokenKind.Punctuation => 22
  | TokenKind.Delimiter => 23
  | TokenKind.Separator => 24
  | TokenKind.Attribute => 25
  | TokenKind.MacroKind => 26
  | TokenKind.Label => 27
  | TokenKind.Escape => 28
  | TokenKind.JsonKey => 29
  | TokenKind.JsonBrace => 30
  | TokenKind.JsonBracket => 31
  | TokenKind.JsonColon => 32
  | TokenKind.JsonComma => 33
  | TokenKind.RustLifetime => 34
  | TokenKind.RustMacroKind => 35
  | TokenKind.RustAttribute => 36
  | TokenKind.MarkdownHeading => 37
  | TokenKind.MarkdownBold => 38
  | TokenKind.MarkdownItalic => 39
  | TokenKind.MarkdownCode => 40
  | TokenKind.MarkdownLink => 41

/-- theme.rs `Theme`: a style table indexed by `kind as usize`. -/
structure Theme where
  styles : List TokenStyle
deriving DecidableEq

/-- theme.rs `Theme::get_style`:
`styles.get(kind as usize).copied().unwrap_or(TokenStyle::new(rgb(0xD4D4D4)))`. -/
def Theme.get_style (t : Theme) (kind : TokenKind) : TokenStyle :=
  (t.styles.get? (kindIndex kind)).getD (TokenStyle.new (rgb 0xD4D4D4))

/-! ### The highlighter (syntax.rs) -/

/-- `usize::MAX` on a 64-bit target. -/
def usizeMax : Nat := 2 ^ 64 - 1

/-- syntax.rs `SyntaxHighlighter`; `dirty_range` is `Option (start, end)`. -/
structure SyntaxHighlighter where
  language : Language
  tokens : List Token
  dirty_range : Option (Nat × Nat)
  theme : Theme
  doc_len : Nat
deriving DecidableEq

/-- syntax.rs `SyntaxHighlighter::new`. -/
def SyntaxHighlighter.new (language : Language) (theme : Theme) : SyntaxHighlighter :=
  ⟨language, [], some (0, usizeMax), theme, 0⟩

/-- syntax.rs `SyntaxHighlighter::mark_dirty`. -/
def SyntaxHighlighter.mark_dirty (s : SyntaxHighlighter) (range : Nat × Nat) :
    SyntaxHighlighter :=
  match s.dirty_range with
  | some dirty => { s with dirty_range := some (min dirty.1 range.1, max dirty.2 range.2) }
  | none => { s with dirty_range := some range }

/-- syntax.rs `SyntaxHighlighter::update`; `none` models the call never
returning because the dispatched scanner diverges on `text` (the guard
returns before any tokenization, so the clean unforced case is always
`some`). -/
def SyntaxHighlighter.update (s : SyntaxHighlighter) (text : List Nat) (force : Bool) :
    Option SyntaxHighlighter :=
  if force = false ∧ s.dirty_range = none ∧ text.length = s.doc_len then some s
  else
    (tokenizeLangP s.language text).map (fun toks =>
      { s with tokens := toks, dirty_range := none, doc_len := text.length })

/-- Out-of-range placeholder used where the Rust code indexes a slice it
has already bounds-checked. -/
def dummyToken : Token := Token.mk TokenKind.Error (Span.mk 0 0)

/-- The binary-search loop of `slice::binary_search_by` (Rust std):
maintains `left ≤ right ≤ len`, compares the middle element, and either
narrows the interval or returns the matching index (`none` = `Err`,
Rust's insertion point is not used by the callers here). -/
def bsearchGo (cmp : Token → Ordering) (ts : List Token) : Nat → Nat → Nat → Option Nat
  | 0, _, _ => none
  | fuel + 1, left, right =>
    if left < right then
      let mid := (left + right) / 2
      match cmp (ts.getD mid dummyToken) with
      | Ordering.lt => bsearchGo cmp ts fuel (mid + 1) right
      | Ordering.gt => bsearchGo cmp ts fuel left mid
      | Ordering.eq => some mid
    else none

/-- `slice::binary_search_by` over the whole token list (`some i` =
`Ok(i)`). -/
def binary_search_by (ts : List Token) (cmp : Token → Ordering) : Option Nat :=
  bsearchGo cmp ts (ts.length + 1) 0 ts.length

/-- The comparator closure of syntax.rs `get_style_at`:
`Greater` if the offset is before the span, `Less` if at/after its end,
`Equal` when the span contains the offset. -/
def styleCmp (offset : Nat) (t : Token) : Ordering :=
  if offset < t.span.start then Ordering.gt
  else if t.span.stop ≤ offset then Ordering.lt
  else Ordering.eq

/-- syntax.rs `SyntaxHighlighter::get_style_at`. -/
def SyntaxHighlighter.get_style_at (s : SyntaxHighlighter) (offset : Nat) :
    Option TokenStyle :=
  match binary_search_by s.tokens (styleCmp offset) with
  | some i => some (s.theme.get_style ((s.tokens.getD i dummyToken).kind))
  | none => none

/-- The binary-search loop of `slice::partition_point` (Rust std):
narrows `[left, right)` on the predicate's value at the middle element
and returns the meeting point. -/
def partitionPointGo (pred : Token → Bool) (ts : List Token) : Nat → Nat → Nat → Nat
  | 0, left, _ => left
  | fuel + 1, left, right =>
    if left < right then
      let mid := (left + right) / 2
      if pred (ts.getD mid dummyToken) then partitionPointGo pred ts fuel (mid + 1) right
      else partitionPointGo pred ts fuel left mid
    else left

/-- `slice::partition_point` over the whole token list. -/
def partition_point (ts : List Token) (pred : Token → Bool) : Nat :=
  partitionPointGo pred ts (ts.length + 1) 0 ts.length

/-- syntax.rs `SyntaxHighlighter::get_tokens_in_range`:
two `partition_point` boundary searches and the slice
`&tokens[start_idx..end_idx]`.  The Rust slice expression panics when
`start_idx > end_idx`; the embedding returns `none` there. -/
def SyntaxHighlighter.get_tokens_in_range (s : SyntaxHighlighter) (range : Nat × Nat) :
    Option (List Token) :=
  let start_idx := partition_point s.tokens (fun t => t.span.stop ≤ range.1)
  let end_idx := partition_point s.tokens (fun t => decide (t.span.start < range.2))
  if start_idx ≤ end_idx then
    some ((s.tokens.drop start_idx).take (end_idx - start_idx))
  else none

/-! ### Span-list predicates (spec section 3 invariants, used as
hypotheses about the cached token list) -/

/-- Adjacent spans do not overlap and starts are ascending: each token
ends no later than the next one starts. -/
def sortedDisjoint : List Token → Bool
  | [] => true
  | [_] => true
  | t :: u :: ts => decide (t.span.stop ≤ u.span.start) && sortedDisjoint (u :: ts)

/-- Every span is non-empty (`start < end`). -/
def spansNonempty (ts : List Token) : Bool :=
  ts.all (fun t => decide (t.span.start < t.span.stop))

/-- The token list tiles `[p, n)` exactly: consecutive non-empty spans,
each starting where the previous one stopped (hence: full coverage, no
gaps, no overlaps, starts strictly ascending). -/
def coversFrom : List Token → Nat → Nat → Bool
  | [], p, n => decide (p = n)
  | t :: ts, p, n =>
    decide (t.span.start = p) && decide (p < t.span.stop) &&
      decide (t.span.stop ≤ n) && coversFrom ts t.span.stop n


/-- Every span is well-formed (`start ≤ end`, the spec section 3 span
invariant). -/
def spansValid (ts : List Token) : Bool :=
  ts.all (fun t => decide (t.span.start ≤ t.span.stop))

theorem spansValid_of_nonempty (ts : List Token) (h : spansNonempty ts = true) :
    spansValid ts = true := by
  simp only [spansNonempty, List.all_eq_true, decide_eq_true_eq] at h
  simp only [spansValid, List.all_eq_true, decide_eq_true_eq]
  intro t ht
  exact Nat.le_of_lt (h t ht)

theorem spansValid_getD (ts : List Token) (h : spansValid ts = true) (i : Nat)
    (hi : i < ts.length) :
    (ts.getD i dummyToken).span.start ≤ (ts.getD i dummyToken).span.stop := by
  simp only [spansValid, List.all_eq_true, decide_eq_true_eq] at h
  refine h _ ?_
  rw [List.getD_eq_getElem ts dummyToken hi]
  exact List.getElem_mem hi

theorem spansNonempty_getD (ts : List Token) (h : spansNonempty ts = true) (i : Nat)
    (hi : i < ts.length) :
    (ts.getD i dummyToken).span.start < (ts.getD i dummyToken).span.stop := by
  simp only [spansNonempty, List.all_eq_true, decide_eq_true_eq] at h
  refine h _ ?_
  rw [List.getD_eq_getElem ts dummyToken hi]
  exact List.getElem_mem hi

theorem sortedDisjoint_adj : ∀ (ts : List Token), sortedDisjoint ts = true →
    ∀ j, j + 1 < ts.length →
    (ts.getD j dummyToken).span.stop ≤ (ts.getD (j + 1) dummyToken).span.start := by
  intro ts
  induction ts with
  | nil => intro _ j hj; simp at hj
  | cons t ts ih =>
    intro h j hj
    cases ts with
    | nil => simp at hj
    | cons u us =>
      simp only [sortedDisjoint, Bool.and_eq_true, decide_eq_true_eq] at h
      cases j with
      | zero => simpa using h.1
      | succ j =>
        have hrec := ih (by simp [sortedDisjoint, h.2]) j (by simpa using hj)
        simpa using hrec

theorem sortedDisjoint_lt (ts : List Token) (hsd : sortedDisjoint ts = true)
    (hv : spansValid ts = true) :
    ∀ k j, j < k → k < ts.length →
    (ts.getD j dummyToken).span.stop ≤ (ts.getD k dummyToken).span.start := by
  intro k
  induction k with
  | zero => intro j hj _; omega
  | succ k ih =>
    intro j hj hk
    rcases Nat.lt_or_ge j k with hc | hc
    · have h1 := ih j hc (by omega)
      have h2 := spansValid_getD ts hv k (by omega)
      have h3 := sortedDisjoint_adj ts hsd k hk
      omega
    · have hjk : j = k := by omega
      subst hjk
      exact sortedDisjoint_adj ts hsd j hk

theorem bsearchGo_found (ts : List Token) (off i : Nat)
    (hsd : sortedDisjoint ts = true) (hv : spansValid ts = true)
    (hi : i < ts.length)
    (hc1 : (ts.getD i dummyToken).span.start ≤ off)
    (hc2 : off < (ts.getD i dummyToken).span.stop) :
    ∀ fuel left right, left ≤ i → i < right → right ≤ ts.length →
      right - left ≤ fuel →
      bsearchGo (styleCmp off) ts fuel left right = some i := by
  intro fuel
  induction fuel with
  | zero => intro left right h1 h2 h3 h4; omega
  | succ n ih =>
    intro left right h1 h2 h3 h4
    have hlr : left < right := by omega
    simp only [bsearchGo, if_pos hlr]
    have hmlt : (left + right) / 2 < right := by omega
    have hmge : left ≤ (left + right) / 2 := by omega
    rcases Nat.lt_trichotomy ((left + right) / 2) i with hmi | hmi | hmi
    · have hst := sortedDisjoint_lt ts hsd hv i ((left + right) / 2) hmi hi
      have hvm := spansValid_getD ts hv ((left + right) / 2) (by omega)
      have hcmp : styleCmp off (ts.getD ((left + right) / 2) dummyToken) = Ordering.lt := by
        simp only [styleCmp]
        rw [if_neg (by omega), if_pos (by omega)]
      rw [hcmp]
      exact ih ((left + right) / 2 + 1) right (by omega) h2 h3 (by omega)
    · have hcmp : styleCmp off (ts.getD ((left + right) / 2) dummyToken) = Ordering.eq := by
        rw [hmi]
        simp only [styleCmp]
        rw [if_neg (by omega), if_neg (by omega)]
      rw [hcmp, hmi]
    · have hst := sortedDisjoint_lt ts hsd hv ((left + right) / 2) i hmi (by omega)
      have hcmp : styleCmp off (ts.getD ((left + right) / 2) dummyToken) = Ordering.gt := by
        simp only [styleCmp]
        rw [if_pos (by omega)]
      rw [hcmp]
      exact ih left ((left + right) / 2) h1 hmi (by omega) (by omega)

theorem bsearchGo_none (ts : List Token) (off : Nat)
    (h : ∀ j, j < ts.length → styleCmp off (ts.getD j dummyToken) ≠ Ordering.eq) :
    ∀ fuel left right, right ≤ ts.length →
      bsearchGo (styleCmp off) ts fuel left right = none := by
  intro fuel
  induction fuel with
  | zero => intro left right _; simp [bsearchGo]
  | succ n ih =>
    intro left right hr
    simp only [bsearchGo]
    split
    · next hlr =>
      cases hcmp : styleCmp off (ts.getD ((left + right) / 2) dummyToken) with
      | lt => exact ih ((left + right) / 2 + 1) right hr
      | eq => exact absurd hcmp (h ((left + right) / 2) (by omega))
      | gt => exact ih left ((left + right) / 2) (by omega)
    · rfl

theorem get_style_at_covered (s : SyntaxHighlighter) (off i : Nat)
    (hsd : sortedDisjoint s.tokens = true) (hv : spansValid s.tokens = true)
    (hi : i < s.tokens.length)
    (hc1 : (s.tokens.getD i dummyToken).span.start ≤ off)
    (hc2 : off < (s.tokens.getD i dummyToken).span.stop) :
    s.get_style_at off =
      some (s.theme.get_style ((s.tokens.getD i dummyToken).kind)) := by
  have hb : binary_search_by s.tokens (styleCmp off) = some i := by
    simp only [binary_search_by]
    exact bsearchGo_found s.tokens off i hsd hv hi hc1 hc2 (s.tokens.length + 1) 0
      s.tokens.length (by omega) hi (by omega) (by omega)
  simp only [SyntaxHighlighter.get_style_at, hb]

theorem get_style_at_uncovered (s : SyntaxHighlighter) (off : Nat)
    (h : ∀ i, i < s.tokens.length →
      ¬((s.tokens.getD i dummyToken).span.start ≤ off ∧
        off < (s.tokens.getD i dummyToken).span.stop)) :
    s.get_style_at off = none := by
  have hb : binary_search_by s.tokens (styleCmp off) = none := by
    simp only [binary_search_by]
    refine bsearchGo_none s.tokens off ?_ (s.tokens.length + 1) 0 s.tokens.length (by omega)
    intro j hj hcmp
    have hcov := h j hj
    simp only [styleCmp] at hcmp
    split_ifs at hcmp
    exact hcov (by omega)
  simp only [SyntaxHighlighter.get_style_at, hb]


/-- Length of the maximal prefix on which `pred` holds. -/
def prefixLen (pred : Token → Bool) : List Token → Nat
  | [] => 0
  | t :: ts => if pred t then prefixLen pred ts + 1 else 0

theorem prefixLen_le (pred : Token → Bool) :
    ∀ ts : List Token, prefixLen pred ts ≤ ts.length := by
  intro ts
  induction ts with
  | nil => simp [prefixLen]
  | cons t ts ih =>
    simp only [prefixLen]
    split
    · simpa using ih
    · simp

theorem prefixLen_true (pred : Token → Bool) :
    ∀ (ts : List Token) (i : Nat), i < prefixLen pred ts →
      pred (ts.getD i dummyToken) = true := by
  intro ts
  induction ts with
  | nil => intro i hi; simp [prefixLen] at hi
  | cons t ts ih =>
    intro i hi
    simp only [prefixLen] at hi
    by_cases hp : pred t
    · rw [if_pos hp] at hi
      cases i with
      | zero => simpa using hp
      | succ i => simpa using ih i (by omega)
    · rw [if_neg hp] at hi
      omega

theorem prefixLen_false (pred : Token → Bool) :
    ∀ ts : List Token, prefixLen pred ts < ts.length →
      pred (ts.getD (prefixLen pred ts) dummyToken) = false := by
  intro ts
  induction ts with
  | nil => intro hi; simp at hi
  | cons t ts ih =>
    intro hi
    simp only [prefixLen] at hi ⊢
    by_cases hp : pred t
    · rw [if_pos hp] at hi ⊢
      simpa using ih (by simpa using hi)
    · rw [if_neg hp] at hi ⊢
      simpa using hp

/-- Under a prefix-closed predicate, any index below the list length
satisfies the predicate exactly when it lies below `prefixLen`. -/
theorem prefixLen_iff (pred : Token → Bool) (ts : List Token)
    (hclosed : ∀ j k, k < j → j < ts.length →
      pred (ts.getD j dummyToken) = true → pred (ts.getD k dummyToken) = true)
    (i : Nat) (hi : i < ts.length) :
    (pred (ts.getD i dummyToken) = true ↔ i < prefixLen pred ts) := by
  constructor
  · intro hp
    by_contra hge
    have hN : prefixLen pred ts ≤ i := by omega
    have hNlt : prefixLen pred ts < ts.length := by omega
    have hfalse := prefixLen_false pred ts hNlt
    rcases Nat.eq_or_lt_of_le hN with he | hlt
    · rw [← he] at hp
      rw [hp] at hfalse
      exact absurd hfalse (by simp)
    · have := hclosed i (prefixLen pred ts) hlt hi hp
      rw [this] at hfalse
      exact absurd hfalse (by simp)
  · exact prefixLen_true pred ts i

theorem partitionPointGo_eq (pred : Token → Bool) (ts : List Token)
    (hiff : ∀ i, i < ts.length →
      (pred (ts.getD i dummyToken) = true ↔ i < prefixLen pred ts)) :
    ∀ fuel left right, left ≤ prefixLen pred ts → prefixLen pred ts ≤ right →
      right ≤ ts.length → right - left ≤ fuel →
      partitionPointGo pred ts fuel left right = prefixLen pred ts := by
  intro fuel
  induction fuel with
  | zero => intro left right h1 h2 h3 h4; simp only [partitionPointGo]; omega
  | succ n ih =>
    intro left right h1 h2 h3 h4
    by_cases hlr : left < right
    · simp only [partitionPointGo, if_pos hlr]
      have hmlt : (left + right) / 2 < right := by omega
      have hmge : left ≤ (left + right) / 2 := by omega
      by_cases hp : pred (ts.getD ((left + right) / 2) dummyToken) = true
      · rw [if_pos hp]
        have := (hiff ((left + right) / 2) (by omega)).mp hp
        exact ih ((left + right) / 2 + 1) right (by omega) h2 h3 (by omega)
      · rw [if_neg hp]
        have hge : prefixLen pred ts ≤ (left + right) / 2 := by
          by_contra hc
          exact hp ((hiff ((left + right) / 2) (by omega)).mpr (by omega))
        exact ih left ((left + right) / 2) h1 hge (by omega) (by omega)
    · simp only [partitionPointGo, if_neg hlr]
      omega

theorem partition_point_eq (pred : Token → Bool) (ts : List Token)
    (hclosed : ∀ j k, k < j → j < ts.length →
      pred (ts.getD j dummyToken) = true → pred (ts.getD k dummyToken) = true) :
    partition_point ts pred = prefixLen pred ts := by
  simp only [partition_point]
  have hle := prefixLen_le pred ts
  exact partitionPointGo_eq pred ts (prefixLen_iff pred ts hclosed)
    (ts.length + 1) 0 ts.length (by omega) hle (by omega) (by omega)


theorem getTokensInRange_spec (s : SyntaxHighlighter) (rs re : Nat)
    (hsd : sortedDisjoint s.tokens = true) (hne : spansNonempty s.tokens = true)
    (hr : rs ≤ re) :
    ∃ i1 i2, i1 ≤ i2 ∧
      s.get_tokens_in_range (rs, re) = some ((s.tokens.drop i1).take (i2 - i1)) ∧
      ∀ i, i < s.tokens.length →
        ((i1 ≤ i ∧ i < i2) ↔
          (rs < (s.tokens.getD i dummyToken).span.stop ∧
           (s.tokens.getD i dummyToken).span.start < re)) := by
  have hv := spansValid_of_nonempty s.tokens hne
  have hclosed1 : ∀ j k, k < j → j < s.tokens.length →
      (fun t => decide (t.span.stop ≤ rs)) (s.tokens.getD j dummyToken) = true →
      (fun t => decide (t.span.stop ≤ rs)) (s.tokens.getD k dummyToken) = true := by
    intro j k hkj hj hp
    simp only [decide_eq_true_eq] at hp ⊢
    have h1 := sortedDisjoint_lt s.tokens hsd hv j k hkj hj
    have h2 := spansValid_getD s.tokens hv j hj
    omega
  have hclosed2 : ∀ j k, k < j → j < s.tokens.length →
      (fun t => decide (t.span.start < re)) (s.tokens.getD j dummyToken) = true →
      (fun t => decide (t.span.start < re)) (s.tokens.getD k dummyToken) = true := by
    intro j k hkj hj hp
    simp only [decide_eq_true_eq] at hp ⊢
    have h1 := sortedDisjoint_lt s.tokens hsd hv j k hkj hj
    have h2 := spansValid_getD s.tokens hv k (by omega)
    omega
  have he1 := partition_point_eq (fun t => decide (t.span.stop ≤ rs)) s.tokens hclosed1
  have he2 := partition_point_eq (fun t => decide (t.span.start < re)) s.tokens hclosed2
  have hN12 : prefixLen (fun t => decide (t.span.stop ≤ rs)) s.tokens ≤
      prefixLen (fun t => decide (t.span.start < re)) s.tokens := by
    by_contra hc
    have hlen := prefixLen_le (fun t => decide (t.span.stop ≤ rs)) s.tokens
    have hlt : prefixLen (fun t => decide (t.span.start < re)) s.tokens <
        prefixLen (fun t => decide (t.span.stop ≤ rs)) s.tokens := by omega
    have hp1 := prefixLen_true (fun t => decide (t.span.stop ≤ rs)) s.tokens _ hlt
    simp only [decide_eq_true_eq] at hp1
    have hnem := spansNonempty_getD s.tokens hne
      (prefixLen (fun t => decide (t.span.start < re)) s.tokens) (by omega)
    have h2 := (prefixLen_iff (fun t => decide (t.span.start < re)) s.tokens hclosed2
      (prefixLen (fun t => decide (t.span.start < re)) s.tokens) (by omega)).mp
      (by simp only [decide_eq_true_eq]; omega)
    omega
  refine ⟨prefixLen (fun t => decide (t.span.stop ≤ rs)) s.tokens,
    prefixLen (fun t => decide (t.span.start < re)) s.tokens, hN12, ?_, ?_⟩
  · simp only [SyntaxHighlighter.get_tokens_in_range]
    rw [he1, he2, if_pos hN12]
  · intro i hi
    have i1 := prefixLen_iff (fun t => decide (t.span.stop ≤ rs)) s.tokens hclosed1 i hi
    have i2 := prefixLen_iff (fun t => decide (t.span.start < re)) s.tokens hclosed2 i hi
    simp only [decide_eq_true_eq] at i1 i2
    omega

/-! ### Generic coverage lemma for the single-token scanners -/

theorem runStep1_covers (step : List Nat → Nat → TokenKind × Nat) (text : List Nat)
    (hstep : ∀ q, q < text.length →
      q < (step text q).2 ∧ (step text q).2 ≤ text.length) :
    ∀ fuel q, q ≤ text.length → text.length - q ≤ fuel →
      coversFrom (runStep1 step text fuel q) q text.length = true := by
  intro fuel
  induction fuel with
  | zero =>
    intro q h1 h2
    have : q = text.length := by omega
    simp [runStep1, coversFrom, this]
  | succ n ih =>
    intro q h1 h2
    by_cases hq : q < text.length
    · have hs := hstep q hq
      simp only [runStep1, if_pos hq, coversFrom, Bool.and_eq_true, decide_eq_true_eq]
      exact ⟨⟨⟨trivial, hs.1⟩, hs.2⟩, ih (step text q).2 hs.2 (by omega)⟩
    · have : q = text.length := by omega
      simp [runStep1, hq, coversFrom, this]


/-! ### Error fallback: every Error token is exactly one byte

For the scanners whose final match arm is `_ => { pos += 1; Error }`,
any step that yields an `Error` kind advances exactly one byte. -/

theorem cClassify_ne (w : List Nat) : cClassify w ≠ TokenKind.Error := by
  simp only [cClassify]; split_ifs <;> simp

theorem rustClassify_ne (w : List Nat) : rustClassify w ≠ TokenKind.Error := by
  simp only [rustClassify]; split_ifs <;> simp

theorem pyClassify_ne (w : List Nat) : pyClassify w ≠ TokenKind.Error := by
  simp only [pyClassify]; split_ifs <;> simp

theorem cppClassify_ne (w : List Nat) : cppClassify w ≠ TokenKind.Error := by
  simp only [cppClassify]; split_ifs <;> simp

theorem goClassify_ne (w : List Nat) : goClassify w ≠ TokenKind.Error := by
  simp only [goClassify]; split_ifs <;> simp

theorem csClassify_ne (w : List Nat) : csClassify w ≠ TokenKind.Error := by
  simp only [csClassify]; split_ifs <;> simp

theorem javaClassify_ne (w : List Nat) : javaClassify w ≠ TokenKind.Error := by
  simp only [javaClassify]; split_ifs <;> simp

theorem sqlClassify_ne (w : List Nat) : sqlClassify w ≠ TokenKind.Error := by
  simp only [sqlClassify]; split_ifs <;> simp

theorem cStep_err (text : List Nat) (q : Nat) :
    (cStep text q).1 = TokenKind.Error → (cStep text q).2 = q + 1 := by
  simp only [cStep]
  split_ifs <;> first | (intro h; exact absurd h (cClassify_ne _)) | simp

theorem jsonKw_err (text : List Nat) (q : Nat) :
    (jsonKw text q).1 = TokenKind.Error → (jsonKw text q).2 = q + 1 := by
  simp only [jsonKw]
  split_ifs <;> simp

theorem jsonSlash_err (text : List Nat) (q : Nat) :
    (jsonSlash text q).1 = TokenKind.Error → (jsonSlash text q).2 = q + 1 := by
  simp only [jsonSlash]
  split_ifs <;> simp

theorem jsonStep_err (text : List Nat) (q : Nat) :
    (jsonStep text q).1 = TokenKind.Error → (jsonStep text q).2 = q + 1 := by
  simp only [jsonStep]
  split_ifs <;> first | exact jsonSlash_err text q | exact jsonKw_err text q | simp

theorem rustTail_err (text : List Nat) (q : Nat) :
    (rustTail text q).1 = TokenKind.Error → (rustTail text q).2 = q + 1 := by
  simp only [rustTail]
  split_ifs <;> first | (intro h; exact absurd h (rustClassify_ne _)) | simp

theorem rustStep_err (text : List Nat) (q : Nat) :
    (rustStep text q).1 = TokenKind.Error → (rustStep text q).2 = q + 1 := by
  simp only [rustStep]
  split_ifs <;> first | exact rustTail_err text q | simp

theorem pyTail_err (text : List Nat) (q : Nat) :
    (pyTail text q).1 = TokenKind.Error → (pyTail text q).2 = q + 1 := by
  simp only [pyTail]
  split_ifs <;> first | (intro h; exact absurd h (pyClassify_ne _)) | simp

theorem pyStep_err (text : List Nat) (q : Nat) :
    (pyStep text q).1 = TokenKind.Error → (pyStep text q).2 = q + 1 := by
  simp only [pyStep]
  split_ifs <;> first | exact pyTail_err text q | simp

theorem tomlTail_err (text : List Nat) (q : Nat) :
    (tomlTail text q).1 = TokenKind.Error → (tomlTail text q).2 = q + 1 := by
  simp only [tomlTail]
  split_ifs <;> simp

theorem tomlStep_err (text : List Nat) (q : Nat) :
    (tomlStep text q).1 = TokenKind.Error → (tomlStep text q).2 = q + 1 := by
  simp only [tomlStep]
  split_ifs <;> first | exact tomlTail_err text q | simp

theorem yamlTail2_err (text : List Nat) (q : Nat) :
    (yamlTail2 text q).1 = TokenKind.Error → (yamlTail2 text q).2 = q + 1 := by
  simp only [yamlTail2]
  split_ifs <;> simp

theorem yamlTail_err (text : List Nat) (q : Nat) :
    (yamlTail text q).1 = TokenKind.Error → (yamlTail text q).2 = q + 1 := by
  simp only [yamlTail]
  split_ifs <;> first | exact yamlTail2_err text q | simp

theorem yamlStep_err (text : List Nat) (q : Nat) :
    (yamlStep text q).1 = TokenKind.Error → (yamlStep text q).2 = q + 1 := by
  simp only [yamlStep]
  split_ifs <;> first | exact yamlTail_err text q | simp

theorem cppTail_err (text : List Nat) (q : Nat) :
    (cppTail text q).1 = TokenKind.Error → (cppTail text q).2 = q + 1 := by
  simp only [cppTail]
  split_ifs <;> first | (intro h; exact absurd h (cppClassify_ne _)) | simp

theorem cppStep_err (text : List Nat) (q : Nat) :
    (cppStep text q).1 = TokenKind.Error → (cppStep text q).2 = q + 1 := by
  simp only [cppStep]
  split_ifs <;> first | exact cppTail_err text q | simp

theorem goTail_err (text : List Nat) (q : Nat) :
    (goTail text q).1 = TokenKind.Error → (goTail text q).2 = q + 1 := by
  simp only [goTail]
  split_ifs <;> first | (intro h; exact absurd h (goClassify_ne _)) | simp

theorem goStep_err (text : List Nat) (q : Nat) :
    (goStep text q).1 = TokenKind.Error → (goStep text q).2 = q + 1 := by
  simp only [goStep]
  split_ifs <;> first | exact goTail_err text q | simp

theorem csTail_err (text : List Nat) (q : Nat) :
    (csTail text q).1 = TokenKind.Error → (csTail text q).2 = q + 1 := by
  simp only [csTail]
  split_ifs <;> first | (intro h; exact absurd h (csClassify_ne _)) | simp

theorem csStep2_err (text : List Nat) (q : Nat) :
    (csStep2 text q).1 = TokenKind.Error → (csStep2 text q).2 = q + 1 := by
  simp only [csStep2]
  split_ifs <;> first | exact csTail_err text q | simp

theorem csStep_err (text : List Nat) (q : Nat) :
    (csStep text q).1 = TokenKind.Error → (csStep text q).2 = q + 1 := by
  simp only [csStep]
  split_ifs <;> first | exact csStep2_err text q | simp

theorem javaTail_err (text : List Nat) (q : Nat) :
    (javaTail text q).1 = TokenKind.Error → (javaTail text q).2 = q + 1 := by
  simp only [javaTail]
  split_ifs <;> first | (intro h; exact absurd h (javaClassify_ne _)) | simp

theorem javaStep_err (text : List Nat) (q : Nat) :
    (javaStep text q).1 = TokenKind.Error → (javaStep text q).2 = q + 1 := by
  simp only [javaStep]
  split_ifs <;> first | exact javaTail_err text q | simp

theorem sqlIdent_ne (text : List Nat) (q : Nat) :
    (sqlIdent text q).1 ≠ TokenKind.Error := by
  simp only [sqlIdent]
  split_ifs <;> first | exact sqlClassify_ne _ | simp

theorem sqlTail_err (text : List Nat) (q : Nat) :
    (sqlTail text q).1 = TokenKind.Error → (sqlTail text q).2 = q + 1 := by
  simp only [sqlTail]
  split_ifs <;> first | (intro h; exact absurd h (sqlIdent_ne text q)) | simp

theorem sqlBracket_ne (text : List Nat) (q : Nat) :
    (sqlBracket text q).1 ≠ TokenKind.Error := by
  simp only [sqlBracket]
  split_ifs <;> simp

theorem sqlStep_err (text : List Nat) (q : Nat) :
    (sqlStep text q).1 = TokenKind.Error → (sqlStep text q).2 = q + 1 := by
  simp only [sqlStep]
  split_ifs <;>
    first
      | exact sqlTail_err text q
      | (intro h; exact absurd h (sqlBracket_ne text q))
      | simp

theorem jsClassify_ne (w : List Nat) : jsClassify w ≠ TokenKind.Error := by
  simp only [jsClassify]; split_ifs <;> simp

set_option maxHeartbeats 1600000 in
theorem jsStep_err (text : List Nat) (q : Nat) :
    (jsStep text q).1 = TokenKind.Error → (jsStep text q).2 = q + 1 := by
  simp only [jsStep]
  split_ifs <;> first | (simp; done) | (intro h; exact absurd h (jsClassify_ne _))

/-! The shell scanner instead classifies an unrecognized byte as
`Operator` (shell.rs final arm), and the CSS scanner does the same
(css.rs final arm): neither ever emits `Error`. -/

theorem shellStep_fallback :
    shellStep [1] 0 = (TokenKind.Operator, 1) := by decide


/-! ### Per-language coverage -/

theorem cTokenize_covers (text : List Nat) :
    coversFrom (cTokenize text) 0 text.length = true :=
  runStep1_covers cStep text (fun q hq => cStep_bounds text q hq)
    text.length 0 (by omega) (by omega)

theorem jsonTokenize_covers (text : List Nat) :
    coversFrom (jsonTokenize text) 0 text.length = true :=
  runStep1_covers jsonStep text (fun q hq => jsonStep_bounds text q hq)
    text.length 0 (by omega) (by omega)

theorem rustTokenize_covers (text : List Nat) :
    coversFrom (rustTokenize text) 0 text.length = true :=
  runStep1_covers rustStep text (fun q hq => rustStep_bounds text q hq)
    text.length 0 (by omega) (by omega)

theorem pyTokenize_covers (text : List Nat) :
    coversFrom (pyTokenize text) 0 text.length = true :=
  runStep1_covers pyStep text (fun q hq => pyStep_bounds text q hq)
    text.length 0 (by omega) (by omega)

theorem tomlTokenize_covers (text : List Nat) :
    coversFrom (tomlTokenize text) 0 text.length = true :=
  runStep1_covers tomlStep text (fun q hq => tomlStep_bounds text q hq)
    text.length 0 (by omega) (by omega)

theorem yamlTokenize_covers (text : List Nat) :
    coversFrom (yamlTokenize text) 0 text.length = true :=
  runStep1_covers yamlStep text (fun q hq => yamlStep_bounds text q hq)
    text.length 0 (by omega) (by omega)

theorem cppTokenize_covers (text : List Nat) :
    coversFrom (cppTokenize text) 0 text.length = true :=
  runStep1_covers cppStep text (fun q hq => cppStep_bounds text q hq)
    text.length 0 (by omega) (by omega)

theorem goTokenize_covers (text : List Nat) :
    coversFrom (goTokenize text) 0 text.length = true :=
  runStep1_covers goStep text (fun q hq => goStep_bounds text q hq)
    text.length 0 (by omega) (by omega)

theorem csTokenize_covers (text : List Nat) :
    coversFrom (csTokenize text) 0 text.length = true :=
  runStep1_covers csStep text (fun q hq => csStep_bounds text q hq)
    text.length 0 (by omega) (by omega)

theorem cssTokenize_covers (text : List Nat) :
    coversFrom (cssTokenize text) 0 text.length = true :=
  runStep1_covers cssStep text (fun q hq => cssStep_bounds text q hq)
    text.length 0 (by omega) (by omega)

theorem javaTokenize_covers (text : List Nat) :
    coversFrom (javaTokenize text) 0 text.length = true :=
  runStep1_covers javaStep text (fun q hq => javaStep_bounds text q hq)
    text.length 0 (by omega) (by omega)

theorem shellTokenize_covers (text : List Nat) :
    coversFrom (shellTokenize text) 0 text.length = true :=
  runStep1_covers shellStep text (fun q hq => shellStep_bounds text q hq)
    text.length 0 (by omega) (by omega)

theorem sqlTokenize_covers (text : List Nat) :
    coversFrom (sqlTokenize text) 0 text.length = true :=
  runStep1_covers sqlStep text (fun q hq => sqlStep_bounds text q hq)
    text.length 0 (by omega) (by omega)

theorem xmlTokenize_covers (text : List Nat) :
    coversFrom (xmlTokenize text) 0 text.length = true :=
  runStep1_covers xmlStep text (fun q hq => xmlStep_bounds text q hq)
    text.length 0 (by omega) (by omega)

theorem plainTextTokenize_covers (text : List Nat) :
    coversFrom (plainTextTokenize text) 0 text.length = true := by
  simp only [plainTextTokenize]
  split_ifs with h
  · simp [coversFrom, h]
  · simp only [coversFrom, Bool.and_eq_true, decide_eq_true_eq]
    refine ⟨⟨⟨trivial, by omega⟩, le_refl _⟩, by simp [coversFrom]⟩


/-! ### Concrete fixtures for the claim witnesses -/

def themeW : Theme := Theme.mk []

def hlClean : SyntaxHighlighter := ⟨Language.C, [], none, themeW, 0⟩

def hlDirty : SyntaxHighlighter := ⟨Language.C, [], some (3, 7), themeW, 0⟩

def hlW : SyntaxHighlighter :=
  ⟨Language.C, [Token.mk TokenKind.Keyword (Span.mk 0 2)], none, themeW, 2⟩

def hlEmptyTok : SyntaxHighlighter :=
  ⟨Language.C, [Token.mk TokenKind.Identifier (Span.mk 5 5)], none, themeW, 5⟩

def hlHtml : SyntaxHighlighter := SyntaxHighlighter.new Language.Html themeW

/-! ### The claims -/

/-- C1 (corrected): for the PlainText, Json, Rust, Python, Toml, Yaml,
C, Cpp, CSharp, Go, Css, Java, Shell and Sql scanners, `tokenize`
returns a token sequence that tiles `[0, len)` exactly: full coverage,
no gaps, no overlaps, starts strictly ascending.  (The Markdown,
AsciiDoc, JavaScript/TypeScript and Html scanners do not satisfy this —
see the counterexample — and xml.rs is not among the staged sources, so
nothing is claimed for the Xml scanner here; `xmlTokenize_covers` holds
of its spec-modelled embedding.) -/
theorem C1_coverage_corrected (text : List Nat) :
    coversFrom (tokenizeLang Language.PlainText text) 0 text.length = true ∧
    coversFrom (tokenizeLang Language.Json text) 0 text.length = true ∧
    coversFrom (tokenizeLang Language.Rust text) 0 text.length = true ∧
    coversFrom (tokenizeLang Language.Python text) 0 text.length = true ∧
    coversFrom (tokenizeLang Language.Toml text) 0 text.length = true ∧
    coversFrom (tokenizeLang Language.Yaml text) 0 text.length = true ∧
    coversFrom (tokenizeLang Language.C text) 0 text.length = true ∧
    coversFrom (tokenizeLang Language.Cpp text) 0 text.length = true ∧
    coversFrom (tokenizeLang Language.CSharp text) 0 text.length = true ∧
    coversFrom (tokenizeLang Language.Go text) 0 text.length = true ∧
    coversFrom (tokenizeLang Language.Css text) 0 text.length = true ∧
    coversFrom (tokenizeLang Language.Java text) 0 text.length = true ∧
    coversFrom (tokenizeLang Language.Shell text) 0 text.length = true ∧
    coversFrom (tokenizeLang Language.Sql text) 0 text.length = true :=
  ⟨plainTextTokenize_covers text, jsonTokenize_covers text, rustTokenize_covers text,
   pyTokenize_covers text, tomlTokenize_covers text, yamlTokenize_covers text,
   cTokenize_covers text, cppTokenize_covers text, csTokenize_covers text,
   goTokenize_covers text, cssTokenize_covers text, javaTokenize_covers text,
   shellTokenize_covers text, sqlTokenize_covers text⟩

/-- C1 counterexample: the Markdown scanner never emits a token for a
newline byte (markdown.rs lines 137-151: the text arm stops at `\n` and,
on an empty run, advances past the byte without pushing a token), so the
single-newline input is tokenized to the empty list and `[0, 1)` is not
covered. -/
theorem C1_counterexample :
    tokenizeLang Language.Markdown [10] = [] ∧
    coversFrom (tokenizeLang Language.Markdown [10]) 0 1 = false := by decide

/-- C2 (corrected): for the scanners whose fallback arm emits `Error`
(`json`, `rust`, `python`, `toml`, `yaml`, `c`, `cpp`, `csharp`, `go`,
`java`, `sql`, and `javascript`, which the registry also dispatches for
TypeScript), every step that yields an `Error` token advances the
cursor exactly one byte, so the Error span is one byte and scanning
resumes immediately after it.  (The shell and CSS scanners instead
classify unrecognized bytes as `Operator`; see the counterexample.) -/
theorem C2_error_fallback_corrected (text : List Nat) (q : Nat) :
    ((jsonStep text q).1 = TokenKind.Error → (jsonStep text q).2 = q + 1) ∧
    ((rustStep text q).1 = TokenKind.Error → (rustStep text q).2 = q + 1) ∧
    ((pyStep text q).1 = TokenKind.Error → (pyStep text q).2 = q + 1) ∧
    ((tomlStep text q).1 = TokenKind.Error → (tomlStep text q).2 = q + 1) ∧
    ((yamlStep text q).1 = TokenKind.Error → (yamlStep text q).2 = q + 1) ∧
    ((cStep text q).1 = TokenKind.Error → (cStep text q).2 = q + 1) ∧
    ((cppStep text q).1 = TokenKind.Error → (cppStep text q).2 = q + 1) ∧
    ((csStep text q).1 = TokenKind.Error → (csStep text q).2 = q + 1) ∧
    ((goStep text q).1 = TokenKind.Error → (goStep text q).2 = q + 1) ∧
    ((javaStep text q).1 = TokenKind.Error → (javaStep text q).2 = q + 1) ∧
    ((sqlStep text q).1 = TokenKind.Error → (sqlStep text q).2 = q + 1) ∧
    ((jsStep text q).1 = TokenKind.Error → (jsStep text q).2 = q + 1) :=
  ⟨jsonStep_err text q, rustStep_err text q, pyStep_err text q, tomlStep_err text q,
   yamlStep_err text q, cStep_err text q, cppStep_err text q, csStep_err text q,
   goStep_err text q, javaStep_err text q, sqlStep_err text q, jsStep_err text q⟩

/-- C2 witness: the one-byte input `0x01` is unrecognized by the C
scanner and is emitted as a one-byte `Error` token. -/
theorem C2_error_fallback_corrected_witness :
    (cStep [1] 0).1 = TokenKind.Error ∧ (cStep [1] 0).2 = 0 + 1 :=
  ⟨by decide, (C2_error_fallback_corrected [1] 0).2.2.2.2.2.1 (by decide)⟩

/-- C2 counterexample: the shell scanner classifies the unrecognized
byte `0x01` as a one-byte `Operator` token, not `Error` (shell.rs final
match arm). -/
theorem C2_counterexample :
    tokenizeLang Language.Shell [1] = [Token.mk TokenKind.Operator (Span.mk 0 1)] ∧
    TokenKind.Operator ≠ TokenKind.Error := by decide

/-- C3 (corrected): `update(text, false)` is a no-op exactly when the
dirty range is absent and the length matches; otherwise, provided the
configured language's scanner terminates on `text` (it always does
except for the Html scanner, which can hang), `update` replaces the
cached tokens with the full re-tokenization, clears the dirty range,
and records the new length, leaving language and theme unchanged.
(For an Html highlighter `update` need not return at all; see the
counterexample.) -/
theorem C3_update_corrected (s : SyntaxHighlighter) (text : List Nat) :
    (s.dirty_range = none → text.length = s.doc_len → s.update text false = some s) ∧
    (∀ (force : Bool) (toks : List Token),
      (force = true ∨ s.dirty_range ≠ none ∨ text.length ≠ s.doc_len) →
      tokenizeLangP s.language text = some toks →
      s.update text force =
        some { language := s.language, tokens := toks, dirty_range := none,
               theme := s.theme, doc_len := text.length }) := by
  constructor
  · intro h1 h2
    simp [SyntaxHighlighter.update, h1, h2]
  · intro force toks hf htoks
    have hcond : ¬(force = false ∧ s.dirty_range = none ∧ text.length = s.doc_len) := by
      rintro ⟨hf1, hf2, hf3⟩
      rcases hf with h | h | h
      · rw [h] at hf1; exact absurd hf1 (by simp)
      · exact h hf2
      · exact h hf3
    simp only [SyntaxHighlighter.update, if_neg hcond, htoks]
    rfl

/-- C3 witness: on a clean C-language highlighter of matching length
`update` is the identity; on a fresh highlighter (dirty
`0..usize::MAX`) it re-tokenizes. -/
theorem C3_update_corrected_witness :
    hlClean.update [] false = some hlClean ∧
    (SyntaxHighlighter.new Language.C themeW).update [] false =
      some { language := Language.C, tokens := tokenizeLang Language.C [],
             dirty_range := none, theme := themeW, doc_len := 0 } :=
  ⟨(C3_update_corrected hlClean []).1 rfl rfl,
   (C3_update_corrected (SyntaxHighlighter.new Language.C themeW) []).2 false
     (tokenizeLang Language.C [])
     (Or.inr (Or.inl (by simp [SyntaxHighlighter.new]))) rfl⟩

/-- C3 counterexample: a fresh Html highlighter (dirty range
`0..usize::MAX`, so not clean) updated on the 3-byte input `<a/`: the
original claim demands that `update` fully re-tokenize, replace the
cache, clear the dirty range and record the new length, but
`HtmlLexer::tokenize` never returns on this input (the attribute-loop
divergence of C6), so the `update` call never completes (`none`). -/
theorem C3_counterexample :
    hlHtml.dirty_range ≠ none ∧ hlHtml.update [60, 97, 47] false = none := by decide

/-- C4: with sorted, disjoint, well-formed cached spans, an offset lying
inside a cached token's span makes `get_style_at` return exactly the
theme style of that token's kind, and an offset inside no cached span
makes it return `none`. -/
theorem C4_get_style_at (s : SyntaxHighlighter) (off : Nat)
    (hsd : sortedDisjoint s.tokens = true) (hv : spansValid s.tokens = true) :
    (∀ i, i < s.tokens.length →
      (s.tokens.getD i dummyToken).span.start ≤ off →
      off < (s.tokens.getD i dummyToken).span.stop →
      s.get_style_at off = some (s.theme.get_style ((s.tokens.getD i dummyToken).kind))) ∧
    ((∀ i, i < s.tokens.length →
        ¬((s.tokens.getD i dummyToken).span.start ≤ off ∧
          off < (s.tokens.getD i dummyToken).span.stop)) →
      s.get_style_at off = none) :=
  ⟨fun i hi h1 h2 => get_style_at_covered s off i hsd hv hi h1 h2,
   fun h => get_style_at_uncovered s off h⟩

/-- C4 witness: a one-token cache `[Keyword 0..2]`; offset 1 is styled
as `Keyword`, offset 5 is uncovered and absent. -/
theorem C4_get_style_at_witness :
    hlW.get_style_at 1 =
      some (hlW.theme.get_style ((hlW.tokens.getD 0 dummyToken).kind)) ∧
    hlW.get_style_at 5 = none :=
  ⟨(C4_get_style_at hlW 1 (by decide) (by decide)).1 0 (by decide) (by decide) (by decide),
   (C4_get_style_at hlW 5 (by decide) (by decide)).2 (by decide)⟩

/-- C5 (corrected): with sorted, disjoint and NON-EMPTY cached spans and
a query range with `start ≤ end`, `get_tokens_in_range` succeeds and
returns the contiguous index window `[i1, i2)` of the cache
characterized exactly by overlap with the range (`range.start <
span.end` and `span.start < range.end`).  (With an empty cached span or
a reversed range the two boundary searches can cross and the Rust slice
expression panics; see the counterexample.) -/
theorem C5_get_tokens_in_range_corrected (s : SyntaxHighlighter) (rs re : Nat)
    (hsd : sortedDisjoint s.tokens = true) (hne : spansNonempty s.tokens = true)
    (hr : rs ≤ re) :
    ∃ i1 i2, i1 ≤ i2 ∧
      s.get_tokens_in_range (rs, re) = some ((s.tokens.drop i1).take (i2 - i1)) ∧
      ∀ i, i < s.tokens.length →
        ((i1 ≤ i ∧ i < i2) ↔
          (rs < (s.tokens.getD i dummyToken).span.stop ∧
           (s.tokens.getD i dummyToken).span.start < re)) :=
  getTokensInRange_spec s rs re hsd hne hr

/-- C5 witness: the one-token cache `[Keyword 0..2]` queried with range
`(1, 2)`. -/
theorem C5_get_tokens_in_range_corrected_witness :
    ∃ i1 i2, i1 ≤ i2 ∧
      hlW.get_tokens_in_range (1, 2) = some ((hlW.tokens.drop i1).take (i2 - i1)) ∧
      ∀ i, i < hlW.tokens.length →
        ((i1 ≤ i ∧ i < i2) ↔
          (1 < (hlW.tokens.getD i dummyToken).span.stop ∧
           (hlW.tokens.getD i dummyToken).span.start < 2)) :=
  C5_get_tokens_in_range_corrected hlW 1 2 (by decide) (by decide) (by decide)

/-- C5 counterexample: a sorted, non-overlapping cache holding the
single empty span `[5, 5)` queried with the range `(5, 5)`: the first
boundary search returns 1, the second returns 0, `start_idx > end_idx`,
and `&tokens[1..0]` panics in the real code (`none` here). -/
theorem C5_counterexample :
    sortedDisjoint hlEmptyTok.tokens = true ∧
    hlEmptyTok.get_tokens_in_range (5, 5) = none := by decide

/-- C6 (code bug): the attribute loop of the HTML scanner does not
advance on input `<a/` once the cursor rests on the final `/` (html.rs
lines 100-165: `/` not followed by `>` neither ends the tag nor counts
as an attribute-name byte), so `tokenize` hangs: the fuelled embedding
returns `none` for every fuel. -/
theorem C6_html_no_progress : ∀ fuel, htmlAttrLoop [60, 97, 47] fuel 2 = none := by
  intro fuel
  induction fuel with
  | zero => rfl
  | succ n ih =>
    rw [show htmlAttrLoop [60, 97, 47] (n + 1) 2 =
        (match htmlAttrLoop [60, 97, 47] n 2 with
         | none => none
         | some r => some r) from rfl, ih]

/-- C7: an unterminated double-quoted string in the C scanner still
yields a `String` token: any step at a `"` byte emits `String` with the
escape scan running to end-of-line or end-of-input, and the 4-byte input
`"abc` yields a single `String` token spanning all 4 bytes. -/
theorem C7_unterminated_string :
    (∀ text q, byteAt text q = 34 →
      cStep text q = (TokenKind.String, scanEsc text 34 text.length (q + 1) false)) ∧
    cTokenize [34, 97, 98, 99] = [Token.mk TokenKind.String (Span.mk 0 4)] := by
  constructor
  · intro text q hq
    simp [cStep, hq, is_whitespace]
  · decide

/-- C7 witness: the general String-step fact applied at the one-byte
input `"`. -/
theorem C7_unterminated_string_witness :
    cStep [34] 0 = (TokenKind.String, scanEsc [34] 34 1 1 false) ∧
    cTokenize [34, 97, 98, 99] = [Token.mk TokenKind.String (Span.mk 0 4)] :=
  ⟨C7_unterminated_string.1 [34] 0 (by decide), C7_unterminated_string.2⟩

/-- C8: `mark_dirty` merges into an existing dirty range by min of
starts and max of ends, sets the range when none existed, and always
leaves a dirty range present. -/
theorem C8_mark_dirty (s : SyntaxHighlighter) (range : Nat × Nat) :
    (∀ d, s.dirty_range = some d →
      (s.mark_dirty range).dirty_range = some (min d.1 range.1, max d.2 range.2)) ∧
    (s.dirty_range = none → (s.mark_dirty range).dirty_range = some range) ∧
    (s.mark_dirty range).dirty_range.isSome = true := by
  refine ⟨?_, ?_, ?_⟩
  · intro d hd
    simp only [SyntaxHighlighter.mark_dirty, hd]
  · intro hd
    simp only [SyntaxHighlighter.mark_dirty, hd]
  · rcases hs : s.dirty_range with _ | d <;>
      simp only [SyntaxHighlighter.mark_dirty, hs] <;> rfl

/-- C8 witness: merging `(1, 9)` into the dirty range `(3, 7)` gives
`(1, 9)`; marking a clean highlighter sets the range. -/
theorem C8_mark_dirty_witness :
    (hlDirty.mark_dirty (1, 9)).dirty_range = some (min 3 1, max 7 9) ∧
    (hlClean.mark_dirty (1, 9)).dirty_range = some (1, 9) :=
  ⟨(C8_mark_dirty hlDirty (1, 9)).1 (3, 7) rfl, (C8_mark_dirty hlClean (1, 9)).2.1 rfl⟩

/-- C9: `from_extension` factors through lowercasing (so it is
case-insensitive), returns `PlainText` on every extension outside the
known table, and in particular maps `"RS"` to Rust and `"unknownext"`
to PlainText. -/
theorem C9_from_extension :
    (∀ e1 e2 : List Nat, toLowerBytes e1 = toLowerBytes e2 →
      from_extension e1 = from_extension e2) ∧
    (∀ e : List Nat, toLowerBytes e ∉ knownExtensions →
      from_extension e = Language.PlainText) ∧
    from_extension (bytes "RS") = Language.Rust ∧
    from_extension (bytes "unknownext") = Language.PlainText := by
  refine ⟨?_, ?_, by decide, by decide⟩
  · intro e1 e2 h
    simp only [from_extension, h]
  · intro e he
    have key : ∀ x : List Nat, x ∉ knownExtensions →
        fromExtLower x = Language.PlainText := by
      intro x hx
      have hnone : extTable.find? (fun p => decide (p.1 = x)) = none := by
        rw [List.find?_eq_none]
        intro p hp hpx
        simp only [decide_eq_true_eq] at hpx
        exact hx (List.mem_map.mpr ⟨p, hp, hpx⟩)
      simp only [fromExtLower, hnone]
      rfl
    exact key (toLowerBytes e) he

/-- C9 witness: case-insensitivity applied at `"RS"`/`"rs"` and the
fallback applied at `"XYZQ"`. -/
theorem C9_from_extension_witness :
    from_extension (bytes "RS") = from_extension (bytes "rs") ∧
    from_extension (bytes "XYZQ") = Language.PlainText :=
  ⟨C9_from_extension.1 (bytes "RS") (bytes "rs") (by decide),
   C9_from_extension.2.1 (bytes "XYZQ") (by decide)⟩

/-- C10: the registry maps TypeScript and JavaScript to the same lexer
(lexer.rs lines 123-124), so tokenizing under TypeScript always equals
tokenizing under JavaScript. -/
theorem C10_typescript_javascript (text : List Nat) :
    tokenizeLang Language.TypeScript text = tokenizeLang Language.JavaScript text := rfl

end Edit
